import Mathlib

/-!
# LibreTV streaming proxy: `functions/proxy/[[path]].js`

A shallow embedding of the Pages Function that proxies HLS playlists, and the
properties of it that its specification states.

## Modelling conventions

* **Strings.**  Every string the function handles is text that was decoded from
  UTF-8 (`response.text()`, `decodeURIComponent`, the request path), so it holds no
  unpaired surrogate.  Such a string is a sequence of Unicode scalar values: `Str`,
  a `List Char`.  All string operations the source uses (`split('\n')`, `trim`,
  `startsWith`, the regular expressions without the `u` flag) cut only at ASCII
  characters, so they act on the scalar values as they act on the UTF-16 code units.
* **Platform functions.**  `encodeURIComponent`, `decodeURIComponent`, `trim`,
  `split`, `join` and the two regular expressions follow ECMAScript.  The `URL`
  class is the platform's (WHATWG) parser: it is a parameter `U : URLApi` of every
  function that constructs a `URL`.
* **Exceptions.**  A function that can throw returns `Res`, with the thrown value in
  `Res.throw`.
* **Asynchronous functions.**  `fetch` and the KV binding are oracles held in
  `Context`; an `async` function returns its outcome together with the list of the
  effects it performed (`Event`).  The mutual recursion of `processM3u8Content` and
  `processMasterPlaylist` is by fuel; `none` means that the fuel ran out.
* `logDebug` only writes to the console when `FUNCTION_CONFIG.DEBUG` is set; it has
  no effect on any result and is left out.
-/

namespace LibreTV

/-- JavaScript string without unpaired surrogates: a sequence of Unicode scalar values. -/
abbrev Str := List Char

/-! ## Configuration -/

/-- Shape of the `FUNCTION_CONFIG` object literal. -/
structure Config where
  CACHE_TTL : Nat
  MAX_RECURSION : Nat
  FILTER_DISCONTINUITY : Bool
  USER_AGENTS : List Str
  DEBUG : Bool

/-- The hard-coded configuration of the function (source lines 6-15). -/
def FUNCTION_CONFIG : Config where
  CACHE_TTL := 86400
  MAX_RECURSION := 5
  FILTER_DISCONTINUITY := true
  USER_AGENTS :=
    ["Mozilla/5.0 (Windows NT 10.0; Win64; x64) AppleWebKit/537.36 (KHTML, like Gecko) Chrome/120.0.0.0 Safari/537.36".toList,
     "Mozilla/5.0 (Macintosh; Intel Mac OS X 10_15_7) AppleWebKit/605.1.15 (KHTML, like Gecko) Version/17.0 Safari/605.1.15".toList]
  DEBUG := false

/-! ## ECMAScript: percent-encoding -/

/-- ECMAScript `uriUnescaped`: ASCII letters, decimal digits and `- _ . ! ~ * ' ( )`;
`encodeURIComponent` copies exactly these characters. -/
def isUriUnescaped (c : Char) : Bool :=
  let n := c.toNat
  (decide (97 ≤ n) && decide (n ≤ 122)) || (decide (65 ≤ n) && decide (n ≤ 90)) ||
  (decide (48 ≤ n) && decide (n ≤ 57)) ||
  n == 45 || n == 95 || n == 46 || n == 33 || n == 126 || n == 42 || n == 39 || n == 40 || n == 41

/-- Upper-case hexadecimal digit of a value below 16. -/
def hexDigit (n : Nat) : Char :=
  if n < 10 then Char.ofNat (48 + n) else Char.ofNat (55 + n)

/-- Value of a hexadecimal digit in either case; `none` for any other character. -/
def hexValue (c : Char) : Option Nat :=
  let n := c.toNat
  if 48 ≤ n ∧ n ≤ 57 then some (n - 48)
  else if 65 ≤ n ∧ n ≤ 70 then some (n - 55)
  else if 97 ≤ n ∧ n ≤ 102 then some (n - 87)
  else none

/-- UTF-8 octets of a code point. -/
def utf8Encode (n : Nat) : List Nat :=
  if n < 0x80 then [n]
  else if n < 0x800 then [0xC0 + n / 64, 0x80 + n % 64]
  else if n < 0x10000 then [0xE0 + n / 4096, 0x80 + n / 64 % 64, 0x80 + n % 64]
  else [0xF0 + n / 262144, 0x80 + n / 4096 % 64, 0x80 + n / 64 % 64, 0x80 + n % 64]

/-- One octet written as `%XX`. -/
def percentEncodeOctet (b : Nat) : Str :=
  ['%', hexDigit (b / 16), hexDigit (b % 16)]

/-- Percent-encoding of all the octets of a character. -/
def percentEncodeOctets : List Nat → Str
  | [] => []
  | b :: bs => percentEncodeOctet b ++ percentEncodeOctets bs

/-- One step of ECMAScript `Encode`: an unescaped character is copied, any other is
replaced by the percent-encoding of its UTF-8 octets. -/
def encodeCodePoint (c : Char) : Str :=
  if isUriUnescaped c then [c] else percentEncodeOctets (utf8Encode c.toNat)

/-- ECMAScript `encodeURIComponent`.  It throws only on an unpaired surrogate, which a
`Str` cannot hold, so it is total here. -/
def encodeURIComponent : Str → Str
  | [] => []
  | c :: cs => encodeCodePoint c ++ encodeURIComponent cs

/-- The units ECMAScript `Decode` reads from left to right: a character other than `%`,
or an escape `%XX` with its octet. -/
inductive UriToken where
  | lit (c : Char)
  | octet (b : Nat)
  deriving DecidableEq, Repr

/-- Where `Decode` stands inside an escape `%XX`: outside, after the `%`, or after the
first hexadecimal digit (with its value). -/
inductive EscapeState where
  | start
  | percent
  | high (a : Nat)
  deriving DecidableEq, Repr

/-- Cuts a string into the units of `Decode`, reading one character at a time; `none`
when a `%` is not followed by two hexadecimal digits (`Decode` throws a `URIError`
there). -/
def uriTokensFrom : Str → EscapeState → Option (List UriToken)
  | [], EscapeState.start => some []
  | [], _ => none
  | c :: rest, EscapeState.start =>
    if c = '%' then uriTokensFrom rest EscapeState.percent
    else (uriTokensFrom rest EscapeState.start).map (fun ts => UriToken.lit c :: ts)
  | c :: rest, EscapeState.percent =>
    match hexValue c with
    | some a => uriTokensFrom rest (EscapeState.high a)
    | none => none
  | c :: rest, EscapeState.high a =>
    match hexValue c with
    | some b =>
      (uriTokensFrom rest EscapeState.start).map (fun ts => UriToken.octet (16 * a + b) :: ts)
    | none => none

/-- The units of a whole string. -/
def uriTokens (s : Str) : Option (List UriToken) := uriTokensFrom s EscapeState.start

/-- Number of leading one bits of an octet; `5` stands for every count above 4. -/
def leadingOnes (b : Nat) : Nat :=
  if b < 0x80 then 0 else if b < 0xC0 then 1 else if b < 0xE0 then 2
  else if b < 0xF0 then 3 else if b < 0xF8 then 4 else 5

/-- Continuation octet of UTF-8: `10xxxxxx`. -/
def isContinuation (b : Nat) : Bool := decide (0x80 ≤ b) && decide (b < 0xC0)

/-- The code point of a multi-octet sequence whose length is the number of leading
one bits of its first octet, when the octets are a valid UTF-8 encoding: continuation
octets `10xxxxxx`, no overlong form, no surrogate, at most `0x10FFFF`. -/
def utf8DecodeCodePoint : List Nat → Option Nat
  | [b, b1] =>
    let v := b % 32 * 64 + b1 % 64
    if isContinuation b1 && decide (0x80 ≤ v) then some v else none
  | [b, b1, b2] =>
    let v := b % 16 * 4096 + b1 % 64 * 64 + b2 % 64
    if isContinuation b1 && isContinuation b2 && decide (0x800 ≤ v) &&
        !(decide (0xD800 ≤ v) && decide (v ≤ 0xDFFF)) then some v else none
  | [b, b1, b2, b3] =>
    let v := b % 8 * 262144 + b1 % 64 * 4096 + b2 % 64 * 64 + b3 % 64
    if isContinuation b1 && isContinuation b2 && isContinuation b3 &&
        decide (0x10000 ≤ v) && decide (v ≤ 0x10FFFF) then some v else none
  | _ => none

/-- The octet-combining part of `Decode`, with the octets collected so far for the
current character in `pending`.  An octet without leading one bit is its ASCII
character; a lead octet with `n` leading one bits, `n` in 2..4, opens a sequence that
the next `n - 1` units must complete with escapes, and the `n` octets must be a valid
UTF-8 encoding; everything else throws a `URIError` (`none`). -/
def decodeTokensFrom : List UriToken → List Nat → Option Str
  | [], [] => some []
  | [], _ :: _ => none
  | UriToken.lit c :: rest, [] => (decodeTokensFrom rest []).map (fun s => c :: s)
  | UriToken.lit _ :: _, _ :: _ => none
  | UriToken.octet b :: rest, [] =>
    if leadingOnes b = 0 then (decodeTokensFrom rest []).map (fun s => Char.ofNat b :: s)
    else if leadingOnes b = 1 ∨ 4 < leadingOnes b then none
    else decodeTokensFrom rest [b]
  | UriToken.octet b :: rest, b0 :: bs =>
    if (b0 :: bs).length + 1 = leadingOnes b0 then
      match utf8DecodeCodePoint (b0 :: bs ++ [b]) with
      | some v => (decodeTokensFrom rest []).map (fun s => Char.ofNat v :: s)
      | none => none
    else decodeTokensFrom rest (b0 :: bs ++ [b])

/-- The text of a list of units. -/
def decodeTokens (ts : List UriToken) : Option Str := decodeTokensFrom ts []

/-- ECMAScript `decodeURIComponent`; `none` stands for the `URIError` it throws. -/
def decodeURIComponent (s : Str) : Option Str :=
  (uriTokens s).bind decodeTokens

/-! ## ECMAScript: string helpers -/

/-- ASCII lower-casing, the only case folding `/.../i` applies to the letters of
`https`. -/
def asciiLower (c : Char) : Char :=
  if 65 ≤ c.toNat ∧ c.toNat ≤ 90 then Char.ofNat (c.toNat + 32) else c

/-- `s.startsWith(p)`. -/
def startsWith (s p : Str) : Bool := p.isPrefixOf s

/-- The test `s.match(/^https?:\/\//i)`: `s` begins with `http://` or `https://`,
letters in either case. -/
def matchesHttpScheme (s : Str) : Bool :=
  startsWith (s.map asciiLower) "http://".toList || startsWith (s.map asciiLower) "https://".toList

/-- The proxy prefix `/proxy/`. -/
def proxyPrefix : Str := "/proxy/".toList

/-- `pathname.replace(/^\/proxy\//, '')`: drops a leading `/proxy/`. -/
def stripProxyPrefix (pathname : Str) : Str :=
  if startsWith pathname proxyPrefix then pathname.drop proxyPrefix.length else pathname

/-! ## Proxy path codec (source lines 44-70 and 139-142) -/

/-- `getTargetUrlFromPath(pathname)`; `none` is the `null` result. -/
def getTargetUrlFromPath (pathname : Str) : Option Str :=
  let encodedUrl := stripProxyPrefix pathname
  if encodedUrl = [] then none
  else
    match decodeURIComponent encodedUrl with
    | some decodedUrl =>
      if !matchesHttpScheme decodedUrl then
        if matchesHttpScheme encodedUrl then some encodedUrl
        else none
      else some decodedUrl
    | none => none

/-- `rewriteUrlToProxy(targetUrl)`. -/
def rewriteUrlToProxy (targetUrl : Str) : Str :=
  proxyPrefix ++ encodeURIComponent targetUrl

/-! ## ECMAScript: lines, trimming, searching -/

/-- ECMAScript `WhiteSpace` and `LineTerminator` code points, which `trim` strips:
TAB, LF, VT, FF, CR, space, NBSP, the other `Zs` spaces, LS, PS and U+FEFF. -/
def isWhiteSpace (c : Char) : Bool :=
  let n := c.toNat
  (decide (9 ≤ n) && decide (n ≤ 13)) || n == 32 || n == 160 || n == 0x1680 ||
  (decide (0x2000 ≤ n) && decide (n ≤ 0x200A)) || n == 0x2028 || n == 0x2029 ||
  n == 0x202F || n == 0x205F || n == 0x3000 || n == 0xFEFF

/-- `s.trim()`. -/
def trim (s : Str) : Str :=
  ((s.dropWhile isWhiteSpace).reverse.dropWhile isWhiteSpace).reverse

/-- `s.split(sep)` for a one-character separator; the empty string gives one empty
piece. -/
def split (sep : Char) : Str → List Str
  | [] => [[]]
  | c :: cs =>
    if c = sep then [] :: split sep cs
    else
      match split sep cs with
      | [] => [[c]]
      | l :: ls => (c :: l) :: ls

/-- `parts.join(sep)` for a one-character separator. -/
def join (sep : Char) : List Str → Str
  | [] => []
  | [l] => l
  | l :: l2 :: ls => l ++ sep :: join sep (l2 :: ls)

/-- `s.endsWith(p)`. -/
def endsWith (s p : Str) : Bool := p.isSuffixOf s

/-- `s.includes(p)`. -/
def includes : Str → Str → Bool
  | [], p => p.isEmpty
  | c :: cs, p => startsWith (c :: cs) p || includes cs p

/-- Number of UTF-16 code units of a character. -/
def utf16Size (c : Char) : Nat := if c.toNat < 0x10000 then 1 else 2

/-- `s.indexOf(p)` from UTF-16 offset `k` on: the offset of the first occurrence, or
`-1`. -/
def indexOfFrom (p : Str) : Str → Nat → Int
  | [], k => if p.isEmpty then (k : Int) else -1
  | c :: cs, k => if startsWith (c :: cs) p then (k : Int) else indexOfFrom p cs (k + utf16Size c)

/-- `s.indexOf(p)`, in UTF-16 code units. -/
def indexOf (s p : Str) : Int := indexOfFrom p s 0

/-- `s.lastIndexOf(p)` from UTF-16 offset `k` on, with `found` the last occurrence met
before. -/
def lastIndexOfFrom (p : Str) : Str → Nat → Int → Int
  | [], k, found => if p.isEmpty then (k : Int) else found
  | c :: cs, k, found =>
    lastIndexOfFrom p cs (k + utf16Size c) (if startsWith (c :: cs) p then (k : Int) else found)

/-- `s.lastIndexOf(p)`, in UTF-16 code units. -/
def lastIndexOf (s p : Str) : Int := lastIndexOfFrom p s 0 (-1)

/-- `s.substring(0, n)` for `n` UTF-16 code units.  A cut in the middle of a surrogate
pair leaves an unpaired surrogate, which reaches the client as U+FFFD. -/
def substringTo : Str → Nat → Str
  | [], _ => []
  | _ :: _, 0 => []
  | c :: cs, n + 1 =>
    if utf16Size c = 1 then c :: substringTo cs n
    else if n = 0 then [Char.ofNat 0xFFFD]
    else c :: substringTo cs (n - 1)

/-! ## Thrown values -/

/-- The values the function throws. -/
inductive JSError where
  /-- `new Error(message)`. -/
  | Error (message : Str)
  /-- The `TypeError` of `new URL(input)` on an input it cannot parse. -/
  | TypeError (input : Str)
  /-- The `URIError` of `decodeURIComponent`. -/
  | URIError
  deriving DecidableEq, Repr

/-- Result of code that may throw. -/
inductive Res (α : Type) where
  | ok (value : α)
  | throw (error : JSError)
  deriving DecidableEq, Repr

/-- Sequencing: the continuation runs only when nothing was thrown. -/
def Res.bind {α β : Type} (r : Res α) (f : α → Res β) : Res β :=
  match r with
  | Res.ok a => f a
  | Res.throw e => Res.throw e

/-- Applies a function to the value of a result. -/
def Res.map {α β : Type} (f : α → β) (r : Res α) : Res β :=
  match r with
  | Res.ok a => Res.ok (f a)
  | Res.throw e => Res.throw e

/-! ## The platform's `URL` class -/

/-- The fields of a `URL` object that the function reads. -/
structure URLRecord where
  /-- `url.toString()`. -/
  href : Str
  origin : Str
  pathname : Str
  deriving DecidableEq, Repr

/-- The platform's URL parser: `parse input none` is `new URL(input)` and
`parse input (some base)` is `new URL(input, base)`; `none` is the `TypeError` the
constructor throws, and `invalidUrlMessage input` is the `message` of that error, in
the platform's wording. -/
structure URLApi where
  parse : Str → Option Str → Option URLRecord
  invalidUrlMessage : Str → Str

/-! ## URL helpers (source lines 102-136) -/

/-- `getBaseUrl(urlStr)`: the origin and the directory of the path when the URL parses,
else the text up to the last slash that is not part of `://`. -/
def getBaseUrl (U : URLApi) (urlStr : Str) : Str :=
  match U.parse urlStr none with
  | some parsedUrl =>
    let pathParts := (split '/' parsedUrl.pathname).dropLast
    parsedUrl.origin ++ join '/' pathParts ++ "/".toList
  | none =>
    let lastSlashIndex := lastIndexOf urlStr "/".toList
    if lastSlashIndex > indexOf urlStr "://".toList + 2 then
      substringTo urlStr (lastSlashIndex + 1).toNat
    else urlStr ++ "/".toList

/-- `resolveUrl(baseUrl, relativeUrl)`.  The `new URL(baseUrl)` of the fallback is not
guarded, so its `TypeError` escapes. -/
def resolveUrl (U : URLApi) (baseUrl relativeUrl : Str) : Res Str :=
  if matchesHttpScheme relativeUrl then Res.ok relativeUrl
  else
    match U.parse relativeUrl (some baseUrl) with
    | some u => Res.ok u.href
    | none =>
      if startsWith relativeUrl "/".toList then
        match U.parse baseUrl none with
        | some urlObj => Res.ok (urlObj.origin ++ relativeUrl)
        | none => Res.throw (JSError.TypeError baseUrl)
      else Res.ok (baseUrl ++ relativeUrl)

/-! ## Playlist classification (source lines 181-188) -/

/-- `isM3u8Content(content, contentType)`. -/
def isM3u8Content (content contentType : Str) : Bool :=
  if !contentType.isEmpty &&
      (includes contentType "application/vnd.apple.mpegurl".toList ||
       includes contentType "application/x-mpegurl".toList ||
       includes contentType "audio/mpegurl".toList) then true
  else !content.isEmpty && startsWith (trim content) "#EXTM3U".toList

/-! ## Media playlist rewriting (source lines 213-277) -/

/-- The text `URI="` that opens the attribute. -/
def uriAttrOpen : Str := "URI=".toList ++ ['"']

/-- A match of `/URI="([^"]+)"/` at the very start of `s`: the captured group and the
text after the closing quote.  The group is the longest run without a quote, so the
match exists exactly when that run is not empty and a quote follows it. -/
def matchUriAttrAt (s : Str) : Option (Str × Str) :=
  if startsWith s uriAttrOpen then
    let r := s.drop uriAttrOpen.length
    let uri := r.takeWhile (fun c => c != '"')
    match r.dropWhile (fun c => c != '"') with
    | _ :: post => if uri.isEmpty then none else some (uri, post)
    | [] => none
  else none

/-- The leftmost match of `/URI="([^"]+)"/` in a line: the text before it, the captured
group and the text after it. -/
def findUriAttr : Str → Option (Str × Str × Str)
  | [] => none
  | c :: cs =>
    match matchUriAttrAt (c :: cs) with
    | some (uri, post) => some ([], uri, post)
    | none => (findUriAttr cs).map (fun m => (c :: m.1, m.2.1, m.2.2))

/-- `line.replace(/URI="([^"]+)"/, (match, uri) => ...)` of `processKeyLine` and
`processMapLine`: only the leftmost match is replaced. -/
def replaceUriAttr (U : URLApi) (line baseUrl : Str) : Res Str :=
  match findUriAttr line with
  | none => Res.ok line
  | some (pre, uri, post) =>
    (resolveUrl U baseUrl uri).map
      (fun absoluteUri => pre ++ uriAttrOpen ++ rewriteUrlToProxy absoluteUri ++ '"' :: post)

/-- `processKeyLine(line, baseUrl)`. -/
def processKeyLine (U : URLApi) (line baseUrl : Str) : Res Str :=
  replaceUriAttr U line baseUrl

/-- `processMapLine(line, baseUrl)`. -/
def processMapLine (U : URLApi) (line baseUrl : Str) : Res Str :=
  replaceUriAttr U line baseUrl

/-- The discontinuity marker. -/
def discontinuityMarker : Str := "#EXT-X-DISCONTINUITY".toList

/-- The body of the `for` loop of `processMediaPlaylist` past the blank-line tests, on a
trimmed non-empty line: `none` when the line is skipped, else the line pushed to the
output. -/
def processMediaLine (U : URLApi) (baseUrl line : Str) : Res (Option Str) :=
  if FUNCTION_CONFIG.FILTER_DISCONTINUITY && decide (line = discontinuityMarker) then Res.ok none
  else if startsWith line "#EXT-X-KEY".toList then (processKeyLine U line baseUrl).map some
  else if startsWith line "#EXT-X-MAP".toList then (processMapLine U line baseUrl).map some
  else if startsWith line "#EXTINF".toList then Res.ok (some line)
  else if !startsWith line "#".toList then
    (resolveUrl U baseUrl line).map (fun absoluteUrl => some (rewriteUrlToProxy absoluteUrl))
  else Res.ok (some line)

/-- The `for` loop of `processMediaPlaylist` over the lines from index `i` on: the
lines it pushes to `output`.  The list is empty after the last line, so `rest = []`
is the test `i === lines.length - 1`. -/
def processMediaLines (U : URLApi) (baseUrl : Str) : List Str → Res (List Str)
  | [] => Res.ok []
  | l :: rest =>
    let line := trim l
    if line.isEmpty && rest.isEmpty then Res.ok [line]
    else if line.isEmpty then processMediaLines U baseUrl rest
    else
      (processMediaLine U baseUrl line).bind (fun o =>
        (processMediaLines U baseUrl rest).map (fun out =>
          match o with
          | some x => x :: out
          | none => out))

/-- `processMediaPlaylist(url, content)`. -/
def processMediaPlaylist (U : URLApi) (url content : Str) : Res Str :=
  let baseUrl := getBaseUrl U url
  let lines := split '\n' content
  (processMediaLines U baseUrl lines).map (join '\n')

/-! ## Variant selection of a master playlist (source lines 298-342) -/

/-- The marker of a stream-variant declaration. -/
def streamInfMarker : Str := "#EXT-X-STREAM-INF".toList

/-- ASCII decimal digit, the class `\d` of a regular expression without the `u` flag. -/
def isDigit (c : Char) : Bool := decide (48 ≤ c.toNat) && decide (c.toNat ≤ 57)

/-- The text `BANDWIDTH=`. -/
def bandwidthKey : Str := "BANDWIDTH=".toList

/-- A match of `/BANDWIDTH=(\d+)/` at the very start of `s`: the captured digits. -/
def matchBandwidthAt (s : Str) : Option Str :=
  if startsWith s bandwidthKey then
    let digits := (s.drop bandwidthKey.length).takeWhile isDigit
    if digits.isEmpty then none else some digits
  else none

/-- The group captured by the leftmost match of `/BANDWIDTH=(\d+)/` in a line. -/
def findBandwidth : Str → Option Str
  | [] => none
  | c :: cs =>
    match matchBandwidthAt (c :: cs) with
    | some digits => some digits
    | none => findBandwidth cs

/-- The integer that a run of decimal digits writes. -/
def decimalValue (digits : Str) : Nat :=
  digits.foldl (fun acc c => 10 * acc + (c.toNat - 48)) 0

/-- How many binary digits `n` has beyond 53: the number of halvings that bring `n` below
`2 ^ 53`, with `fuel` an upper bound of that number. -/
def excessBits : Nat → Nat → Nat
  | 0, _ => 0
  | fuel + 1, n => if n < 2 ^ 53 then 0 else excessBits fuel (n / 2) + 1

/-- The Number value of a non-negative integer `n` with at most `fuel` binary digits:
`n` itself below `2 ^ 53`, else `n` rounded to 53 significant binary digits, to the
nearest and to the even one of two that are equally near.  `2 ^ 1024`, which is above
every double, stands for `Infinity`: the rounded value `rounded * 2 ^ e`, with `rounded`
from `2 ^ 52` to `2 ^ 53`, reaches `2 ^ 1024` when `e` is above 971, or is 971 with
`rounded = 2 ^ 53`. -/
def toNumber (fuel n : Nat) : Nat :=
  if n < 2 ^ 53 then n
  else
    let e := excessBits fuel n
    let q := n / 2 ^ e
    let r := n % 2 ^ e
    let rounded := if 2 ^ e < 2 * r ∨ (2 * r = 2 ^ e ∧ q % 2 = 1) then q + 1 else q
    if 971 < e ∨ (e = 971 ∧ rounded = 2 ^ 53) then 2 ^ 1024 else rounded * 2 ^ e

/-- `parseInt(digits, 10)` on a non-empty run of decimal digits: the Number value of the
integer the digits write, a double.  Every digit counts (ECMAScript lets an
implementation read the digits after the twentieth as zeros).  A run of `k` decimal
digits has at most `4 * k` binary digits. -/
def parseInt (digits : Str) : Nat :=
  toNumber (4 * digits.length) (decimalValue digits)

/-- The bandwidth read from a declaration line: the number after the leftmost
`BANDWIDTH=` that digits follow, `0` without one. -/
def currentBandwidth (line : Str) : Int :=
  match findBandwidth line with
  | some digits => (parseInt digits : Int)
  | none => 0

/-- The inner `for (j = i + 1; ...)` loop over the lines after a declaration: the first
line that, trimmed, is neither empty nor a comment, with `j - (i + 1)`. -/
def findVariantUriLine : List Str → Option (Str × Nat)
  | [] => none
  | l :: rest =>
    let line := trim l
    if !line.isEmpty && !startsWith line "#".toList then some (line, 0)
    else (findVariantUriLine rest).map (fun r => (r.1, r.2 + 1))

/-- The outer `for` loop of the bandwidth scan over the lines from index `i` on, with
`(highestBandwidth, bestVariantUrl)` as state.  `skip` counts the lines the assignment
`i = j` jumps over. -/
def scanVariants (U : URLApi) (baseUrl : Str) : List Str → Nat → Int × Str → Res (Int × Str)
  | [], _, st => Res.ok st
  | _ :: rest, skip + 1, st => scanVariants U baseUrl rest skip st
  | l :: rest, 0, st =>
    if startsWith l streamInfMarker then
      match findVariantUriLine rest with
      | some (variantUriLine, offset) =>
        if currentBandwidth l ≥ st.1 then
          match resolveUrl U baseUrl variantUriLine with
          | Res.ok u => scanVariants U baseUrl rest (offset + 1) (currentBandwidth l, u)
          | Res.throw e => Res.throw e
        else scanVariants U baseUrl rest (offset + 1) st
      | none => scanVariants U baseUrl rest 0 st
    else scanVariants U baseUrl rest 0 st

/-- The fallback loop: the first line that, trimmed, is not empty, is no comment and ends
in `.m3u8` or contains `m3u8?`, resolved; the empty string when there is none. -/
def findSubPlaylist (U : URLApi) (baseUrl : Str) : List Str → Res Str
  | [] => Res.ok []
  | l :: rest =>
    let line := trim l
    if !line.isEmpty && !startsWith line "#".toList &&
        (endsWith line ".m3u8".toList || includes line "m3u8?".toList) then
      resolveUrl U baseUrl line
    else findSubPlaylist U baseUrl rest

/-- The value of `bestVariantUrl` when `processMasterPlaylist` reaches the test of
source line 345: the result of the bandwidth scan, or of the fallback loop when the scan
left it empty. -/
def selectVariantUrl (U : URLApi) (baseUrl : Str) (lines : List Str) : Res Str :=
  (scanVariants U baseUrl lines 0 (-1, [])).bind (fun st =>
    if st.2.isEmpty then findSubPlaylist U baseUrl lines else Res.ok st.2)

/-! ## Requests, responses, fetch and the KV binding -/

/-- A `Headers` object: names in lower case, one entry per name. -/
abbrev Headers := List (Str × Str)

/-- `headers.set(name, value)`. -/
def headersSet (h : Headers) (name value : Str) : Headers :=
  h.filter (fun e => e.1 != name.map asciiLower) ++ [(name.map asciiLower, value)]

/-- `new Headers(init)` from the entries of an object or of another `Headers`. -/
def headersNew (init : List (Str × Str)) : Headers :=
  init.foldl (fun h e => headersSet h e.1 e.2) []

/-- `headers.get(name)`; `none` is `null`. -/
def headersGet (h : List (Str × Str)) (name : Str) : Option Str :=
  (h.find? (fun e => e.1.map asciiLower == name.map asciiLower)).map (fun e => e.2)

/-- A `Response` object; `body = none` is the `null` body. -/
structure Response where
  body : Option Str
  status : Nat
  headers : Headers
  deriving DecidableEq, Repr

/-- What `processM3u8Content` resolves to: a string, or the `Response` object that
`processMasterPlaylist` builds for a variant that is no playlist. -/
inductive Value where
  | text (s : Str)
  | response (r : Response)
  deriving DecidableEq, Repr

/-- The body text `new Response(body)` stores: a string as it is, any other object
through `String(body)`. -/
def Value.bodyText : Value → Str
  | Value.text s => s
  | Value.response _ => "[object Response]".toList

/-- What the global `fetch` does with a URL: it resolves to a response, or rejects with
an error of the given message. -/
inductive FetchOutcome where
  | response (status : Nat) (statusText : Str) (body : Str) (headers : List (Str × Str))
  | reject (message : Str)
  deriving DecidableEq, Repr

/-- An entry of the raw tier as `get(key, { type: 'json' })` returns it.  The tier holds
what `onRequest` wrote: an object with the strings `body` and `headers`, the latter the
JSON text of a headers object; an empty string stands for a field that is missing or
falsy.  `parsedHeaders` is `JSON.parse(headers)`, an object with string values, one
entry per key, with `none` when `JSON.parse` throws. -/
structure RawEntry where
  body : Str
  headers : Str
  parsedHeaders : Option (List (Str × Str))
  deriving DecidableEq, Repr

/-- The KV namespace binding; `get key` resolves to the stored string or to `null`
(`none`), or rejects; `getJson key` is `get(key, { type: 'json' })`. -/
structure KVNamespace where
  get : Str → Res (Option Str)
  getJson : Str → Res (Option RawEntry)

/-- The `env` object of the function. -/
structure Env where
  LIBRETV_PROXY_KV : Option KVNamespace

/-- The incoming request, as far as the helpers read it. -/
structure Request where
  method : Str

/-- The `context` of `onRequest`, together with the global `fetch` as this request sees
it. -/
structure Context where
  request : Request
  env : Env
  fetch : Str → FetchOutcome

/-- The effects an `async` helper performs, in order. -/
inductive Event where
  | fetch (url : Str)
  | kvGet (key : Str)
  /-- `waitUntil(kvNamespace.put(key, value, { expirationTtl }))`. -/
  | kvPut (key : Str) (value : Value) (expirationTtl : Nat)
  /-- The write of the raw tier: `put` of the JSON text of `{ body, headers }`, where
  `headers` is the JSON text of the object `headersToCache`. -/
  | kvPutRaw (key : Str) (body : Str) (headersToCache : List (Str × Str)) (expirationTtl : Nat)
  deriving DecidableEq, Repr

/-- The headers of `new Response(body, { headers })`: a body that is not `null` is stored
as text, and when the headers name no `Content-Type` the constructor adds
`text/plain;charset=UTF-8`. -/
def responseInitHeaders (body : Option Value) (headers : Headers) : Headers :=
  match body with
  | none => headers
  | some _ =>
    match headersGet headers "Content-Type".toList with
    | some _ => headers
    | none => headers ++ [("content-type".toList, "text/plain;charset=UTF-8".toList)]

/-- `createResponse(body, status, headers)` (source lines 73-86). -/
def createResponse (request : Request) (body : Option Value) (status : Nat)
    (headers : List (Str × Str)) : Response :=
  let responseHeaders :=
    headersSet
      (headersSet
        (headersSet (headersNew headers) "Access-Control-Allow-Origin".toList "*".toList)
        "Access-Control-Allow-Methods".toList "GET, HEAD, POST, OPTIONS".toList)
      "Access-Control-Allow-Headers".toList "*".toList
  if request.method = "OPTIONS".toList then
    { body := none, status := 204, headers := responseHeaders }
  else
    { body := body.map Value.bodyText, status := status,
      headers := responseInitHeaders body responseHeaders }

/-- What `fetchContentWithType` resolves to. -/
structure FetchedContent where
  content : Str
  contentType : Str
  responseHeaders : List (Str × Str)
  deriving DecidableEq, Repr

/-- The message of the error thrown for a response that is not `ok`. -/
def httpErrorMessage (status : Nat) (statusText targetUrl errorBody : Str) : Str :=
  "HTTP error ".toList ++ (Nat.repr status).toList ++ ": ".toList ++ statusText ++
    ". URL: ".toList ++ targetUrl ++ ". Body: ".toList ++ substringTo errorBody 150

/-- The message of the error `fetchContentWithType` rethrows. -/
def fetchFailedMessage (targetUrl message : Str) : Str :=
  "请求目标URL失败 ".toList ++ targetUrl ++ ": ".toList ++ message

/-- `fetchContentWithType(targetUrl)` (source lines 145-178).  The `Referer` header is
`new URL(targetUrl).origin`, evaluated before the `try`. -/
def fetchContentWithType (U : URLApi) (ctx : Context) (targetUrl : Str) :
    Res FetchedContent × List Event :=
  match U.parse targetUrl none with
  | none => (Res.throw (JSError.TypeError targetUrl), [])
  | some _ =>
    match ctx.fetch targetUrl with
    | FetchOutcome.reject message =>
      (Res.throw (JSError.Error (fetchFailedMessage targetUrl message)), [Event.fetch targetUrl])
    | FetchOutcome.response status statusText body headers =>
      if 200 ≤ status ∧ status ≤ 299 then
        (Res.ok { content := body,
                  contentType := (headersGet headers "Content-Type".toList).getD [],
                  responseHeaders := headers },
         [Event.fetch targetUrl])
      else
        (Res.throw (JSError.Error
            (fetchFailedMessage targetUrl (httpErrorMessage status statusText targetUrl body))),
         [Event.fetch targetUrl])

/-- The read of the processed tier: `kvNamespace.get(cacheKey)` when the binding is
there; a hit is a non-empty string. -/
def kvLookup (ctx : Context) (cacheKey : Str) : Res (Option Str) × List Event :=
  match ctx.env.LIBRETV_PROXY_KV with
  | none => (Res.ok none, [])
  | some kvNamespace =>
    match kvNamespace.get cacheKey with
    | Res.ok (some cachedContent) =>
      if cachedContent.isEmpty then (Res.ok none, [Event.kvGet cacheKey])
      else (Res.ok (some cachedContent), [Event.kvGet cacheKey])
    | Res.ok none => (Res.ok none, [Event.kvGet cacheKey])
    | Res.throw e => (Res.throw e, [Event.kvGet cacheKey])

/-- The write of the processed tier, when the binding is there. -/
def kvStore (ctx : Context) (cacheKey : Str) (value : Value) : List Event :=
  match ctx.env.LIBRETV_PROXY_KV with
  | none => []
  | some _ => [Event.kvPut cacheKey value FUNCTION_CONFIG.CACHE_TTL]

/-! ## Recursive resolution (source lines 280-396) -/

/-- The message of the recursion-limit error. -/
def recursionLimitMessage (url : Str) : Str :=
  "处理主列表时递归层数过多 (".toList ++ (Nat.repr FUNCTION_CONFIG.MAX_RECURSION).toList ++
    "): ".toList ++ url

/-- The key of a variant in the processed tier. -/
def processedCacheKey (bestVariantUrl : Str) : Str :=
  "m3u8_processed:".toList ++ bestVariantUrl

mutual

/-- `processM3u8Content(targetUrl, content, recursionDepth, env)`, with fuel for the
nesting of calls. -/
def processM3u8Content (U : URLApi) (ctx : Context) :
    Nat → Str → Str → Nat → Option (Res Value × List Event)
  | 0, _, _, _ => none
  | fuel + 1, targetUrl, content, recursionDepth =>
    if includes content "#EXT-X-STREAM-INF".toList || includes content "#EXT-X-MEDIA:".toList then
      processMasterPlaylist U ctx fuel targetUrl content recursionDepth
    else some ((processMediaPlaylist U targetUrl content).map Value.text, [])

/-- `processMasterPlaylist(url, content, recursionDepth, env)`, with fuel for the nesting
of calls. -/
def processMasterPlaylist (U : URLApi) (ctx : Context) :
    Nat → Str → Str → Nat → Option (Res Value × List Event)
  | 0, _, _, _ => none
  | fuel + 1, url, content, recursionDepth =>
    if recursionDepth > FUNCTION_CONFIG.MAX_RECURSION then
      some (Res.throw (JSError.Error (recursionLimitMessage url)), [])
    else
      match selectVariantUrl U (getBaseUrl U url) (split '\n' content) with
      | Res.throw e => some (Res.throw e, [])
      | Res.ok bestVariantUrl =>
        if bestVariantUrl.isEmpty then
          some ((processMediaPlaylist U url content).map Value.text, [])
        else
          match kvLookup ctx (processedCacheKey bestVariantUrl) with
          | (Res.throw e, evCache) => some (Res.throw e, evCache)
          | (Res.ok (some cachedContent), evCache) => some (Res.ok (Value.text cachedContent), evCache)
          | (Res.ok none, evCache) =>
            match fetchContentWithType U ctx bestVariantUrl with
            | (Res.throw e, evFetch) => some (Res.throw e, evCache ++ evFetch)
            | (Res.ok variant, evFetch) =>
              if !isM3u8Content variant.content variant.contentType then
                some (Res.ok (Value.response (createResponse ctx.request
                        (some (Value.text variant.content)) 200
                        [("Content-Type".toList,
                          if variant.contentType.isEmpty then "application/octet-stream".toList
                          else variant.contentType)])),
                      evCache ++ evFetch)
              else
                match processM3u8Content U ctx fuel bestVariantUrl variant.content
                    (recursionDepth + 1) with
                | none => none
                | some (Res.throw e, evRec) => some (Res.throw e, evCache ++ evFetch ++ evRec)
                | some (Res.ok processedVariant, evRec) =>
                  some (Res.ok processedVariant,
                    evCache ++ evFetch ++ evRec ++
                      kvStore ctx (processedCacheKey bestVariantUrl) processedVariant)

end

/-! ## The request handler (source lines 88-94 and 400-479) -/

/-- The MIME type of a rewritten playlist. -/
def hlsMimeType : Str := "application/vnd.apple.mpegurl".toList

/-- The `Cache-Control` value the handler sets. -/
def cacheControlValue : Str :=
  "public, max-age=".toList ++ (Nat.repr FUNCTION_CONFIG.CACHE_TTL).toList

/-- `createM3u8Response(content)`.  The argument is whatever `processM3u8Content` resolved
to. -/
def createM3u8Response (request : Request) (content : Value) : Response :=
  createResponse request (some content) 200
    [("Content-Type".toList, hlsMimeType), ("Cache-Control".toList, cacheControlValue)]

/-- `error.message` of a thrown value. -/
def JSError.message (U : URLApi) : JSError → Str
  | JSError.Error message => message
  | JSError.TypeError input => U.invalidUrlMessage input
  | JSError.URIError => "URI malformed".toList

/-- The response of the `catch` of the handler (source lines 474-479). -/
def errorResponse (U : URLApi) (request : Request) (error : JSError) : Response :=
  createResponse request (some (Value.text ("代理处理错误: ".toList ++ error.message U))) 500 []

/-- The body of the status 400 response. -/
def invalidRequestMessage : Str := "无效的代理请求。路径应为 /proxy/<经过编码的URL>".toList

/-- The key of a target in the raw tier. -/
def rawCacheKey (targetUrl : Str) : Str := "proxy_raw:".toList ++ targetUrl

/-- A property read `object[key]` on an object with string values; `none` is
`undefined`. -/
def objectGet (entries : List (Str × Str)) (key : Str) : Option Str :=
  (entries.find? (fun e => e.1 == key)).map (fun e => e.2)

/-- `a || b` for `a` a string or `undefined`. -/
def orString (a : Option Str) (b : Str) : Str :=
  match a with
  | some v => if v.isEmpty then b else v
  | none => b

/-- The headers object of a raw-tier hit: `JSON.parse(cachedData.headers)`, or `{}` when
that throws. -/
def cachedHeaders (cachedData : RawEntry) : List (Str × Str) :=
  cachedData.parsedHeaders.getD []

/-- `headers['content-type'] || headers['Content-Type'] || ''` on a raw-tier hit. -/
def cachedContentType (cachedData : RawEntry) : Str :=
  orString (objectGet (cachedHeaders cachedData) "content-type".toList)
    (orString (objectGet (cachedHeaders cachedData) "Content-Type".toList) [])

/-- The read of the raw tier (source lines 421-445): a hit is an entry whose `body` and
`headers` are both truthy. -/
def rawLookup (ctx : Context) (cacheKey : Str) : Res (Option RawEntry) × List Event :=
  match ctx.env.LIBRETV_PROXY_KV with
  | none => (Res.ok none, [])
  | some kvNamespace =>
    match kvNamespace.getJson cacheKey with
    | Res.ok (some cachedData) =>
      if !cachedData.body.isEmpty && !cachedData.headers.isEmpty then
        (Res.ok (some cachedData), [Event.kvGet cacheKey])
      else (Res.ok none, [Event.kvGet cacheKey])
    | Res.ok none => (Res.ok none, [Event.kvGet cacheKey])
    | Res.throw e => (Res.throw e, [Event.kvGet cacheKey])

/-- The write of the raw tier (source lines 451-458), when the binding is there. -/
def rawStore (ctx : Context) (cacheKey : Str) (fetched : FetchedContent) : List Event :=
  match ctx.env.LIBRETV_PROXY_KV with
  | none => []
  | some _ =>
    [Event.kvPutRaw cacheKey fetched.content
      (fetched.responseHeaders.map (fun e => (e.1.map asciiLower, e.2)))
      FUNCTION_CONFIG.CACHE_TTL]

/-- The two places where the handler rewrites a playlist (source lines 434-436 and
464-465): `createM3u8Response(await processM3u8Content(targetUrl, content, 0, env))`,
with the `catch` of the handler for what is thrown. -/
def respondWithPlaylist (U : URLApi) (ctx : Context) (fuel : Nat) (targetUrl content : Str)
    (events : List Event) : Option (Response × List Event) :=
  match processM3u8Content U ctx fuel targetUrl content 0 with
  | none => none
  | some (Res.ok processedM3u8, ev) =>
    some (createM3u8Response ctx.request processedM3u8, events ++ ev)
  | some (Res.throw e, ev) => some (errorResponse U ctx.request e, events ++ ev)

/-- `onRequest(context)`, with `pathname` the value of `new URL(request.url).pathname` and
fuel for the nesting of calls inside `processM3u8Content`. -/
def onRequest (U : URLApi) (ctx : Context) (pathname : Str) (fuel : Nat) :
    Option (Response × List Event) :=
  match getTargetUrlFromPath pathname with
  | none =>
    some (createResponse ctx.request (some (Value.text invalidRequestMessage)) 400 [], [])
  | some targetUrl =>
    match rawLookup ctx (rawCacheKey targetUrl) with
    | (Res.throw e, evCache) => some (errorResponse U ctx.request e, evCache)
    | (Res.ok (some cachedData), evCache) =>
      if isM3u8Content cachedData.body (cachedContentType cachedData) then
        respondWithPlaylist U ctx fuel targetUrl cachedData.body evCache
      else
        some (createResponse ctx.request (some (Value.text cachedData.body)) 200
          (cachedHeaders cachedData), evCache)
    | (Res.ok none, evCache) =>
      match fetchContentWithType U ctx targetUrl with
      | (Res.throw e, evFetch) => some (errorResponse U ctx.request e, evCache ++ evFetch)
      | (Res.ok fetched, evFetch) =>
        if isM3u8Content fetched.content fetched.contentType then
          respondWithPlaylist U ctx fuel targetUrl fetched.content
            (evCache ++ evFetch ++ rawStore ctx (rawCacheKey targetUrl) fetched)
        else
          some (createResponse ctx.request (some (Value.text fetched.content)) 200
            (headersSet (headersNew fetched.responseHeaders) "Cache-Control".toList
              cacheControlValue),
            evCache ++ evFetch ++ rawStore ctx (rawCacheKey targetUrl) fetched)

/-! ## One activation of `processMasterPlaylist` -/

/-- How one activation of `processMasterPlaylist` goes on: it returns or throws without
a recursive call, or it calls `processM3u8Content` on the variant it fetched, after the
effects `events`. -/
inductive MasterStep where
  | done (result : Res Value × List Event)
  | recurse (bestVariantUrl variantContent : Str) (events : List Event)

/-- The body of `processMasterPlaylist` up to its recursive call. -/
def masterStep (U : URLApi) (ctx : Context) (url content : Str) (recursionDepth : Nat) :
    MasterStep :=
  if recursionDepth > FUNCTION_CONFIG.MAX_RECURSION then
    MasterStep.done (Res.throw (JSError.Error (recursionLimitMessage url)), [])
  else
    match selectVariantUrl U (getBaseUrl U url) (split '\n' content) with
    | Res.throw e => MasterStep.done (Res.throw e, [])
    | Res.ok bestVariantUrl =>
      if bestVariantUrl.isEmpty then
        MasterStep.done ((processMediaPlaylist U url content).map Value.text, [])
      else
        match kvLookup ctx (processedCacheKey bestVariantUrl) with
        | (Res.throw e, evCache) => MasterStep.done (Res.throw e, evCache)
        | (Res.ok (some cachedContent), evCache) =>
          MasterStep.done (Res.ok (Value.text cachedContent), evCache)
        | (Res.ok none, evCache) =>
          match fetchContentWithType U ctx bestVariantUrl with
          | (Res.throw e, evFetch) => MasterStep.done (Res.throw e, evCache ++ evFetch)
          | (Res.ok variant, evFetch) =>
            if !isM3u8Content variant.content variant.contentType then
              MasterStep.done
                (Res.ok (Value.response (createResponse ctx.request
                    (some (Value.text variant.content)) 200
                    [("Content-Type".toList,
                      if variant.contentType.isEmpty then "application/octet-stream".toList
                      else variant.contentType)])),
                  evCache ++ evFetch)
            else MasterStep.recurse bestVariantUrl variant.content (evCache ++ evFetch)

/-- The body of `processMasterPlaylist` after its recursive call has settled. -/
def masterFinish (ctx : Context) (bestVariantUrl : Str) (events : List Event)
    (r : Res Value × List Event) : Res Value × List Event :=
  match r with
  | (Res.throw e, evRec) => (Res.throw e, events ++ evRec)
  | (Res.ok processedVariant, evRec) =>
    (Res.ok processedVariant,
      events ++ evRec ++ kvStore ctx (processedCacheKey bestVariantUrl) processedVariant)

/-! ## Notions the specification uses -/

/-- The units `Decode` reads back from the encoding of one character. -/
def charTokens (c : Char) : List UriToken :=
  if isUriUnescaped c then [UriToken.lit c] else (utf8Encode c.toNat).map UriToken.octet

/-- Applies a function that may throw to every element, stopping at the first throw. -/
def Res.mapList {α β : Type} (f : α → Res β) : List α → Res (List β)
  | [] => Res.ok []
  | a :: as => (f a).bind (fun b => (Res.mapList f as).map (fun bs => b :: bs))

/-- The lines of a text: its pieces between newlines. -/
def linesOf (s : Str) : List Str := split '\n' s

/-- Specification, section 4.5: a trimmed line is retained when it is not blank and is
not the discontinuity marker. -/
def retained (line : Str) : Bool := !line.isEmpty && line != discontinuityMarker

/-- Specification, section 4.5: the image of a retained line.  A key or
initialization-segment declaration has its quoted URI replaced, any other marker line
is passed through, and a line that is no marker line is replaced by the proxy path of
its resolved URL. -/
def transformLine (U : URLApi) (baseUrl line : Str) : Res Str :=
  if startsWith line "#EXT-X-KEY".toList || startsWith line "#EXT-X-MAP".toList then
    replaceUriAttr U line baseUrl
  else if startsWith line "#".toList then Res.ok line
  else (resolveUrl U baseUrl line).map rewriteUrlToProxy

/-- Specification, section 4.5: one empty line is kept exactly when the last input line
is blank. -/
def trailingBlank (lines : List Str) : List Str :=
  match lines.getLast? with
  | some l => if (trim l).isEmpty then [[]] else []
  | none => []

/-- Specification, section 4.5: the output lines of the rewriter, following the words
of the specification: the images of the retained lines, in order, then the trailing
blank line. -/
def expectedMediaLines (U : URLApi) (baseUrl : Str) (lines : List Str) : Res (List Str) :=
  (Res.mapList (transformLine U baseUrl) ((lines.map trim).filter retained)).map
    (fun out => out ++ trailingBlank lines)

/-- The number of input lines the rewriter drops: the blank lines and the discontinuity
markers, except a blank last line. -/
def filteredCount (lines : List Str) : Nat :=
  ((lines.map trim).filter (fun l => l.isEmpty || l == discontinuityMarker)).length
    - (trailingBlank lines).length

/-- A stream-variant declaration with the lines up to the next declaration: the
declaration line, the blank and comment lines before its URI line, the URI line, and
the lines after it. -/
structure VariantBlock where
  decl : Str
  comments : List Str
  uri : Str
  tail : List Str

/-- The lines of a declaration block, in order. -/
def VariantBlock.lines (b : VariantBlock) : List Str :=
  b.decl :: (b.comments ++ b.uri :: b.tail)

/-- A declaration followed by its URI line before the next declaration: the first line
is a declaration, the lines before the URI line are blank or comments and no
declarations, the URI line is neither, and no declaration follows in the block. -/
def VariantBlock.WellFormed (b : VariantBlock) : Prop :=
  startsWith b.decl streamInfMarker = true ∧
  (∀ l ∈ b.comments,
    ((trim l).isEmpty || startsWith (trim l) "#".toList) = true ∧
    startsWith l streamInfMarker = false) ∧
  ((trim b.uri).isEmpty = false ∧ startsWith (trim b.uri) "#".toList = false) ∧
  (∀ l ∈ b.tail, startsWith l streamInfMarker = false)

/-! ## Results of the WHATWG URL parser on the URLs of the examples -/

/-- Results of `new URL(input)` and `new URL(input, base)` on the inputs the examples
below use, as the WHATWG URL standard defines them. -/
def sampleURLTable : List ((Str × Option Str) × URLRecord) :=
  [ (("https://host/master.m3u8".toList, none),
      { href := "https://host/master.m3u8".toList, origin := "https://host".toList,
        pathname := "/master.m3u8".toList }),
    (("https://host/".toList, none),
      { href := "https://host/".toList, origin := "https://host".toList,
        pathname := "/".toList }),
    (("low.m3u8".toList, some "https://host/".toList),
      { href := "https://host/low.m3u8".toList, origin := "https://host".toList,
        pathname := "/low.m3u8".toList }),
    (("high.m3u8".toList, some "https://host/".toList),
      { href := "https://host/high.m3u8".toList, origin := "https://host".toList,
        pathname := "/high.m3u8".toList }),
    (("master.m3u8".toList, some "https://host/".toList),
      { href := "https://host/master.m3u8".toList, origin := "https://host".toList,
        pathname := "/master.m3u8".toList }),
    (("https://host/high.m3u8".toList, none),
      { href := "https://host/high.m3u8".toList, origin := "https://host".toList,
        pathname := "/high.m3u8".toList }),
    (("https://host/v/list.m3u8".toList, none),
      { href := "https://host/v/list.m3u8".toList, origin := "https://host".toList,
        pathname := "/v/list.m3u8".toList }),
    (("https://host/v/".toList, none),
      { href := "https://host/v/".toList, origin := "https://host".toList,
        pathname := "/v/".toList }),
    (("seg1.ts".toList, some "https://host/v/".toList),
      { href := "https://host/v/seg1.ts".toList, origin := "https://host".toList,
        pathname := "/v/seg1.ts".toList }),
    (("seg1.ts".toList, some "https://host/".toList),
      { href := "https://host/seg1.ts".toList, origin := "https://host".toList,
        pathname := "/seg1.ts".toList }),
    (("key.bin".toList, some "https://host/v/".toList),
      { href := "https://host/v/key.bin".toList, origin := "https://host".toList,
        pathname := "/v/key.bin".toList }),
    (("a.key".toList, some "https://host/v/".toList),
      { href := "https://host/v/a.key".toList, origin := "https://host".toList,
        pathname := "/v/a.key".toList }),
    (("clip-m3u8?.mp4".toList, some "https://host/".toList),
      { href := "https://host/clip-m3u8?.mp4".toList, origin := "https://host".toList,
        pathname := "/clip-m3u8".toList }),
    (("https://host/clip-m3u8?.mp4".toList, none),
      { href := "https://host/clip-m3u8?.mp4".toList, origin := "https://host".toList,
        pathname := "/clip-m3u8".toList }),
    (("v/list.m3u8".toList, some "https://host/".toList),
      { href := "https://host/v/list.m3u8".toList, origin := "https://host".toList,
        pathname := "/v/list.m3u8".toList }),
    (("ftp://files.example/seg1.ts".toList, some "https://host/v/".toList),
      { href := "ftp://files.example/seg1.ts".toList, origin := "ftp://files.example".toList,
        pathname := "/seg1.ts".toList }) ]

/-- The URL parser restricted to the inputs of `sampleURLTable`.  Of the inputs that are
not listed the examples use one as a URL that does not parse: `http://`, which the
standard rejects for its empty host. -/
def sampleURL : URLApi where
  parse := fun input base =>
    (sampleURLTable.find? (fun e => e.1 == (input, base))).map (fun e => e.2)
  invalidUrlMessage := fun _ => "Invalid URL string.".toList

/-! ## Inputs of the examples -/

/-- URL of the media playlist of the examples. -/
def exampleMediaUrl : Str := "https://host/v/list.m3u8".toList

/-- A media playlist with a key declaration, a discontinuity marker, a blank line, a
segment and a final newline. -/
def exampleMediaBody : Str :=
  "#EXTM3U\n#EXT-X-KEY:METHOD=AES-128,URI=".toList ++ '"' :: "key.bin".toList ++
    '"' :: ",IV=0x01\n#EXT-X-DISCONTINUITY\n\n#EXTINF:4,\nseg1.ts\n".toList

/-- What the rewriter returns for `exampleMediaBody`. -/
def exampleMediaOutput : Str :=
  "#EXTM3U\n#EXT-X-KEY:METHOD=AES-128,URI=".toList ++
    '"' :: "/proxy/https%3A%2F%2Fhost%2Fv%2Fkey.bin".toList ++
    '"' :: ",IV=0x01\n#EXTINF:4,\n/proxy/https%3A%2F%2Fhost%2Fv%2Fseg1.ts\n".toList

/-- A media playlist whose segment reference has the scheme `ftp`. -/
def ftpSegmentBody : Str := "#EXTM3U\n#EXTINF:4,\nftp://files.example/seg1.ts".toList

/-- A partial-segment tag of a low-latency playlist, with a quoted URI attribute. -/
def partTagLine : Str :=
  "#EXT-X-PART:DURATION=1.0,URI=".toList ++ '"' :: "part1.mp4".toList ++ ['"']

/-- A media playlist holding `partTagLine`. -/
def partTagBody : Str := "#EXTM3U\n".toList ++ partTagLine ++ "\n#EXTINF:4,\nseg1.ts".toList

/-- The text before the second URI attribute of a key declaration with two of them. -/
def twoUriPrefix : Str :=
  "#EXT-X-KEY:METHOD=AES-128,URI=".toList ++ '"' :: "a.key".toList ++ '"' :: ",".toList

/-- The master playlist of the examples: two variants, 800000 and 1200000. -/
def exampleMasterBody : Str :=
  "#EXTM3U\n#EXT-X-STREAM-INF:BANDWIDTH=800000\nlow.m3u8\n#EXT-X-STREAM-INF:BANDWIDTH=1200000,RESOLUTION=1280x720\n# best\nhigh.m3u8\n".toList

/-- URL of the master playlist of the examples. -/
def exampleMasterUrl : Str := "https://host/master.m3u8".toList

/-- The media playlist behind `high.m3u8` in the examples. -/
def exampleVariantBody : Str := "#EXTM3U\n#EXTINF:4,\nseg1.ts\n".toList

/-- A context without KV binding whose `fetch` answers every URL with
`exampleVariantBody`. -/
def exampleContext : Context where
  request := { method := "GET".toList }
  env := { LIBRETV_PROXY_KV := none }
  fetch := fun _ =>
    FetchOutcome.response 200 "OK".toList exampleVariantBody
      [("content-type".toList, "application/vnd.apple.mpegurl".toList)]

/-- A master playlist whose only variant is the playlist itself. -/
def cyclicMasterBody : Str :=
  "#EXTM3U\n#EXT-X-STREAM-INF:BANDWIDTH=800000\nmaster.m3u8\n".toList

/-- A context without KV binding whose `fetch` answers every URL with
`cyclicMasterBody`. -/
def cyclicContext : Context where
  request := { method := "GET".toList }
  env := { LIBRETV_PROXY_KV := none }
  fetch := fun _ => FetchOutcome.response 200 "OK".toList cyclicMasterBody []

/-- The master playlist of the end-to-end scenario of the specification: two variants,
500000 (`low.m3u8`) and 1500000 (`high.m3u8`). -/
def scenarioMasterBody : Str :=
  "#EXTM3U\n#EXT-X-STREAM-INF:BANDWIDTH=500000\nlow.m3u8\n#EXT-X-STREAM-INF:BANDWIDTH=1500000\nhigh.m3u8\n".toList

/-- The lines of `exampleMasterBody` before its first declaration. -/
def exampleMasterPre : List Str := ["#EXTM3U".toList]

/-- The declaration blocks of `exampleMasterBody`. -/
def exampleMasterBlocks : List VariantBlock :=
  [ { decl := "#EXT-X-STREAM-INF:BANDWIDTH=800000".toList, comments := [],
      uri := "low.m3u8".toList, tail := [] },
    { decl := "#EXT-X-STREAM-INF:BANDWIDTH=1200000,RESOLUTION=1280x720".toList,
      comments := ["# best".toList], uri := "high.m3u8".toList, tail := [[]] } ]

/-- A master playlist with two variants of equal bandwidth. -/
def tieMasterBody : Str :=
  "#EXTM3U\n#EXT-X-STREAM-INF:BANDWIDTH=800000\nlow.m3u8\n#EXT-X-STREAM-INF:BANDWIDTH=800000\nhigh.m3u8".toList

/-! ## Further notions of the specification and inputs of examples -/

/-- The variant descriptors `(currentBandwidth, variantUriLine)` that the bandwidth scan
of `processMasterPlaylist` compares with the best so far (source line 323), in order:
one for each declaration line the outer loop reaches and finds a URI line for. -/
def variantDescriptors : List Str → Nat → List (Int × Str)
  | [], _ => []
  | _ :: rest, skip + 1 => variantDescriptors rest skip
  | l :: rest, 0 =>
    if startsWith l streamInfMarker then
      match findVariantUriLine rest with
      | some (variantUriLine, offset) =>
        (currentBandwidth l, variantUriLine) :: variantDescriptors rest (offset + 1)
      | none => variantDescriptors rest 0
    else variantDescriptors rest 0

/-- The update of `(highestBandwidth, bestVariantUrl)` by the descriptors, one after the
other (source lines 323-326). -/
def foldDescriptors (U : URLApi) (baseUrl : Str) :
    List (Int × Str) → Int × Str → Res (Int × Str)
  | [], st => Res.ok st
  | d :: ds, st =>
    if d.1 ≥ st.1 then
      match resolveUrl U baseUrl d.2 with
      | Res.ok u => foldDescriptors U baseUrl ds (d.1, u)
      | Res.throw e => Res.throw e
    else foldDescriptors U baseUrl ds st

/-- A media playlist with CRLF line ends. -/
def crlfMediaBody : Str := "#EXTM3U\r\n#EXTINF:4,\r\nseg1.ts".toList

/-- A master playlist whose first declaration has no URI line of its own. -/
def skippedDeclarationBody : Str :=
  "#EXTM3U\n#EXT-X-STREAM-INF:BANDWIDTH=800000\n#EXT-X-STREAM-INF:BANDWIDTH=1200000\nhigh.m3u8".toList

/-- A master playlist without stream-variant declaration whose only reference holds
`m3u8?` but has no `.m3u8` extension. -/
def noDotMasterBody : Str :=
  "#EXTM3U\n#EXT-X-MEDIA:TYPE=AUDIO\nclip-m3u8?.mp4".toList

/-- A master playlist with a media-group declaration only, and a segment. -/
def audioOnlyMasterBody : Str :=
  "#EXTM3U\n#EXT-X-MEDIA:TYPE=AUDIO\n#EXTINF:4,\nseg1.ts".toList

/-- The request path for `exampleMasterUrl`. -/
def exampleMasterPath : Str := "/proxy/https%3A%2F%2Fhost%2Fmaster.m3u8".toList

/-- A context without KV binding whose `fetch` answers the master URL with
`scenarioMasterBody` and every other URL with a video file. -/
def mediaVariantContext : Context where
  request := { method := "GET".toList }
  env := { LIBRETV_PROXY_KV := none }
  fetch := fun url =>
    if url = exampleMasterUrl then
      FetchOutcome.response 200 "OK".toList scenarioMasterBody
        [("content-type".toList, "application/vnd.apple.mpegurl".toList)]
    else
      FetchOutcome.response 200 "OK".toList "VIDEO-BYTES".toList
        [("content-type".toList, "video/mp4".toList)]

/-- The entry of the raw tier of the examples: `exampleVariantBody` with an HLS content
type. -/
def exampleRawEntry : RawEntry where
  body := exampleVariantBody
  headers := "{}".toList
  parsedHeaders := some [("content-type".toList, "application/vnd.apple.mpegurl".toList)]

/-- A context whose raw tier holds `exampleRawEntry` for every key, and whose processed
tier is empty. -/
def rawHitContext : Context where
  request := { method := "GET".toList }
  env := { LIBRETV_PROXY_KV := some { get := fun _ => Res.ok none,
                                      getJson := fun _ => Res.ok (some exampleRawEntry) } }
  fetch := fun _ =>
    FetchOutcome.response 200 "OK".toList exampleVariantBody
      [("content-type".toList, "application/vnd.apple.mpegurl".toList)]

/-- The context `rawHitContext` with an empty raw tier. -/
def rawMissContext : Context where
  request := { method := "GET".toList }
  env := { LIBRETV_PROXY_KV := some { get := fun _ => Res.ok none,
                                      getJson := fun _ => Res.ok none } }
  fetch := fun _ =>
    FetchOutcome.response 200 "OK".toList exampleVariantBody
      [("content-type".toList, "application/vnd.apple.mpegurl".toList)]

/-- A media playlist with a media-sequence tag. -/
def sequenceMediaBody : Str := "#EXTM3U\n#EXT-X-MEDIA-SEQUENCE:7\n#EXTINF:4,\nseg1.ts".toList

/-- A media playlist whose `#EXTINF` line ends in a space. -/
def paddedMediaBody : Str := "#EXTM3U\n#EXTINF:4, \nseg1.ts".toList

/-- The context `rawHitContext` for a CORS preflight request. -/
def preflightHitContext : Context where
  request := { method := "OPTIONS".toList }
  env := rawHitContext.env
  fetch := rawHitContext.fetch

/-- Two contexts agree for the rewriting pipeline when they have the same request and
the same `fetch`, and either both have no KV binding or both have one, with the same
answers of `get`. -/
def SamePipelineContext (ctx ctx2 : Context) : Prop :=
  ctx2.request = ctx.request ∧ ctx2.fetch = ctx.fetch ∧
  ctx2.env.LIBRETV_PROXY_KV.map (fun kv => kv.get)
    = ctx.env.LIBRETV_PROXY_KV.map (fun kv => kv.get)

/-- The master playlist of the examples with the higher variant declared first. -/
def winnerFirstMasterBody : Str :=
  "#EXTM3U\n#EXT-X-STREAM-INF:BANDWIDTH=1200000\nhigh.m3u8\n#EXT-X-STREAM-INF:BANDWIDTH=800000\nlow.m3u8".toList

/-- The declaration blocks of `winnerFirstMasterBody`. -/
def winnerFirstBlocks : List VariantBlock :=
  [ { decl := "#EXT-X-STREAM-INF:BANDWIDTH=1200000".toList, comments := [],
      uri := "high.m3u8".toList, tail := [] },
    { decl := "#EXT-X-STREAM-INF:BANDWIDTH=800000".toList, comments := [],
      uri := "low.m3u8".toList, tail := [] } ]

/-- A master playlist with bandwidths from `2 ^ 53` on: 9007199254740993, which no
double holds, declared before 9007199254740992. -/
def roundedMasterBody : Str :=
  "#EXTM3U\n#EXT-X-STREAM-INF:BANDWIDTH=9007199254740993\nhigh.m3u8\n#EXT-X-STREAM-INF:BANDWIDTH=9007199254740992\nlow.m3u8".toList

/-- A master playlist whose higher variant lies in the directory `v/`. -/
def nestedMasterBody : Str :=
  "#EXTM3U\n#EXT-X-STREAM-INF:BANDWIDTH=500000\nlow.m3u8\n#EXT-X-STREAM-INF:BANDWIDTH=1500000\nv/list.m3u8\n".toList

/-- A media playlist whose segment line is `http://`, which is no URL. -/
def brokenSegmentBody : Str := "#EXTM3U\n#EXTINF:4,\nhttp://".toList

/-- A context without KV binding whose `fetch` answers every URL with
`brokenSegmentBody`. -/
def brokenSegmentContext : Context where
  request := { method := "GET".toList }
  env := { LIBRETV_PROXY_KV := none }
  fetch := fun _ =>
    FetchOutcome.response 200 "OK".toList brokenSegmentBody
      [("content-type".toList, "application/vnd.apple.mpegurl".toList)]

/-- A playlist body that is one discontinuity marker. -/
def onlyDiscontinuityBody : Str := "#EXT-X-DISCONTINUITY".toList

/-! # Properties

## Percent-encoding and the proxy path codec -/

theorem char_toNat_valid (c : Char) :
    c.toNat < 0xD800 ∨ (0xDFFF < c.toNat ∧ c.toNat < 0x110000) := by
  have h := c.valid
  simpa [UInt32.isValidChar, Nat.isValidChar, Char.toNat] using h

theorem hexValue_hexDigit (n : Nat) (h : n < 16) : hexValue (hexDigit n) = some n := by
  interval_cases n <;> decide

theorem uriTokens_lit (c : Char) (rest : Str) (h : c ≠ '%') :
    uriTokens (c :: rest) = (uriTokens rest).map (fun ts => UriToken.lit c :: ts) := by
  simp only [uriTokens, uriTokensFrom, if_neg h]

theorem uriTokens_percentEncodeOctet (b : Nat) (rest : Str) (h : b < 256) :
    uriTokens (percentEncodeOctet b ++ rest)
      = (uriTokens rest).map (fun ts => UriToken.octet b :: ts) := by
  have h1 : hexValue (hexDigit (b / 16)) = some (b / 16) := hexValue_hexDigit _ (by omega)
  have h2 : hexValue (hexDigit (b % 16)) = some (b % 16) := hexValue_hexDigit _ (by omega)
  have h3 : 16 * (b / 16) + b % 16 = b := by omega
  simp only [percentEncodeOctet, List.cons_append, List.nil_append, uriTokens, uriTokensFrom,
    if_true, h1, h2, h3]
  rfl

theorem uriTokens_percentEncodeOctets (bs : List Nat) (rest : Str) (h : ∀ b ∈ bs, b < 256) :
    uriTokens (percentEncodeOctets bs ++ rest)
      = (uriTokens rest).map (fun ts => bs.map UriToken.octet ++ ts) := by
  induction bs with
  | nil => simp [percentEncodeOctets]
  | cons b bs ih =>
    have hb : b < 256 := h b (by simp)
    have hbs : ∀ x ∈ bs, x < 256 := fun x hx => h x (by simp [hx])
    rw [percentEncodeOctets, List.append_assoc, uriTokens_percentEncodeOctet b _ hb, ih hbs]
    cases uriTokens rest <;> simp

theorem utf8Encode_lt (n : Nat) (h : n < 0x110000) : ∀ b ∈ utf8Encode n, b < 256 := by
  intro b hb
  unfold utf8Encode at hb
  split_ifs at hb <;> simp at hb <;> omega

theorem isUriUnescaped_ne_percent (c : Char) (h : isUriUnescaped c = true) : c ≠ '%' := by
  rintro rfl
  revert h
  decide

theorem uriTokens_encodeCodePoint (c : Char) (rest : Str) :
    uriTokens (encodeCodePoint c ++ rest)
      = (uriTokens rest).map (fun ts => charTokens c ++ ts) := by
  unfold encodeCodePoint charTokens
  cases hc : isUriUnescaped c
  · simp only [Bool.false_eq_true, if_false]
    apply uriTokens_percentEncodeOctets
    apply utf8Encode_lt
    have := char_toNat_valid c
    omega
  · simp only [if_true, List.singleton_append]
    rw [uriTokens_lit c rest (isUriUnescaped_ne_percent c hc)]

theorem isContinuation_add (x : Nat) (h : x < 64) : isContinuation (128 + x) = true := by
  simp [isContinuation]; omega

theorem utf8DecodeCodePoint_two (n : Nat) (h1 : ¬ n < 128) (h2 : n < 2048) :
    utf8DecodeCodePoint [192 + n / 64, 128 + n % 64] = some n := by
  have e : (192 + n / 64) % 32 * 64 + (128 + n % 64) % 64 = n := by omega
  have hc1 := isContinuation_add (n % 64) (by omega)
  have hn : 128 ≤ n := by omega
  simp only [utf8DecodeCodePoint, e, hc1, hn, decide_True, Bool.and_self, if_true]

theorem utf8DecodeCodePoint_three (n : Nat) (h1 : ¬ n < 2048) (h2 : n < 65536)
    (hv : n < 0xD800 ∨ (0xDFFF < n ∧ n < 0x110000)) :
    utf8DecodeCodePoint [224 + n / 4096, 128 + n / 64 % 64, 128 + n % 64] = some n := by
  have e : (224 + n / 4096) % 16 * 4096 + (128 + n / 64 % 64) % 64 * 64
      + (128 + n % 64) % 64 = n := by omega
  have hc1 := isContinuation_add (n % 64) (by omega)
  have hc2 := isContinuation_add (n / 64 % 64) (by omega)
  have hn : 2048 ≤ n := by omega
  have hs : (decide (55296 ≤ n) && decide (n ≤ 57343)) = false := by
    simp only [Bool.and_eq_false_imp, decide_eq_true_eq, decide_eq_false_iff_not]
    omega
  simp only [utf8DecodeCodePoint, e, hc1, hc2, hn, hs, decide_True, Bool.and_self,
    Bool.not_false, if_true]

theorem utf8DecodeCodePoint_four (n : Nat) (h1 : ¬ n < 65536) (h2 : n < 0x110000) :
    utf8DecodeCodePoint
      [240 + n / 262144, 128 + n / 4096 % 64, 128 + n / 64 % 64, 128 + n % 64] = some n := by
  have e : (240 + n / 262144) % 8 * 262144 + (128 + n / 4096 % 64) % 64 * 4096
      + (128 + n / 64 % 64) % 64 * 64 + (128 + n % 64) % 64 = n := by omega
  have hc1 := isContinuation_add (n % 64) (by omega)
  have hc2 := isContinuation_add (n / 64 % 64) (by omega)
  have hc3 := isContinuation_add (n / 4096 % 64) (by omega)
  have hn : 65536 ≤ n := by omega
  have hs : n ≤ 1114111 := by omega
  simp only [utf8DecodeCodePoint, e, hc1, hc2, hc3, hn, hs, decide_True, Bool.and_self, if_true]

theorem decodeTokens_charTokens (c : Char) (rest : List UriToken) :
    decodeTokens (charTokens c ++ rest) = (decodeTokens rest).map (fun s => c :: s) := by
  unfold charTokens
  cases hc : isUriUnescaped c
  · simp only [Bool.false_eq_true, if_false]
    have hv := char_toNat_valid c
    have hof : Char.ofNat c.toNat = c := Char.ofNat_toNat c
    generalize c.toNat = n at hv hof
    unfold utf8Encode
    split_ifs with h1 h2 h3
    · have l0 : leadingOnes n = 0 := by simp [leadingOnes, h1]
      simp only [List.map, List.cons_append, List.nil_append, decodeTokens, decodeTokensFrom,
        l0, if_true, hof]
      rfl
    · have l0 : leadingOnes (192 + n / 64) = 2 := by
        unfold leadingOnes; split_ifs <;> omega
      simp [decodeTokens, decodeTokensFrom, l0, utf8DecodeCodePoint_two n h1 h2, hof,
        -Nat.add_mod_mod, -Nat.mod_add_mod]
    · have l0 : leadingOnes (224 + n / 4096) = 3 := by
        unfold leadingOnes; split_ifs <;> omega
      simp [decodeTokens, decodeTokensFrom, l0, utf8DecodeCodePoint_three n h2 h3 hv, hof]
    · have l0 : leadingOnes (240 + n / 262144) = 4 := by
        unfold leadingOnes; split_ifs <;> omega
      simp [decodeTokens, decodeTokensFrom, l0,
        utf8DecodeCodePoint_four n h3 (by omega), hof]
  · simp only [if_true, List.singleton_append, decodeTokens, decodeTokensFrom]
    rfl

theorem uriTokens_encodeURIComponent_append (s rest : Str) :
    uriTokens (encodeURIComponent s ++ rest)
      = (uriTokens rest).map (fun ts => s.flatMap charTokens ++ ts) := by
  induction s with
  | nil => simp [encodeURIComponent]
  | cons c cs ih =>
    rw [encodeURIComponent, List.append_assoc, uriTokens_encodeCodePoint, ih]
    cases uriTokens rest <;> simp

theorem decodeTokens_flatMap_charTokens (s : Str) :
    decodeTokens (s.flatMap charTokens) = some s := by
  induction s with
  | nil => simp [decodeTokens, decodeTokensFrom]
  | cons c cs ih => simp [List.flatMap_cons, decodeTokens_charTokens, ih]

/-- Decoding undoes encoding, on every string. -/
theorem decodeURIComponent_encodeURIComponent (s : Str) :
    decodeURIComponent (encodeURIComponent s) = some s := by
  have h := uriTokens_encodeURIComponent_append s []
  simp only [List.append_nil] at h
  have h0 : uriTokens [] = some [] := rfl
  simp [decodeURIComponent, h, h0, decodeTokens_flatMap_charTokens]

theorem startsWith_iff (s p : Str) : startsWith s p = true ↔ ∃ t, s = p ++ t := by
  simp only [startsWith, List.isPrefixOf_iff_prefix]
  constructor
  · rintro ⟨t, rfl⟩; exact ⟨t, rfl⟩
  · rintro ⟨t, rfl⟩; exact ⟨t, rfl⟩

theorem startsWith_append (p t : Str) : startsWith (p ++ t) p = true :=
  (startsWith_iff _ _).2 ⟨t, rfl⟩

theorem matchesHttpScheme_of_startsWith (u : Str)
    (h : startsWith u "http://".toList = true ∨ startsWith u "https://".toList = true) :
    matchesHttpScheme u = true := by
  unfold matchesHttpScheme
  rcases h with h | h
  · obtain ⟨t, rfl⟩ := (startsWith_iff _ _).1 h
    have e : List.map asciiLower "http://".toList = "http://".toList := by decide
    rw [List.map_append, e, startsWith_append]
    rfl
  · obtain ⟨t, rfl⟩ := (startsWith_iff _ _).1 h
    have e : List.map asciiLower "https://".toList = "https://".toList := by decide
    rw [List.map_append, e, startsWith_append, Bool.or_true]

theorem stripProxyPrefix_proxyPrefix_append (e : Str) :
    stripProxyPrefix (proxyPrefix ++ e) = e := by
  unfold stripProxyPrefix
  rw [if_pos (startsWith_append _ _)]
  simp

theorem encodeURIComponent_ne_nil (u : Str) (h : u ≠ []) : encodeURIComponent u ≠ [] := by
  cases u with
  | nil => exact absurd rfl h
  | cons c cs =>
    unfold encodeURIComponent encodeCodePoint
    split_ifs
    · simp
    · unfold utf8Encode
      split_ifs <;> simp [percentEncodeOctets, percentEncodeOctet]

theorem getTargetUrlFromPath_rewriteUrlToProxy (u : Str) (h : matchesHttpScheme u = true) :
    getTargetUrlFromPath (rewriteUrlToProxy u) = some u := by
  have hne : u ≠ [] := by
    rintro rfl
    revert h
    decide
  unfold getTargetUrlFromPath rewriteUrlToProxy
  simp only [stripProxyPrefix_proxyPrefix_append, decodeURIComponent_encodeURIComponent,
    if_neg (encodeURIComponent_ne_nil u hne), h, Bool.not_true, Bool.false_eq_true, if_false]

/-! ## Lines -/

theorem split_ne_nil (sep : Char) (s : Str) : split sep s ≠ [] := by
  cases s with
  | nil => simp [split]
  | cons c cs =>
    unfold split
    split_ifs
    · simp
    · split <;> simp

theorem split_of_not_mem (sep : Char) (l : Str) (h : sep ∉ l) : split sep l = [l] := by
  induction l with
  | nil => rfl
  | cons c cs ih =>
    have hc : c ≠ sep := fun e => h (by simp [e])
    have hcs : sep ∉ cs := fun e => h (by simp [e])
    rw [split, if_neg hc, ih hcs]

theorem split_append_sep (sep : Char) (l rest : Str) (h : sep ∉ l) :
    split sep (l ++ sep :: rest) = l :: split sep rest := by
  induction l with
  | nil => simp [split]
  | cons c cs ih =>
    have hc : c ≠ sep := fun e => h (by simp [e])
    have hcs : sep ∉ cs := fun e => h (by simp [e])
    rw [List.cons_append, split, if_neg hc, ih hcs]

theorem split_join (sep : Char) (xs : List Str) (hne : xs ≠ [])
    (h : ∀ x ∈ xs, sep ∉ x) : split sep (join sep xs) = xs := by
  induction xs with
  | nil => exact absurd rfl hne
  | cons x xs ih =>
    cases xs with
    | nil => simpa [join] using split_of_not_mem sep x (h x (by simp))
    | cons y ys =>
      rw [join, split_append_sep sep x _ (h x (by simp)),
        ih (by simp) (fun z hz => h z (by simp [hz]))]

theorem not_mem_of_mem_split (sep : Char) (s : Str) : ∀ x ∈ split sep s, sep ∉ x := by
  induction s with
  | nil => simp [split]
  | cons c cs ih =>
    intro x hx
    unfold split at hx
    split_ifs at hx with hc
    · rcases List.mem_cons.1 hx with rfl | hx
      · simp
      · exact ih x hx
    · split at hx
      · simp at hx; subst hx; simpa using Ne.symm hc
      · rename_i l ls heq
        rcases List.mem_cons.1 hx with rfl | hx
        · have := ih l (by simp [heq])
          simp [this, Ne.symm hc]
        · exact ih x (by simp [heq, hx])

theorem trim_sublist (l : Str) : (trim l).Sublist l := by
  unfold trim
  have h1 : ((l.dropWhile isWhiteSpace).reverse.dropWhile isWhiteSpace).reverse.Sublist
      (l.dropWhile isWhiteSpace) := by
    have := (List.dropWhile_sublist isWhiteSpace (l := (l.dropWhile isWhiteSpace).reverse)).reverse
    simpa using this
  exact h1.trans (List.dropWhile_sublist _)

theorem not_mem_trim (c : Char) (l : Str) (h : c ∉ l) : c ∉ trim l :=
  fun hm => h ((trim_sublist l).subset hm)

/-! ## Characters of an encoded component -/

theorem mem_encodeURIComponent (s : Str) :
    ∀ x ∈ encodeURIComponent s, isUriUnescaped x = true ∨ x = '%' := by
  have hd : ∀ n, n < 16 → isUriUnescaped (hexDigit n) = true := by
    intro n hn; interval_cases n <;> decide
  induction s with
  | nil => simp [encodeURIComponent]
  | cons c cs ih =>
    intro x hx
    rw [encodeURIComponent, List.mem_append] at hx
    rcases hx with hx | hx
    · unfold encodeCodePoint at hx
      split_ifs at hx with hc
      · simp at hx; subst hx; exact Or.inl hc
      · have key : ∀ bs : List Nat, (∀ b ∈ bs, b < 256) → ∀ y ∈ percentEncodeOctets bs,
            isUriUnescaped y = true ∨ y = '%' := by
          intro bs
          induction bs with
          | nil => simp [percentEncodeOctets]
          | cons b bs ihb =>
            intro hb y hy
            have hb0 : b < 256 := hb b (by simp)
            have ihb := ihb (fun z hz => hb z (by simp [hz]))
            simp only [percentEncodeOctets, percentEncodeOctet, List.cons_append,
              List.nil_append, List.mem_cons] at hy
            rcases hy with rfl | rfl | rfl | hy
            · exact Or.inr rfl
            · exact Or.inl (hd _ (by omega))
            · exact Or.inl (hd _ (by omega))
            · exact ihb y hy
        exact key _ (utf8Encode_lt _ (by have := char_toNat_valid c; omega)) x hx
    · exact ih x hx

theorem mem_rewriteUrlToProxy (s : Str) :
    ∀ x ∈ rewriteUrlToProxy s, x ≠ '\n' ∧ x ≠ '"' := by
  intro x hx
  unfold rewriteUrlToProxy at hx
  rcases List.mem_append.1 hx with h | h
  · have : ∀ y ∈ proxyPrefix, y ≠ '\n' ∧ y ≠ '"' := by decide
    exact this x h
  · rcases mem_encodeURIComponent s x h with h | h
    · constructor <;> (rintro rfl; revert h; decide)
    · subst h; decide

/-! ## Results that may throw -/

@[simp] theorem Res.map_ok {α β : Type} (f : α → β) (a : α) :
    Res.map f (Res.ok a) = Res.ok (f a) := rfl

@[simp] theorem Res.map_throw {α β : Type} (f : α → β) (e : JSError) :
    Res.map f (Res.throw e : Res α) = Res.throw e := rfl

@[simp] theorem Res.bind_ok {α β : Type} (f : α → Res β) (a : α) :
    Res.bind (Res.ok a) f = f a := rfl

@[simp] theorem Res.bind_throw {α β : Type} (f : α → Res β) (e : JSError) :
    Res.bind (Res.throw e : Res α) f = Res.throw e := rfl

theorem Res.map_eq_ok {α β : Type} {f : α → β} {r : Res α} {b : β}
    (h : Res.map f r = Res.ok b) : ∃ a, r = Res.ok a ∧ f a = b := by
  cases r with
  | ok a => exact ⟨a, rfl, by simpa using h⟩
  | throw e => simp at h

theorem Res.mapList_eq_ok {α β : Type} (f : α → Res β) :
    ∀ (xs : List α) (ys : List β), Res.mapList f xs = Res.ok ys →
      ys.length = xs.length ∧ ∀ y ∈ ys, ∃ x ∈ xs, f x = Res.ok y := by
  intro xs
  induction xs with
  | nil =>
    intro ys h
    simp only [Res.mapList, Res.ok.injEq] at h
    subst h
    simp
  | cons x xs ih =>
    intro ys h
    rw [Res.mapList] at h
    cases hx : f x with
    | throw e => rw [hx] at h; simp at h
    | ok b =>
      rw [hx, Res.bind_ok] at h
      obtain ⟨bs, hbs, rfl⟩ := Res.map_eq_ok h
      obtain ⟨hl, hm⟩ := ih bs hbs
      refine ⟨by simp [hl], ?_⟩
      intro y hy
      rcases List.mem_cons.1 hy with rfl | hy
      · exact ⟨x, by simp, hx⟩
      · obtain ⟨x', hx', hf⟩ := hm y hy
        exact ⟨x', by simp [hx'], hf⟩

/-! ## The quoted URI attribute -/

theorem startsWith_of_startsWith_append (s p q : Str) (h : startsWith s (p ++ q) = true) :
    startsWith s p = true := by
  obtain ⟨t, rfl⟩ := (startsWith_iff _ _).1 h
  exact (startsWith_iff _ _).2 ⟨q ++ t, by simp⟩

theorem matchUriAttrAt_eq_some (s uri post : Str) (h : matchUriAttrAt s = some (uri, post)) :
    s = uriAttrOpen ++ uri ++ '"' :: post ∧ uri ≠ [] ∧ '"' ∉ uri := by
  unfold matchUriAttrAt at h
  split_ifs at h with hs
  obtain ⟨r, rfl⟩ := (startsWith_iff _ _).1 hs
  simp only [List.drop_left'] at h
  have hsplit := List.takeWhile_append_dropWhile (fun c => c != '"') r
  cases hd : List.dropWhile (fun c => c != '"') r with
  | nil => rw [hd] at h; simp at h
  | cons x post' =>
    rw [hd] at h hsplit
    simp only at h
    split_ifs at h with he
    simp only [Option.some.injEq, Prod.mk.injEq] at h
    obtain ⟨hu, hp⟩ := h
    have hx : x = '"' := by
      have := List.head?_dropWhile_not (fun c => c != '"') r
      rw [hd] at this
      simpa using this
    subst hx hp
    refine ⟨?_, ?_, ?_⟩
    · rw [← hu, List.append_assoc, hsplit]
    · rw [← hu]; intro e; simp [e] at he
    · rw [← hu]; intro hm
      have := List.mem_takeWhile_imp hm
      simp at this

theorem findUriAttr_eq_some (line : Str) :
    ∀ pre uri post, findUriAttr line = some (pre, uri, post) →
      line = pre ++ uriAttrOpen ++ uri ++ '"' :: post ∧ uri ≠ [] ∧ '"' ∉ uri := by
  induction line with
  | nil => intro pre uri post h; simp [findUriAttr] at h
  | cons c cs ih =>
    intro pre uri post h
    rw [findUriAttr] at h
    cases hm : matchUriAttrAt (c :: cs) with
    | some m =>
      obtain ⟨u, p⟩ := m
      rw [hm] at h
      simp only [Option.some.injEq, Prod.mk.injEq] at h
      obtain ⟨rfl, rfl, rfl⟩ := h
      simpa using matchUriAttrAt_eq_some _ _ _ hm
    | none =>
      rw [hm] at h
      simp only [Option.map_eq_some'] at h
      obtain ⟨⟨p1, u1, s1⟩, hf, he⟩ := h
      simp only [Prod.mk.injEq] at he
      obtain ⟨rfl, rfl, rfl⟩ := he
      obtain ⟨h1, h2, h3⟩ := ih _ _ _ hf
      exact ⟨by rw [h1]; simp, h2, h3⟩

/-! ## The media playlist rewriter, line by line -/

theorem processMediaLine_of_retained (U : URLApi) (baseUrl line : Str)
    (h : retained line = true) :
    processMediaLine U baseUrl line = (transformLine U baseUrl line).map some := by
  have hne : decide (line = discontinuityMarker) = false := by
    simp only [retained, Bool.and_eq_true, bne_iff_ne, ne_eq] at h
    simpa using h.2
  unfold processMediaLine transformLine processKeyLine processMapLine
  simp only [hne, Bool.and_false, Bool.false_eq_true, if_false]
  cases hK : startsWith line "#EXT-X-KEY".toList
  · cases hM : startsWith line "#EXT-X-MAP".toList
    · cases hH : startsWith line "#".toList
      · cases hE : startsWith line "#EXTINF".toList
        · cases resolveUrl U baseUrl line <;> simp
        · have := startsWith_of_startsWith_append line "#".toList "EXTINF".toList hE
          rw [hH] at this
          exact absurd this (by simp)
      · cases hE : startsWith line "#EXTINF".toList <;> simp
    · simp
  · simp

theorem processMediaLine_of_not_retained (U : URLApi) (baseUrl line : Str)
    (hne : line.isEmpty = false) (h : retained line = false) :
    processMediaLine U baseUrl line = Res.ok none := by
  have hm : line = discontinuityMarker := by
    simp only [retained, hne, Bool.not_false, Bool.true_and, bne_eq_false_iff_eq] at h
    exact h
  unfold processMediaLine
  simp [hm, FUNCTION_CONFIG]

theorem trailingBlank_cons_cons (l l2 : Str) (rest : List Str) :
    trailingBlank (l :: l2 :: rest) = trailingBlank (l2 :: rest) := by
  simp [trailingBlank]

theorem processMediaLines_eq_expected (U : URLApi) (baseUrl : Str) (lines : List Str) :
    processMediaLines U baseUrl lines = expectedMediaLines U baseUrl lines := by
  induction lines with
  | nil => simp [processMediaLines, expectedMediaLines, Res.mapList, trailingBlank]
  | cons l rest ih =>
    rw [processMediaLines]
    cases hb : (trim l).isEmpty
    · -- a line that is not blank
      simp only [Bool.false_and, Bool.false_eq_true, if_false]
      have htr : trailingBlank (l :: rest) = trailingBlank rest := by
        cases rest with
        | nil => simp [trailingBlank, hb]
        | cons l2 r2 => exact trailingBlank_cons_cons _ _ _
      cases hr : retained (trim l)
      · rw [processMediaLine_of_not_retained U baseUrl _ hb hr, ih]
        simp only [Res.bind_ok, expectedMediaLines, List.map_cons, htr]
        rw [List.filter_cons_of_neg (by simp [hr])]
        cases Res.mapList (transformLine U baseUrl) (List.filter retained (List.map trim rest)) <;>
          simp
      · rw [processMediaLine_of_retained U baseUrl _ hr, ih]
        simp only [expectedMediaLines, List.map_cons, htr]
        rw [List.filter_cons_of_pos (by simp [hr]), Res.mapList]
        cases transformLine U baseUrl (trim l) with
        | throw e => simp
        | ok x =>
          cases Res.mapList (transformLine U baseUrl)
              (List.filter retained (List.map trim rest)) <;> simp
    · -- a blank line
      have hnr : retained (trim l) = false := by simp [retained, hb]
      by_cases hrest : rest = []
      · subst hrest
        have ht : trim l = [] := by simpa using hb
        simp [expectedMediaLines, hnr, Res.mapList, trailingBlank, hb, ht]
      · have hre : rest.isEmpty = false := by simpa using hrest
        have htr : trailingBlank (l :: rest) = trailingBlank rest := by
          cases rest with
          | nil => exact absurd rfl hrest
          | cons l2 r2 => exact trailingBlank_cons_cons _ _ _
        simp only [hre, Bool.and_false, Bool.false_eq_true, if_false, if_true]
        rw [ih]
        simp only [expectedMediaLines, List.map_cons, htr]
        rw [List.filter_cons_of_neg (by simp [hnr])]

theorem processMediaPlaylist_eq_expected (U : URLApi) (url content : Str) :
    processMediaPlaylist U url content
      = (expectedMediaLines U (getBaseUrl U url) (linesOf content)).map (join '\n') := by
  unfold processMediaPlaylist
  simp only [processMediaLines_eq_expected, linesOf]

/-! ## The images of the retained lines -/

theorem transformLine_ne_nil (U : URLApi) (baseUrl line out : Str) (hne : line ≠ [])
    (h : transformLine U baseUrl line = Res.ok out) : out ≠ [] := by
  unfold transformLine replaceUriAttr at h
  split_ifs at h
  · split at h
    · simp only [Res.ok.injEq] at h; subst h; exact hne
    · obtain ⟨a, -, rfl⟩ := Res.map_eq_ok h
      simp [uriAttrOpen]
  · simp only [Res.ok.injEq] at h; subst h; exact hne
  · obtain ⟨a, -, rfl⟩ := Res.map_eq_ok h
    simp [rewriteUrlToProxy, proxyPrefix]

theorem transformLine_no_newline (U : URLApi) (baseUrl line out : Str) (hl : '\n' ∉ line)
    (h : transformLine U baseUrl line = Res.ok out) : '\n' ∉ out := by
  unfold transformLine replaceUriAttr at h
  split_ifs at h
  · split at h
    · simp only [Res.ok.injEq] at h; subst h; exact hl
    · rename_i pre uri post hf
      obtain ⟨a, -, rfl⟩ := Res.map_eq_ok h
      obtain ⟨hline, -, -⟩ := findUriAttr_eq_some _ _ _ _ hf
      rw [hline] at hl
      simp only [List.append_assoc, List.mem_append, List.mem_cons, not_or] at hl ⊢
      exact ⟨hl.1, hl.2.1, fun hm => (mem_rewriteUrlToProxy a _ hm).1 rfl, hl.2.2.2.1, hl.2.2.2.2⟩
  · simp only [Res.ok.injEq] at h; subst h; exact hl
  · obtain ⟨a, -, rfl⟩ := Res.map_eq_ok h
    exact fun hm => (mem_rewriteUrlToProxy a _ hm).1 rfl

theorem transformLine_ne_marker (U : URLApi) (baseUrl line out : Str)
    (hr : retained line = true)
    (h : transformLine U baseUrl line = Res.ok out) : out ≠ discontinuityMarker := by
  have hne : line ≠ discontinuityMarker := by
    simp only [retained, Bool.and_eq_true, bne_iff_ne, ne_eq] at hr
    exact hr.2
  unfold transformLine replaceUriAttr at h
  split_ifs at h with h1 h2
  · split at h
    · simp only [Res.ok.injEq] at h; subst h; exact hne
    · obtain ⟨a, -, rfl⟩ := Res.map_eq_ok h
      intro he
      have hq : '"' ∈ discontinuityMarker := by
        rw [← he]; simp [uriAttrOpen]
      revert hq
      decide
  · simp only [Res.ok.injEq] at h; subst h; exact hne
  · obtain ⟨a, -, rfl⟩ := Res.map_eq_ok h
    intro he
    have : startsWith discontinuityMarker "/".toList = true := by
      rw [← he]; exact (startsWith_iff _ _).2 ⟨_, by simp [rewriteUrlToProxy, proxyPrefix]; rfl⟩
    revert this
    decide

theorem length_filter_add_length_filter_not {α : Type} (p q : α → Bool)
    (h : ∀ x, q x = !p x) (l : List α) :
    (l.filter p).length + (l.filter q).length = l.length := by
  induction l with
  | nil => rfl
  | cons x xs ih =>
    cases hp : p x <;> simp [List.filter_cons, hp, h x] <;> omega

theorem trailingBlank_length_le (lines : List Str) :
    (trailingBlank lines).length
      ≤ ((lines.map trim).filter (fun l => l.isEmpty || l == discontinuityMarker)).length := by
  unfold trailingBlank
  cases hl : lines.getLast? with
  | none => simp
  | some l =>
    simp only
    split_ifs with hb
    · have hm : trim l ∈ (lines.map trim).filter
          (fun l => l.isEmpty || l == discontinuityMarker) := by
        rw [List.mem_filter]
        exact ⟨List.mem_map_of_mem _ (List.mem_of_getLast?_eq_some hl), by simp [hb]⟩
      have := List.length_pos_of_mem hm
      simpa using this
    · simp

theorem mem_trailingBlank (lines : List Str) : ∀ x ∈ trailingBlank lines, x = [] := by
  intro x hx
  unfold trailingBlank at hx
  split at hx
  · split_ifs at hx
    · simpa using hx
    · simp at hx
  · simp at hx

/-- The shape of the output lines: the images of the retained lines, then the trailing
blank line. -/
theorem expectedMediaLines_eq_ok (U : URLApi) (baseUrl : Str) (lines out : List Str)
    (h : expectedMediaLines U baseUrl lines = Res.ok out) :
    ∃ ms, Res.mapList (transformLine U baseUrl) ((lines.map trim).filter retained) = Res.ok ms ∧
      out = ms ++ trailingBlank lines := by
  obtain ⟨ms, hms, rfl⟩ := Res.map_eq_ok h
  exact ⟨ms, hms, rfl⟩

theorem mem_images (U : URLApi) (baseUrl : Str) (lines ms : List Str)
    (hms : Res.mapList (transformLine U baseUrl) ((lines.map trim).filter retained) = Res.ok ms) :
    ∀ x ∈ ms, ∃ l ∈ lines, retained (trim l) = true ∧
      transformLine U baseUrl (trim l) = Res.ok x := by
  intro x hx
  obtain ⟨t, ht, hx⟩ := (Res.mapList_eq_ok _ _ _ hms).2 x hx
  rw [List.mem_filter, List.mem_map] at ht
  obtain ⟨⟨l, hl, rfl⟩, hr⟩ := ht
  exact ⟨l, hl, hr, hx⟩

theorem images_no_newline (U : URLApi) (baseUrl content : Str) (ms : List Str)
    (hms : Res.mapList (transformLine U baseUrl)
      (((linesOf content).map trim).filter retained) = Res.ok ms) :
    ∀ x ∈ ms ++ trailingBlank (linesOf content), '\n' ∉ x := by
  intro x hx
  rcases List.mem_append.1 hx with hx | hx
  · obtain ⟨l, hl, -, ht⟩ := mem_images U baseUrl _ ms hms x hx
    exact transformLine_no_newline U baseUrl _ _
      (not_mem_trim _ _ (not_mem_of_mem_split '\n' content l hl)) ht
  · rw [mem_trailingBlank _ x hx]; simp

/-- The lines of the text the rewriter returns are empty or images of retained lines. -/
theorem linesOf_processMediaPlaylist (U : URLApi) (url content out : Str)
    (h : processMediaPlaylist U url content = Res.ok out) :
    ∀ x ∈ linesOf out, x = [] ∨ ∃ l ∈ linesOf content, retained (trim l) = true ∧
      transformLine U (getBaseUrl U url) (trim l) = Res.ok x := by
  rw [processMediaPlaylist_eq_expected] at h
  obtain ⟨o, ho, rfl⟩ := Res.map_eq_ok h
  obtain ⟨ms, hms, rfl⟩ := expectedMediaLines_eq_ok _ _ _ _ ho
  intro x hx
  by_cases hne : ms ++ trailingBlank (linesOf content) = []
  · rw [hne] at hx
    left
    simpa [linesOf, join, split] using hx
  · rw [linesOf, split_join '\n' _ hne (images_no_newline U _ content ms hms)] at hx
    rcases List.mem_append.1 hx with hx | hx
    · exact Or.inr (mem_images U _ _ ms hms x hx)
    · exact Or.inl (mem_trailingBlank _ x hx)

/-! ## Where the leftmost quoted URI attribute starts -/

theorem matchUriAttrAt_open_append (a b : Str) (d : Char)
    (ha : ∀ z ∈ a, (z != '"') = true) (hd : (d != '"') = false) :
    matchUriAttrAt (uriAttrOpen ++ a ++ d :: b) = if a.isEmpty then none else some (a, b) := by
  unfold matchUriAttrAt
  rw [List.append_assoc, if_pos (startsWith_append _ _)]
  simp only [List.drop_left']
  rw [List.takeWhile_append_of_pos ha, List.dropWhile_append_of_pos ha,
    List.takeWhile_cons_of_neg (by simp [hd]), List.dropWhile_cons_of_neg (by simp [hd])]
  simp

theorem matchUriAttrAt_open (v post : Str) (hv : v ≠ []) (hq : '"' ∉ v) :
    matchUriAttrAt (uriAttrOpen ++ v ++ '"' :: post) = some (v, post) := by
  rw [matchUriAttrAt_open_append v post '"' (by
    intro z hz
    simp only [bne_iff_ne, ne_eq]
    rintro rfl
    exact hq hz) (by simp)]
  simp [hv]

theorem quote_split (k : Str) :
    ∃ a, (∀ z ∈ a, (z != '"') = true) ∧
      ∀ x : Str, ∃ d b, (d != '"') = false ∧ k ++ '"' :: x = a ++ d :: b := by
  induction k with
  | nil => exact ⟨[], by simp, fun x => ⟨'"', x, by simp, rfl⟩⟩
  | cons c k ih =>
    obtain ⟨a, ha, hx⟩ := ih
    cases hc : (c != '"')
    · exact ⟨[], by simp, fun x => ⟨c, k ++ '"' :: x, hc, rfl⟩⟩
    · refine ⟨c :: a, ?_, ?_⟩
      · intro z hz
        rcases List.mem_cons.1 hz with rfl | hz
        · exact hc
        · exact ha z hz
      · intro x
        obtain ⟨d, b, hd, he⟩ := hx x
        exact ⟨d, b, hd, by simp [he]⟩

/-- Whether the pattern matches at the start of a text is decided by the text up to the
first quote after `URI="`. -/
theorem matchUriAttrAt_none_congr (k x y : Str) (hk : 5 ≤ k.length)
    (h : matchUriAttrAt (k ++ '"' :: x) = none) : matchUriAttrAt (k ++ '"' :: y) = none := by
  have hsplit : k = k.take 5 ++ k.drop 5 := (List.take_append_drop 5 k).symm
  have hlen : (k.take 5).length = uriAttrOpen.length := by
    rw [List.length_take]
    have : uriAttrOpen.length = 5 := by decide
    omega
  by_cases ho : k.take 5 = uriAttrOpen
  · rw [hsplit, ho] at h ⊢
    obtain ⟨a, ha, hx⟩ := quote_split (k.drop 5)
    obtain ⟨d, b, hd, he⟩ := hx x
    obtain ⟨d2, b2, hd2, he2⟩ := hx y
    rw [List.append_assoc, he, ← List.append_assoc, matchUriAttrAt_open_append a b d ha hd] at h
    rw [List.append_assoc, he2, ← List.append_assoc,
      matchUriAttrAt_open_append a b2 d2 ha hd2]
    split_ifs at h ⊢ with hemp
    rfl
  · unfold matchUriAttrAt
    rw [if_neg]
    intro hs
    obtain ⟨t, ht⟩ := (startsWith_iff _ _).1 hs
    rw [hsplit, List.append_assoc] at ht
    exact ho (List.append_inj ht hlen).1

theorem uriAttrOpen_eq : uriAttrOpen = "URI=".toList ++ ['"'] := rfl

/-- Replacing the captured group of the leftmost match by another non-empty text
without quote keeps the match where it is. -/
theorem findUriAttr_replace (pre u v post : Str)
    (h : findUriAttr (pre ++ uriAttrOpen ++ u ++ '"' :: post) = some (pre, u, post))
    (hv : v ≠ []) (hq : '"' ∉ v) :
    findUriAttr (pre ++ uriAttrOpen ++ v ++ '"' :: post) = some (pre, v, post) := by
  induction pre with
  | nil =>
    have : uriAttrOpen ++ v ++ '"' :: post = 'U' :: ("RI=".toList ++ '"' :: v ++ '"' :: post) := by
      simp [uriAttrOpen]
    rw [List.nil_append, this, findUriAttr, ← this, matchUriAttrAt_open v post hv hq]
  | cons c pre ih =>
    simp only [List.cons_append] at h ⊢
    rw [findUriAttr] at h ⊢
    cases hm : matchUriAttrAt (c :: (pre ++ uriAttrOpen ++ u ++ '"' :: post)) with
    | some m =>
      rw [hm] at h
      simp at h
    | none =>
      rw [hm] at h
      simp only [Option.map_eq_some'] at h
      obtain ⟨⟨p1, u1, s1⟩, hf, he⟩ := h
      simp only [Prod.mk.injEq, List.cons.injEq, true_and] at he
      obtain ⟨rfl, rfl, rfl⟩ := he
      have hk : ∀ w : Str, c :: (p1 ++ uriAttrOpen ++ w ++ '"' :: s1)
          = (c :: p1 ++ "URI=".toList) ++ '"' :: (w ++ '"' :: s1) := by
        intro w; simp [uriAttrOpen_eq]
      have hnone : matchUriAttrAt (c :: (p1 ++ uriAttrOpen ++ v ++ '"' :: s1)) = none := by
        rw [hk] at hm ⊢
        exact matchUriAttrAt_none_congr _ _ _ (by simp) hm
      rw [hnone, ih hf]
      rfl

/-- When `URI="` does not occur before it, an attribute `URI="u"` with `u` non-empty
and without quote is the leftmost match. -/
theorem findUriAttr_of_no_earlier (P u S : Str) (hP : ¬ uriAttrOpen <:+: P)
    (hu : u ≠ []) (hq : '"' ∉ u) :
    findUriAttr (P ++ uriAttrOpen ++ u ++ '"' :: S) = some (P, u, S) := by
  induction P with
  | nil =>
    have : uriAttrOpen ++ u ++ '"' :: S = 'U' :: ("RI=".toList ++ '"' :: u ++ '"' :: S) := by
      simp [uriAttrOpen]
    rw [List.nil_append, this, findUriAttr, ← this, matchUriAttrAt_open u S hu hq]
  | cons c P ih =>
    have hP' : ¬ uriAttrOpen <:+: P := fun hi => hP (hi.trans (List.suffix_cons c P).isInfix)
    have hnone : matchUriAttrAt (c :: (P ++ uriAttrOpen ++ u ++ '"' :: S)) = none := by
      unfold matchUriAttrAt
      rw [if_neg]
      intro hs
      obtain ⟨t, ht⟩ := (startsWith_iff _ _).1 hs
      by_cases hl : 5 ≤ (c :: P).length
      · have hsplit : c :: P = (c :: P).take 5 ++ (c :: P).drop 5 :=
          (List.take_append_drop 5 _).symm
        have hlen : ((c :: P).take 5).length = uriAttrOpen.length := by
          rw [List.length_take]
          have : uriAttrOpen.length = 5 := by decide
          omega
        have ht2 : (c :: P).take 5 ++ ((c :: P).drop 5 ++ (uriAttrOpen ++ u ++ '"' :: S))
            = uriAttrOpen ++ t := by
          rw [← List.append_assoc, ← hsplit, ← ht]; simp
        have := (List.append_inj ht2 hlen).1
        apply hP
        rw [hsplit, this]
        exact (List.prefix_append _ _).isInfix
      · rcases P with _ | ⟨a, _ | ⟨b, _ | ⟨d, _ | ⟨e, P⟩⟩⟩⟩
        · simp [uriAttrOpen] at ht
        · simp [uriAttrOpen] at ht
        · simp [uriAttrOpen] at ht
        · simp [uriAttrOpen] at ht
        · simp at hl
    simp only [List.cons_append]
    rw [findUriAttr, hnone, ih hP']
    rfl

/-! ## Segment lines and declaration lines of the output -/

theorem startsWith_hash_iff (s : Str) : startsWith s "#".toList = true ↔ ∃ t, s = '#' :: t := by
  rw [startsWith_iff]
  constructor
  · rintro ⟨t, rfl⟩; exact ⟨t, rfl⟩
  · rintro ⟨t, rfl⟩; exact ⟨t, rfl⟩

theorem transformLine_of_not_hash (U : URLApi) (baseUrl line : Str)
    (h : startsWith line "#".toList = false) :
    transformLine U baseUrl line = (resolveUrl U baseUrl line).map rewriteUrlToProxy := by
  have hK : startsWith line "#EXT-X-KEY".toList = false := by
    cases hk : startsWith line "#EXT-X-KEY".toList
    · rfl
    · have := startsWith_of_startsWith_append line "#".toList "EXT-X-KEY".toList hk
      rw [h] at this; exact absurd this (by simp)
  have hM : startsWith line "#EXT-X-MAP".toList = false := by
    cases hk : startsWith line "#EXT-X-MAP".toList
    · rfl
    · have := startsWith_of_startsWith_append line "#".toList "EXT-X-MAP".toList hk
      rw [h] at this; exact absurd this (by simp)
  unfold transformLine
  rw [hK, hM, h]
  simp

theorem transformLine_hash (U : URLApi) (baseUrl line out : Str)
    (h : startsWith line "#".toList = true) (ht : transformLine U baseUrl line = Res.ok out) :
    startsWith out "#".toList = true := by
  unfold transformLine replaceUriAttr at ht
  split_ifs at ht
  · split at ht
    · simp only [Res.ok.injEq] at ht; subst ht; exact h
    · rename_i pre uri post hf
      obtain ⟨a, -, rfl⟩ := Res.map_eq_ok ht
      obtain ⟨hline, -, -⟩ := findUriAttr_eq_some _ _ _ _ hf
      obtain ⟨t, ht2⟩ := (startsWith_hash_iff _).1 h
      rw [hline] at ht2
      cases pre with
      | nil => simp [uriAttrOpen] at ht2
      | cons c pre =>
        simp only [List.cons_append, List.cons.injEq] at ht2
        rw [ht2.1]
        exact (startsWith_hash_iff _).2 ⟨_, rfl⟩
  · simp only [Res.ok.injEq] at ht; subst ht; exact h

theorem resolveUrl_of_matchesHttpScheme (U : URLApi) (baseUrl rel : Str)
    (h : matchesHttpScheme rel = true) : resolveUrl U baseUrl rel = Res.ok rel := by
  simp [resolveUrl, h]

/-- A line of the output that is neither empty nor a marker line is the proxy path of an
input line, resolved against the base of the playlist URL. -/
theorem segment_lines_of_processMediaPlaylist (U : URLApi) (url body out : Str)
    (h : processMediaPlaylist U url body = Res.ok out) :
    ∀ o ∈ linesOf out, o ≠ [] → startsWith o "#".toList = false →
      ∃ l ∈ linesOf body, ∃ r,
        (trim l ≠ [] ∧ startsWith (trim l) "#".toList = false) ∧
        resolveUrl U (getBaseUrl U url) (trim l) = Res.ok r ∧
        o = proxyPrefix ++ encodeURIComponent r ∧
        (matchesHttpScheme (trim l) = true → r = trim l) := by
  intro o ho hne hh
  rcases linesOf_processMediaPlaylist U url body out h o ho with he | ⟨l, hl, hr, ht⟩
  · exact absurd he hne
  · have hlh : startsWith (trim l) "#".toList = false := by
      cases hc : startsWith (trim l) "#".toList
      · rfl
      · rw [transformLine_hash U _ _ _ hc ht] at hh
        exact absurd hh (by simp)
    rw [transformLine_of_not_hash U _ _ hlh] at ht
    obtain ⟨r, hr2, rfl⟩ := Res.map_eq_ok ht
    refine ⟨l, hl, r, ⟨?_, hlh⟩, hr2, rfl, ?_⟩
    · intro he; simp [retained, he] at hr
    · intro hm
      rw [resolveUrl_of_matchesHttpScheme U _ _ hm] at hr2
      simpa using hr2.symm

theorem startsWith_proxyPrefix_rewriteUrlToProxy (r : Str) :
    startsWith (rewriteUrlToProxy r) proxyPrefix = true :=
  startsWith_append _ _

/-- On a key or initialization-segment declaration of the output, the leftmost quoted
non-empty URI attribute holds a proxy path. -/
theorem key_lines_of_processMediaPlaylist (U : URLApi) (url body out : Str)
    (h : processMediaPlaylist U url body = Res.ok out) :
    ∀ o ∈ linesOf out,
      (startsWith o "#EXT-X-KEY".toList = true ∨ startsWith o "#EXT-X-MAP".toList = true) →
      ∀ pre uri post, findUriAttr o = some (pre, uri, post) →
        startsWith uri proxyPrefix = true := by
  intro o ho hkm pre uri post hfo
  rcases linesOf_processMediaPlaylist U url body out h o ho with he | ⟨l, hl, hr, ht⟩
  · subst he; simp [findUriAttr] at hfo
  · by_cases hkl : (startsWith (trim l) "#EXT-X-KEY".toList ||
        startsWith (trim l) "#EXT-X-MAP".toList) = true
    · simp only [transformLine, hkl, if_true, replaceUriAttr] at ht
      split at ht
      · simp only [Res.ok.injEq] at ht
        subst ht
        rename_i hnone
        rw [hnone] at hfo
        exact absurd hfo (by simp)
      · rename_i p u s hf
        obtain ⟨a, -, rfl⟩ := Res.map_eq_ok ht
        obtain ⟨hline, -, -⟩ := findUriAttr_eq_some _ _ _ _ hf
        rw [hline] at hf
        have hq : '"' ∉ rewriteUrlToProxy a := fun hm => (mem_rewriteUrlToProxy a _ hm).2 rfl
        have hv : rewriteUrlToProxy a ≠ [] := by simp [rewriteUrlToProxy, proxyPrefix]
        rw [findUriAttr_replace p u (rewriteUrlToProxy a) s hf hv hq] at hfo
        simp only [Option.some.injEq, Prod.mk.injEq] at hfo
        rw [← hfo.2.1]
        exact startsWith_proxyPrefix_rewriteUrlToProxy a
    · exfalso
      cases hh : startsWith (trim l) "#".toList
      · rw [transformLine_of_not_hash U _ _ hh] at ht
        obtain ⟨r, -, rfl⟩ := Res.map_eq_ok ht
        have h1 : startsWith (rewriteUrlToProxy r) "#".toList = false := by
          simp [rewriteUrlToProxy, proxyPrefix, startsWith, List.isPrefixOf]
        rcases hkm with hk | hk
        · have := startsWith_of_startsWith_append _ "#".toList "EXT-X-KEY".toList hk
          rw [h1] at this; exact absurd this (by simp)
        · have := startsWith_of_startsWith_append _ "#".toList "EXT-X-MAP".toList hk
          rw [h1] at this; exact absurd this (by simp)
      · have hkl2 : (startsWith (trim l) "#EXT-X-KEY".toList ||
            startsWith (trim l) "#EXT-X-MAP".toList) = false := by
          simpa using hkl
        unfold transformLine at ht
        rw [hkl2, hh] at ht
        simp only [Bool.false_eq_true, if_false, if_true, Res.ok.injEq] at ht
        subst ht
        simp only [Bool.or_eq_true, not_or] at hkl
        rcases hkm with hk | hk
        · exact hkl.1 hk
        · exact hkl.2 hk

theorem encodeURIComponent_injective (a b : Str)
    (h : encodeURIComponent a = encodeURIComponent b) : a = b := by
  have := decodeURIComponent_encodeURIComponent a
  rw [h, decodeURIComponent_encodeURIComponent] at this
  simpa using this.symm

/-! ## Recursive resolution: unfolding and fuel -/

theorem processM3u8Content_succ (U : URLApi) (ctx : Context) (fuel : Nat)
    (targetUrl content : Str) (d : Nat) :
    processM3u8Content U ctx (fuel + 1) targetUrl content d
      = if includes content "#EXT-X-STREAM-INF".toList ||
            includes content "#EXT-X-MEDIA:".toList then
          processMasterPlaylist U ctx fuel targetUrl content d
        else some ((processMediaPlaylist U targetUrl content).map Value.text, []) := by
  rw [processM3u8Content]

theorem processMasterPlaylist_succ (U : URLApi) (ctx : Context) (fuel : Nat)
    (url content : Str) (d : Nat) :
    processMasterPlaylist U ctx (fuel + 1) url content d
      = match masterStep U ctx url content d with
        | MasterStep.done r => some r
        | MasterStep.recurse v c ev =>
          (processM3u8Content U ctx fuel v c (d + 1)).map (masterFinish ctx v ev) := by
  rw [processMasterPlaylist]
  unfold masterStep
  by_cases h1 : d > FUNCTION_CONFIG.MAX_RECURSION
  · simp only [h1, if_true]
  · simp only [h1, if_false, Bool.false_eq_true]
    generalize selectVariantUrl U (getBaseUrl U url) (split '\n' content) = sel
    cases sel with
    | throw e => rfl
    | ok best =>
      simp only
      by_cases h2 : best.isEmpty = true
      · simp only [h2, if_true]
      · simp only [h2, if_false, Bool.false_eq_true]
        generalize kvLookup ctx (processedCacheKey best) = kl
        obtain ⟨k1, evCache⟩ := kl
        cases k1 with
        | throw e => rfl
        | ok o =>
          cases o with
          | some c => rfl
          | none =>
            simp only
            generalize fetchContentWithType U ctx best = fr
            obtain ⟨f1, evFetch⟩ := fr
            cases f1 with
            | throw e => rfl
            | ok variant =>
              simp only
              by_cases h3 : (!isM3u8Content variant.content variant.contentType) = true
              · simp only [h3, if_true, Bool.false_eq_true, if_false]
              · simp only [h3, if_false, Bool.false_eq_true]
                cases processM3u8Content U ctx fuel best variant.content (d + 1) with
                | none => rfl
                | some r =>
                  obtain ⟨r1, r2⟩ := r
                  cases r1 <;> rfl

theorem fuel_mono (U : URLApi) (ctx : Context) :
    ∀ fuel,
      (∀ url c d r, processM3u8Content U ctx fuel url c d = some r →
        processM3u8Content U ctx (fuel + 1) url c d = some r) ∧
      (∀ url c d r, processMasterPlaylist U ctx fuel url c d = some r →
        processMasterPlaylist U ctx (fuel + 1) url c d = some r) := by
  intro fuel
  induction fuel with
  | zero =>
    constructor
    · intro url c d r h; simp [processM3u8Content] at h
    · intro url c d r h; simp [processMasterPlaylist] at h
  | succ n ih =>
    obtain ⟨ih1, ih2⟩ := ih
    constructor
    · intro url c d r h
      rw [processM3u8Content_succ] at h ⊢
      split_ifs at h ⊢
      · exact ih2 _ _ _ _ h
      · exact h
    · intro url c d r h
      rw [processMasterPlaylist_succ] at h ⊢
      cases hs : masterStep U ctx url c d with
      | done r0 => rw [hs] at h; exact h
      | recurse v vc ev =>
        rw [hs] at h
        simp only [Option.map_eq_some'] at h ⊢
        obtain ⟨x, hx, hr⟩ := h
        exact ⟨x, ih1 _ _ _ _ hx, hr⟩

theorem processM3u8Content_fuel_le (U : URLApi) (ctx : Context) (url c : Str) (d : Nat)
    (r : Res Value × List Event) (fuel fuel2 : Nat) (hle : fuel ≤ fuel2)
    (h : processM3u8Content U ctx fuel url c d = some r) :
    processM3u8Content U ctx fuel2 url c d = some r := by
  induction hle with
  | refl => exact h
  | step _ ih => exact (fuel_mono U ctx _).1 _ _ _ _ ih

theorem masterStep_recurse_depth (U : URLApi) (ctx : Context) (url c v vc : Str) (d : Nat)
    (ev : List Event) (h : masterStep U ctx url c d = MasterStep.recurse v vc ev) :
    d ≤ FUNCTION_CONFIG.MAX_RECURSION := by
  by_contra hd
  have : d > FUNCTION_CONFIG.MAX_RECURSION := by omega
  simp [masterStep, this] at h

/-- With fuel `2 * k + 2`, a resolution that starts at a depth at most `k` below the
point where the limit strikes settles. -/
theorem processM3u8Content_isSome (U : URLApi) (ctx : Context) :
    ∀ k d url c, FUNCTION_CONFIG.MAX_RECURSION + 1 - d ≤ k →
      (processM3u8Content U ctx (2 * k + 2) url c d).isSome = true := by
  intro k
  induction k with
  | zero =>
    intro d url c hd
    rw [processM3u8Content_succ]
    split_ifs
    · rw [processMasterPlaylist_succ]
      cases hs : masterStep U ctx url c d with
      | done r0 => rfl
      | recurse v vc ev =>
        have := masterStep_recurse_depth U ctx url c v vc d ev hs
        omega
    · rfl
  | succ k ih =>
    intro d url c hd
    have e : 2 * (k + 1) + 2 = (2 * k + 2 + 1) + 1 := by ring
    rw [e, processM3u8Content_succ]
    split_ifs
    · rw [processMasterPlaylist_succ]
      cases hs : masterStep U ctx url c d with
      | done r0 => rfl
      | recurse v vc ev =>
        simp only [Option.isSome_map']
        exact ih (d + 1) v vc (by omega)
    · rfl

/-! ## Resolution of a master playlist -/

theorem kvLookup_of_no_binding (ctx : Context) (key : Str)
    (h : ctx.env.LIBRETV_PROXY_KV = none) : kvLookup ctx key = (Res.ok none, []) := by
  simp [kvLookup, h]

theorem kvStore_of_no_binding (ctx : Context) (key : Str) (v : Value)
    (h : ctx.env.LIBRETV_PROXY_KV = none) : kvStore ctx key v = [] := by
  simp [kvStore, h]

theorem fetchContentWithType_ok (U : URLApi) (ctx : Context) (v : Str)
    (status : Nat) (statusText body : Str) (headers : List (Str × Str))
    (hparse : (U.parse v none).isSome = true)
    (hfetch : ctx.fetch v = FetchOutcome.response status statusText body headers)
    (hok : 200 ≤ status ∧ status ≤ 299) :
    fetchContentWithType U ctx v
      = (Res.ok { content := body,
                  contentType := (headersGet headers "Content-Type".toList).getD [],
                  responseHeaders := headers },
         [Event.fetch v]) := by
  obtain ⟨rec, hrec⟩ := Option.isSome_iff_exists.1 hparse
  simp only [fetchContentWithType, hrec, hfetch, hok, and_self, if_true]

/-- An activation on a master playlist whose selected variant is fetched as a playlist,
with no hit in the processed tier, goes on to the recursive call. -/
theorem masterStep_recurse (U : URLApi) (ctx : Context) (url content v : Str) (d : Nat)
    (status : Nat) (statusText body : Str) (headers : List (Str × Str)) (evCache : List Event)
    (hd : d ≤ FUNCTION_CONFIG.MAX_RECURSION)
    (hsel : selectVariantUrl U (getBaseUrl U url) (linesOf content) = Res.ok v)
    (hv : v ≠ [])
    (hcache : kvLookup ctx (processedCacheKey v) = (Res.ok none, evCache))
    (hparse : (U.parse v none).isSome = true)
    (hfetch : ctx.fetch v = FetchOutcome.response status statusText body headers)
    (hok : 200 ≤ status ∧ status ≤ 299)
    (hm3u8 : isM3u8Content body ((headersGet headers "Content-Type".toList).getD []) = true) :
    masterStep U ctx url content d
      = MasterStep.recurse v body (evCache ++ [Event.fetch v]) := by
  have hd2 : ¬ d > FUNCTION_CONFIG.MAX_RECURSION := by omega
  have hv2 : v.isEmpty = false := by simpa using hv
  unfold linesOf at hsel
  simp only [masterStep, hd2, if_false, hsel, hv2, Bool.false_eq_true, hcache,
    fetchContentWithType_ok U ctx v status statusText body headers hparse hfetch hok,
    hm3u8, Bool.not_true]

theorem masterStep_limit (U : URLApi) (ctx : Context) (url content : Str) (d : Nat)
    (hd : FUNCTION_CONFIG.MAX_RECURSION < d) :
    masterStep U ctx url content d
      = MasterStep.done (Res.throw (JSError.Error (recursionLimitMessage url)), []) := by
  simp [masterStep, hd]

/-- The cycle, counted from the depth where the limit strikes: started `k` levels
below it, the resolution fetches `k` times and then throws. -/
theorem cycle_from_depth (U : URLApi) (ctx : Context) (m master : Str)
    (status : Nat) (statusText : Str) (headers : List (Str × Str))
    (hkv : ctx.env.LIBRETV_PROXY_KV = none)
    (hmaster : (includes master "#EXT-X-STREAM-INF".toList ||
      includes master "#EXT-X-MEDIA:".toList) = true)
    (hsel : selectVariantUrl U (getBaseUrl U m) (linesOf master) = Res.ok m)
    (hm : m ≠ [])
    (hparse : (U.parse m none).isSome = true)
    (hfetch : ctx.fetch m = FetchOutcome.response status statusText master headers)
    (hok : 200 ≤ status ∧ status ≤ 299)
    (hm3u8 : isM3u8Content master ((headersGet headers "Content-Type".toList).getD []) = true) :
    ∀ k, k ≤ FUNCTION_CONFIG.MAX_RECURSION + 1 →
      processM3u8Content U ctx (2 * k + 2) m master (FUNCTION_CONFIG.MAX_RECURSION + 1 - k)
        = some (Res.throw (JSError.Error (recursionLimitMessage m)),
            List.replicate k (Event.fetch m)) := by
  intro k
  induction k with
  | zero =>
    intro _
    rw [processM3u8Content_succ, if_pos hmaster, processMasterPlaylist_succ,
      masterStep_limit U ctx m master _ (by omega)]
    rfl
  | succ k ih =>
    intro hk
    have e : 2 * (k + 1) + 2 = (2 * k + 2 + 1) + 1 := by ring
    have e2 : FUNCTION_CONFIG.MAX_RECURSION + 1 - (k + 1) + 1
        = FUNCTION_CONFIG.MAX_RECURSION + 1 - k := by omega
    rw [e, processM3u8Content_succ, if_pos hmaster, processMasterPlaylist_succ,
      masterStep_recurse U ctx m master m _ status statusText master headers []
        (by omega) hsel hm (kvLookup_of_no_binding ctx _ hkv) hparse hfetch hok hm3u8]
    simp only [e2, ih (by omega), Option.map_some', masterFinish, List.nil_append,
      List.singleton_append, List.replicate_succ]

/-! ## The bandwidth scan -/

theorem scanVariants_skip (U : URLApi) (baseUrl : Str) (xs rest : List Str) (st : Int × Str) :
    scanVariants U baseUrl (xs ++ rest) xs.length st = scanVariants U baseUrl rest 0 st := by
  induction xs with
  | nil => rfl
  | cons x xs ih =>
    rw [List.cons_append, List.length_cons, scanVariants, ih]

theorem scanVariants_no_decl (U : URLApi) (baseUrl : Str) (pre rest : List Str)
    (st : Int × Str) (h : ∀ l ∈ pre, startsWith l streamInfMarker = false) :
    scanVariants U baseUrl (pre ++ rest) 0 st = scanVariants U baseUrl rest 0 st := by
  induction pre with
  | nil => rfl
  | cons l pre ih =>
    rw [List.cons_append, scanVariants, h l (by simp)]
    simp only [Bool.false_eq_true, if_false]
    exact ih (fun x hx => h x (by simp [hx]))

theorem findVariantUriLine_comments (comments : List Str) (uri : Str) (rest : List Str)
    (hc : ∀ l ∈ comments, ((trim l).isEmpty || startsWith (trim l) "#".toList) = true)
    (hu : (trim uri).isEmpty = false ∧ startsWith (trim uri) "#".toList = false) :
    findVariantUriLine (comments ++ uri :: rest) = some (trim uri, comments.length) := by
  induction comments with
  | nil =>
    rw [List.nil_append, findVariantUriLine]
    simp only [hu.1, hu.2, Bool.not_false, Bool.and_self, if_true, List.length_nil]
  | cons l comments ih =>
    have hl := hc l (by simp)
    have hl2 : (!(trim l).isEmpty && !startsWith (trim l) "#".toList) = false := by
      revert hl
      cases (trim l).isEmpty <;> cases startsWith (trim l) "#".toList <;> decide
    rw [List.cons_append, findVariantUriLine]
    simp only [hl2, Bool.false_eq_true, if_false, ih (fun x hx => hc x (by simp [hx])),
      Option.map_some', List.length_cons]

/-- The scan over one declaration block: the state is replaced when the bandwidth of
the declaration is at least the highest seen. -/
theorem scanVariants_block (U : URLApi) (baseUrl : Str) (b : VariantBlock)
    (hwf : b.WellFormed) (rest : List Str) (st : Int × Str) :
    scanVariants U baseUrl (b.lines ++ rest) 0 st
      = if currentBandwidth b.decl ≥ st.1 then
          match resolveUrl U baseUrl (trim b.uri) with
          | Res.ok u => scanVariants U baseUrl rest 0 (currentBandwidth b.decl, u)
          | Res.throw e => Res.throw e
        else scanVariants U baseUrl rest 0 st := by
  obtain ⟨hd, hc, hu, ht⟩ := hwf
  have hfind : findVariantUriLine (b.comments ++ b.uri :: (b.tail ++ rest))
      = some (trim b.uri, b.comments.length) :=
    findVariantUriLine_comments _ _ _ (fun l hl => (hc l hl).1) hu
  have hskip : ∀ st2, scanVariants U baseUrl (b.comments ++ b.uri :: (b.tail ++ rest))
      (b.comments.length + 1) st2 = scanVariants U baseUrl rest 0 st2 := by
    intro st2
    have := scanVariants_skip U baseUrl (b.comments ++ [b.uri]) (b.tail ++ rest) st2
    simp only [List.append_assoc, List.singleton_append, List.length_append,
      List.length_singleton] at this
    rw [this, scanVariants_no_decl U baseUrl _ _ _ ht]
  have hl : b.lines ++ rest = b.decl :: (b.comments ++ b.uri :: (b.tail ++ rest)) := by
    simp [VariantBlock.lines]
  rw [hl, scanVariants, if_pos hd, hfind]
  by_cases hge : currentBandwidth b.decl ≥ st.1
  · simp only [if_pos hge]
    cases resolveUrl U baseUrl (trim b.uri) with
    | ok u => exact hskip _
    | throw e => rfl
  · simp only [if_neg hge]
    exact hskip _

theorem parseInt_nonneg (line : Str) : 0 ≤ currentBandwidth line := by
  unfold currentBandwidth
  split
  · exact Int.ofNat_nonneg _
  · exact le_refl _

/-- The scan over a sequence of declaration blocks, when no resolution throws: the
state is kept when every bandwidth is below the highest seen so far, else it becomes
the bandwidth and resolved URI of the last block among those of maximal bandwidth. -/
theorem scanVariants_blocks (U : URLApi) (baseUrl : Str)
    (hres : ∀ rel, ∃ r, resolveUrl U baseUrl rel = Res.ok r) :
    ∀ (blocks : List VariantBlock), (∀ b ∈ blocks, b.WellFormed) → ∀ st : Int × Str,
      ∃ st2, scanVariants U baseUrl (blocks.flatMap VariantBlock.lines) 0 st = Res.ok st2 ∧
        ((st2 = st ∧ ∀ b ∈ blocks, currentBandwidth b.decl < st.1) ∨
          ∃ before b after r, blocks = before ++ b :: after ∧
            st.1 ≤ currentBandwidth b.decl ∧
            (∀ x ∈ before, currentBandwidth x.decl ≤ currentBandwidth b.decl) ∧
            (∀ x ∈ after, currentBandwidth x.decl < currentBandwidth b.decl) ∧
            resolveUrl U baseUrl (trim b.uri) = Res.ok r ∧
            st2 = (currentBandwidth b.decl, r)) := by
  intro blocks
  induction blocks with
  | nil =>
    intro _ st
    exact ⟨st, rfl, Or.inl ⟨rfl, by simp⟩⟩
  | cons b bs ih =>
    intro hwf st
    have hb := hwf b (by simp)
    have ih := ih (fun x hx => hwf x (by simp [hx]))
    rw [List.flatMap_cons, scanVariants_block U baseUrl b hb]
    by_cases hge : currentBandwidth b.decl ≥ st.1
    · obtain ⟨r, hr⟩ := hres (trim b.uri)
      rw [if_pos hge, hr]
      obtain ⟨st2, hst2, hcase⟩ := ih (currentBandwidth b.decl, r)
      refine ⟨st2, hst2, Or.inr ?_⟩
      rcases hcase with ⟨he, hlt⟩ | ⟨before, b2, after, r2, hsplit, hle, hbef, haft, hr2, he⟩
      · exact ⟨[], b, bs, r, rfl, hge, by simp, hlt, hr, he⟩
      · refine ⟨b :: before, b2, after, r2, by simp [hsplit], le_trans hge hle, ?_, haft, hr2, he⟩
        intro x hx
        rcases List.mem_cons.1 hx with rfl | hx
        · exact hle
        · exact hbef x hx
    · rw [if_neg hge]
      have hlt : currentBandwidth b.decl < st.1 := lt_of_not_ge hge
      obtain ⟨st2, hst2, hcase⟩ := ih st
      refine ⟨st2, hst2, ?_⟩
      rcases hcase with ⟨he, hall⟩ | ⟨before, b2, after, r2, hsplit, hle, hbef, haft, hr2, he⟩
      · left
        refine ⟨he, ?_⟩
        intro x hx
        rcases List.mem_cons.1 hx with rfl | hx
        · exact hlt
        · exact hall x hx
      · right
        refine ⟨b :: before, b2, after, r2, by simp [hsplit], hle, ?_, haft, hr2, he⟩
        intro x hx
        rcases List.mem_cons.1 hx with rfl | hx
        · exact le_of_lt (lt_of_lt_of_le hlt hle)
        · exact hbef x hx

theorem resolveUrl_ok_of_base (U : URLApi) (baseUrl : Str)
    (hbase : (U.parse baseUrl none).isSome = true) :
    ∀ rel, ∃ r, resolveUrl U baseUrl rel = Res.ok r := by
  intro rel
  obtain ⟨rec, hrec⟩ := Option.isSome_iff_exists.1 hbase
  unfold resolveUrl
  by_cases h1 : matchesHttpScheme rel = true
  · exact ⟨_, by rw [if_pos h1]⟩
  · rw [if_neg h1]
    cases U.parse rel (some baseUrl) with
    | some u => exact ⟨_, rfl⟩
    | none =>
      by_cases h2 : startsWith rel "/".toList = true
      · simp only [if_pos h2, hrec]
        exact ⟨_, rfl⟩
      · simp only [if_neg h2]
        exact ⟨_, rfl⟩

theorem resolveUrl_ne_nil (U : URLApi) (baseUrl rel r : Str)
    (hU : ∀ input base rec, U.parse input base = some rec → rec.href ≠ [])
    (hrel : rel ≠ []) (h : resolveUrl U baseUrl rel = Res.ok r) : r ≠ [] := by
  unfold resolveUrl at h
  by_cases h1 : matchesHttpScheme rel = true
  · rw [if_pos h1] at h
    simp only [Res.ok.injEq] at h; subst h; exact hrel
  · rw [if_neg h1] at h
    cases hp : U.parse rel (some baseUrl) with
    | some u =>
      rw [hp] at h
      simp only [Res.ok.injEq] at h; subst h
      exact hU _ _ _ hp
    | none =>
      rw [hp] at h
      by_cases h2 : startsWith rel "/".toList = true
      · simp only [if_pos h2] at h
        cases hb : U.parse baseUrl none with
        | some urlObj =>
          rw [hb] at h
          simp only [Res.ok.injEq] at h; subst h
          simp [hrel]
        | none => rw [hb] at h; simp at h
      · simp only [if_neg h2, Res.ok.injEq] at h
        subst h
        simp [hrel]

theorem sampleURL_href_ne_nil :
    ∀ input base rec, sampleURL.parse input base = some rec → rec.href ≠ [] := by
  intro input base rec h
  simp only [sampleURL, Option.map_eq_some'] at h
  obtain ⟨e, he, rfl⟩ := h
  have hmem := List.mem_of_find?_eq_some he
  have hall : ∀ x ∈ sampleURLTable, x.2.href ≠ [] := by decide
  exact hall e hmem

theorem exampleMasterBlocks_wellFormed : ∀ b ∈ exampleMasterBlocks, b.WellFormed := by
  intro b hb
  simp only [exampleMasterBlocks, List.mem_cons, List.mem_singleton, List.not_mem_nil,
    or_false] at hb
  rcases hb with rfl | rfl <;> (unfold VariantBlock.WellFormed; decide)

/-! ## The rewriter returns -/

theorem Res.mapList_ok_of_forall {α β : Type} (f : α → Res β) (xs : List α)
    (h : ∀ x ∈ xs, ∃ y, f x = Res.ok y) : ∃ ys, Res.mapList f xs = Res.ok ys := by
  induction xs with
  | nil => exact ⟨[], rfl⟩
  | cons x xs ih =>
    obtain ⟨y, hy⟩ := h x (by simp)
    obtain ⟨ys, hys⟩ := ih (fun z hz => h z (by simp [hz]))
    exact ⟨y :: ys, by simp [Res.mapList, hy, hys]⟩

theorem transformLine_ok_of_base (U : URLApi) (baseUrl line : Str)
    (hbase : (U.parse baseUrl none).isSome = true) :
    ∃ out, transformLine U baseUrl line = Res.ok out := by
  have hres := resolveUrl_ok_of_base U baseUrl hbase
  unfold transformLine replaceUriAttr
  split_ifs
  · split
    · exact ⟨_, rfl⟩
    · rename_i pre uri post _
      obtain ⟨r, hr⟩ := hres uri
      exact ⟨_, by rw [hr]; rfl⟩
  · exact ⟨_, rfl⟩
  · obtain ⟨r, hr⟩ := hres line
    exact ⟨_, by rw [hr]; rfl⟩

/-- When the base URL of the playlist parses, the rewriter returns. -/
theorem processMediaPlaylist_returns (U : URLApi) (url body : Str)
    (hbase : (U.parse (getBaseUrl U url) none).isSome = true) :
    ∃ out, processMediaPlaylist U url body = Res.ok out := by
  rw [processMediaPlaylist_eq_expected]
  obtain ⟨ms, hms⟩ := Res.mapList_ok_of_forall (transformLine U (getBaseUrl U url))
    (((linesOf body).map trim).filter retained)
    (fun x _ => transformLine_ok_of_base U _ x hbase)
  refine ⟨join '\n' (ms ++ trailingBlank (linesOf body)), ?_⟩
  simp only [expectedMediaLines, hms, Res.map_ok]

/-! ## Lines that are passed through -/

theorem Res.mem_mapList {α β : Type} (f : α → Res β) :
    ∀ (xs : List α) (ys : List β), Res.mapList f xs = Res.ok ys →
      ∀ x ∈ xs, ∀ y, f x = Res.ok y → y ∈ ys := by
  intro xs
  induction xs with
  | nil => intro ys _ x hx; simp at hx
  | cons a as ih =>
    intro ys h x hx y hy
    rw [Res.mapList] at h
    cases ha : f a with
    | throw e => rw [ha] at h; simp at h
    | ok b =>
      rw [ha, Res.bind_ok] at h
      obtain ⟨bs, hbs, rfl⟩ := Res.map_eq_ok h
      rcases List.mem_cons.1 hx with rfl | hx
      · rw [hy] at ha
        simp only [Res.ok.injEq] at ha
        simp [ha]
      · exact List.mem_cons_of_mem _ (ih bs hbs x hx y hy)

theorem transformLine_of_other_marker (U : URLApi) (baseUrl line : Str)
    (hh : startsWith line "#".toList = true)
    (hk : startsWith line "#EXT-X-KEY".toList = false)
    (hm : startsWith line "#EXT-X-MAP".toList = false) :
    transformLine U baseUrl line = Res.ok line := by
  unfold transformLine
  rw [hk, hm, hh]
  rfl

/-- A retained input line appears, as its image, among the lines of the output. -/
theorem image_mem_linesOf_output (U : URLApi) (url body out l x : Str)
    (h : processMediaPlaylist U url body = Res.ok out)
    (hl : l ∈ linesOf body) (hr : retained (trim l) = true)
    (hx : transformLine U (getBaseUrl U url) (trim l) = Res.ok x) :
    x ∈ linesOf out := by
  rw [processMediaPlaylist_eq_expected] at h
  obtain ⟨o, ho, rfl⟩ := Res.map_eq_ok h
  obtain ⟨ms, hms, rfl⟩ := expectedMediaLines_eq_ok _ _ _ _ ho
  have hmem : x ∈ ms :=
    Res.mem_mapList _ _ _ hms (trim l)
      (List.mem_filter.2 ⟨List.mem_map_of_mem _ hl, hr⟩) x hx
  have hne : ms ++ trailingBlank (linesOf body) ≠ [] := by
    intro he
    rw [List.append_eq_nil] at he
    rw [he.1] at hmem
    simp at hmem
  rw [linesOf, split_join '\n' _ hne (images_no_newline U _ body ms hms)]
  exact List.mem_append_left _ hmem

/-! ## Containment, and the empty selection -/

theorem includes_iff (s p : Str) : includes s p = true ↔ p <:+: s := by
  induction s with
  | nil =>
    rw [includes]
    simp [List.isEmpty_iff]
  | cons c cs ih =>
    rw [includes, Bool.or_eq_true, ih, List.infix_cons_iff, startsWith,
      List.isPrefixOf_iff_prefix]

theorem includes_eq_false_iff (s p : Str) : includes s p = false ↔ ¬ p <:+: s := by
  rw [← includes_iff, Bool.not_eq_true]

theorem processMasterPlaylist_of_empty_selection (U : URLApi) (ctx : Context)
    (url content : Str) (depth fuel : Nat)
    (hd : depth ≤ FUNCTION_CONFIG.MAX_RECURSION)
    (hsel : selectVariantUrl U (getBaseUrl U url) (linesOf content) = Res.ok []) :
    processMasterPlaylist U ctx (fuel + 1) url content depth
      = some ((processMediaPlaylist U url content).map Value.text, []) := by
  have hd2 : ¬ depth > FUNCTION_CONFIG.MAX_RECURSION := by omega
  unfold linesOf at hsel
  rw [processMasterPlaylist_succ]
  simp only [masterStep, hd2, if_false, hsel, List.isEmpty_nil, if_true]

/-! ## The variant descriptors of the bandwidth scan -/

theorem scanVariants_eq_foldDescriptors (U : URLApi) (baseUrl : Str) :
    ∀ (lines : List Str) (skip : Nat) (st : Int × Str),
      scanVariants U baseUrl lines skip st
        = foldDescriptors U baseUrl (variantDescriptors lines skip) st := by
  intro lines
  induction lines with
  | nil => intro skip st; rw [scanVariants, variantDescriptors, foldDescriptors]
  | cons l rest ih =>
    intro skip st
    cases skip with
    | succ k => rw [scanVariants, variantDescriptors, ih]
    | zero =>
      rw [scanVariants, variantDescriptors]
      by_cases hs : startsWith l streamInfMarker = true
      · simp only [hs, if_true]
        cases hf : findVariantUriLine rest with
        | none => simp only [ih]
        | some r =>
          obtain ⟨uri, offset⟩ := r
          simp only [foldDescriptors, ih]
      · simp only [hs, if_false, Bool.false_eq_true, ih]

theorem variantDescriptors_skip (xs rest : List Str) :
    variantDescriptors (xs ++ rest) xs.length = variantDescriptors rest 0 := by
  induction xs with
  | nil => rfl
  | cons x xs ih => rw [List.cons_append, List.length_cons, variantDescriptors, ih]

theorem variantDescriptors_no_decl (pre rest : List Str)
    (h : ∀ l ∈ pre, startsWith l streamInfMarker = false) :
    variantDescriptors (pre ++ rest) 0 = variantDescriptors rest 0 := by
  induction pre with
  | nil => rfl
  | cons l pre ih =>
    rw [List.cons_append, variantDescriptors, h l (by simp)]
    simp only [Bool.false_eq_true, if_false]
    exact ih (fun x hx => h x (by simp [hx]))

theorem variantDescriptors_block (b : VariantBlock) (hwf : b.WellFormed) (rest : List Str) :
    variantDescriptors (b.lines ++ rest) 0
      = (currentBandwidth b.decl, trim b.uri) :: variantDescriptors rest 0 := by
  obtain ⟨hd, hc, hu, ht⟩ := hwf
  have hfind : findVariantUriLine (b.comments ++ b.uri :: (b.tail ++ rest))
      = some (trim b.uri, b.comments.length) :=
    findVariantUriLine_comments _ _ _ (fun l hl => (hc l hl).1) hu
  have hskip : variantDescriptors (b.comments ++ b.uri :: (b.tail ++ rest))
      (b.comments.length + 1) = variantDescriptors rest 0 := by
    have := variantDescriptors_skip (b.comments ++ [b.uri]) (b.tail ++ rest)
    simp only [List.append_assoc, List.singleton_append, List.length_append,
      List.length_singleton] at this
    rw [this, variantDescriptors_no_decl _ _ ht]
  have hl : b.lines ++ rest = b.decl :: (b.comments ++ b.uri :: (b.tail ++ rest)) := by
    simp [VariantBlock.lines]
  rw [hl, variantDescriptors, if_pos hd, hfind]
  simp only [hskip]

theorem variantDescriptors_blocks (blocks : List VariantBlock)
    (hwf : ∀ b ∈ blocks, b.WellFormed) :
    variantDescriptors (blocks.flatMap VariantBlock.lines) 0
      = blocks.map (fun b => (currentBandwidth b.decl, trim b.uri)) := by
  induction blocks with
  | nil => rfl
  | cons b bs ih =>
    rw [List.flatMap_cons, variantDescriptors_block b (hwf b (by simp)),
      ih (fun x hx => hwf x (by simp [hx]))]
    rfl

/-! ## The bandwidth of a declaration line -/

theorem matchBandwidthAt_key (d S : Str) (hd : d ≠ [])
    (hdig : ∀ c ∈ d, isDigit c = true) (hS : ∀ c, S.head? = some c → isDigit c = false) :
    matchBandwidthAt (bandwidthKey ++ d ++ S) = some d := by
  unfold matchBandwidthAt
  rw [List.append_assoc, if_pos (startsWith_append _ _)]
  simp only [List.drop_left']
  have ht : List.takeWhile isDigit (d ++ S) = d := by
    rw [List.takeWhile_append_of_pos hdig]
    cases S with
    | nil => simp
    | cons c S =>
      have := hS c rfl
      simp [List.takeWhile_cons, this]
  rw [ht]
  have : d.isEmpty = false := by simpa using hd
  simp [this]

theorem bandwidthKey_length : bandwidthKey.length = 10 := by decide

theorem matchBandwidthAt_none_of_not_infix (c : Char) (P rest : Str)
    (hP : ¬ bandwidthKey <:+: c :: P) :
    matchBandwidthAt (c :: (P ++ bandwidthKey ++ rest)) = none := by
  unfold matchBandwidthAt
  rw [if_neg]
  intro hs
  obtain ⟨t, ht⟩ := (startsWith_iff _ _).1 hs
  by_cases hl : 10 ≤ (c :: P).length
  · have hsplit : c :: P = (c :: P).take 10 ++ (c :: P).drop 10 :=
      (List.take_append_drop 10 _).symm
    have hlen : ((c :: P).take 10).length = bandwidthKey.length := by
      rw [List.length_take, bandwidthKey_length]
      omega
    have ht2 : (c :: P).take 10 ++ ((c :: P).drop 10 ++ (bandwidthKey ++ rest))
        = bandwidthKey ++ t := by
      rw [← List.append_assoc, ← hsplit, ← ht]; simp
    have := (List.append_inj ht2 hlen).1
    apply hP
    rw [hsplit, this]
    exact (List.prefix_append _ _).isInfix
  · rcases P with _ | ⟨a1, _ | ⟨a2, _ | ⟨a3, _ | ⟨a4, _ | ⟨a5, _ | ⟨a6, _ | ⟨a7, _ | ⟨a8, _ | ⟨a9, P⟩⟩⟩⟩⟩⟩⟩⟩⟩
    all_goals first
      | (exfalso; apply hl; simp only [List.length_cons]; omega)
      | (simp [bandwidthKey] at ht)

/-- When `BANDWIDTH=` does not occur before it, a `BANDWIDTH=` followed by digits is the
leftmost match, and the line's bandwidth is the number these digits write. -/
theorem currentBandwidth_of_no_earlier (P d S : Str) (hP : ¬ bandwidthKey <:+: P)
    (hd : d ≠ []) (hdig : ∀ c ∈ d, isDigit c = true)
    (hS : ∀ c, S.head? = some c → isDigit c = false) :
    currentBandwidth (P ++ bandwidthKey ++ d ++ S) = (parseInt d : Int) := by
  have hfind : findBandwidth (P ++ bandwidthKey ++ d ++ S) = some d := by
    induction P with
    | nil =>
      have : bandwidthKey ++ d ++ S = 'B' :: ("ANDWIDTH=".toList ++ d ++ S) := by
        simp [bandwidthKey]
      rw [List.nil_append, this, findBandwidth, ← this, matchBandwidthAt_key d S hd hdig hS]
    | cons c P ih =>
      have hP2 : ¬ bandwidthKey <:+: P :=
        fun hi => hP (hi.trans (List.suffix_cons c P).isInfix)
      have hnone := matchBandwidthAt_none_of_not_infix c P (d ++ S) hP
      have e : c :: P ++ bandwidthKey ++ d ++ S = c :: (P ++ bandwidthKey ++ (d ++ S)) := by
        simp
      have e2 : P ++ bandwidthKey ++ (d ++ S) = P ++ bandwidthKey ++ d ++ S := by simp
      rw [e, findBandwidth, hnone, e2]
      exact ih hP2
  rw [currentBandwidth, hfind]

theorem infix_of_matchBandwidthAt (s d : Str) (h : matchBandwidthAt s = some d) :
    bandwidthKey <+: s := by
  unfold matchBandwidthAt at h
  split_ifs at h with hs
  exact List.isPrefixOf_iff_prefix.1 hs

theorem infix_of_findBandwidth (line d : Str) (h : findBandwidth line = some d) :
    bandwidthKey <:+: line := by
  induction line with
  | nil => simp [findBandwidth] at h
  | cons c cs ih =>
    rw [findBandwidth] at h
    cases hm : matchBandwidthAt (c :: cs) with
    | some d2 => exact (infix_of_matchBandwidthAt _ _ hm).isInfix
    | none =>
      rw [hm] at h
      exact (ih h).trans (List.suffix_cons c cs).isInfix

/-- A line without `BANDWIDTH=` has bandwidth 0. -/
theorem currentBandwidth_of_no_key (line : Str) (h : ¬ bandwidthKey <:+: line) :
    currentBandwidth line = 0 := by
  unfold currentBandwidth
  cases hf : findBandwidth line with
  | none => rfl
  | some d => exact absurd (infix_of_findBandwidth line d hf) h

/-! ## Decoding keeps a literal prefix -/

theorem decodeURIComponent_cons_lit (c : Char) (s : Str) (h : c ≠ '%') :
    decodeURIComponent (c :: s) = (decodeURIComponent s).map (fun d => c :: d) := by
  unfold decodeURIComponent
  rw [uriTokens_lit c s h]
  cases uriTokens s with
  | none => rfl
  | some ts =>
    simp only [Option.map_some', Option.some_bind, decodeTokens]
    rw [decodeTokensFrom]

theorem decodeURIComponent_append_lit (p s : Str) (h : '%' ∉ p) :
    decodeURIComponent (p ++ s) = (decodeURIComponent s).map (fun d => p ++ d) := by
  induction p with
  | nil => simp
  | cons c p ih =>
    have hc : c ≠ '%' := fun e => h (by simp [e])
    have hp : '%' ∉ p := fun e => h (by simp [e])
    rw [List.cons_append, decodeURIComponent_cons_lit c _ hc, ih hp, Option.map_map]
    rfl

theorem startsWith_map_lower (s q : Str) (hq : '%' ∉ q)
    (h : startsWith (s.map asciiLower) q = true) :
    ∃ p t, s = p ++ t ∧ p.map asciiLower = q ∧ '%' ∉ p := by
  obtain ⟨t, ht⟩ := (startsWith_iff _ _).1 h
  obtain ⟨p, t2, hs, hp, -⟩ := List.map_eq_append_iff.1 ht
  refine ⟨p, t2, hs, hp, ?_⟩
  intro hm
  apply hq
  rw [← hp]
  have : asciiLower '%' = '%' := by decide
  rw [← this]
  exact List.mem_map_of_mem _ hm

/-- A string that begins with `http://` or `https://` and decodes, decodes to a string
that begins with the same characters. -/
theorem matchesHttpScheme_decode (e d : Str) (he : matchesHttpScheme e = true)
    (hd : decodeURIComponent e = some d) : matchesHttpScheme d = true := by
  unfold matchesHttpScheme at he
  rw [Bool.or_eq_true] at he
  have key : ∀ q : Str, '%' ∉ q → startsWith (e.map asciiLower) q = true →
      startsWith (d.map asciiLower) q = true := by
    intro q hq h
    obtain ⟨p, t, rfl, hp, hn⟩ := startsWith_map_lower e q hq h
    rw [decodeURIComponent_append_lit p t hn] at hd
    cases ht : decodeURIComponent t with
    | none => rw [ht] at hd; simp at hd
    | some d2 =>
      rw [ht] at hd
      simp only [Option.map_some', Option.some.injEq] at hd
      rw [← hd, List.map_append, hp]
      exact startsWith_append _ _
  unfold matchesHttpScheme
  rw [Bool.or_eq_true]
  rcases he with h | h
  · exact Or.inl (key _ (by decide) h)
  · exact Or.inr (key _ (by decide) h)

/-- A string that begins with `http://` or `https://` (letters in either case) and
decodes, decodes to a string that begins with the very same characters. -/
theorem decode_keeps_scheme (e d : Str) (he : matchesHttpScheme e = true)
    (hd : decodeURIComponent e = some d) :
    ∃ p t d2, e = p ++ t ∧ d = p ++ d2 ∧ decodeURIComponent t = some d2 ∧
      (p.map asciiLower = "http://".toList ∨ p.map asciiLower = "https://".toList) := by
  unfold matchesHttpScheme at he
  rw [Bool.or_eq_true] at he
  have key : ∀ q : Str, '%' ∉ q → startsWith (e.map asciiLower) q = true →
      ∃ p t d2, e = p ++ t ∧ d = p ++ d2 ∧ decodeURIComponent t = some d2 ∧
        p.map asciiLower = q := by
    intro q hq h
    obtain ⟨p, t, hpt, hp, hn⟩ := startsWith_map_lower e q hq h
    rw [hpt, decodeURIComponent_append_lit p t hn] at hd
    cases ht : decodeURIComponent t with
    | none => rw [ht] at hd; simp at hd
    | some d2 =>
      rw [ht] at hd
      simp only [Option.map_some', Option.some.injEq] at hd
      exact ⟨p, t, d2, hpt, hd.symm, ht, hp⟩
  rcases he with h | h
  · obtain ⟨p, t, d2, h1, h2, h3, h4⟩ := key _ (by decide) h
    exact ⟨p, t, d2, h1, h2, h3, Or.inl h4⟩
  · obtain ⟨p, t, d2, h1, h2, h3, h4⟩ := key _ (by decide) h
    exact ⟨p, t, d2, h1, h2, h3, Or.inr h4⟩

/-! ## Trimming and a prefix that does not end in white space -/

theorem trim_eq_rdropWhile (s : Str) :
    trim s = List.rdropWhile isWhiteSpace (s.dropWhile isWhiteSpace) := rfl

theorem prefix_rdropWhile (p : Str) (hp : ∀ hne : p ≠ [], isWhiteSpace (p.getLast hne) = false)
    (r : Str) : p <+: List.rdropWhile isWhiteSpace (p ++ r) := by
  induction r using List.reverseRecOn with
  | nil =>
    rw [List.append_nil, List.rdropWhile_eq_self_iff.2]
    intro hne
    rw [hp hne]
    exact Bool.false_ne_true
  | append_singleton r c ih =>
    rw [← List.append_assoc]
    by_cases hc : isWhiteSpace c = true
    · rw [List.rdropWhile_concat_pos _ _ _ hc]
      exact ih
    · rw [List.rdropWhile_concat_neg _ _ _ hc, List.append_assoc]
      exact List.prefix_append _ _

theorem startsWith_trim (s p : Str)
    (hp : ∀ hne : p ≠ [], isWhiteSpace (p.getLast hne) = false) :
    startsWith (trim s) p = true ↔ p <+: s.dropWhile isWhiteSpace := by
  rw [startsWith, List.isPrefixOf_iff_prefix, trim_eq_rdropWhile]
  constructor
  · intro h
    exact h.trans ( List.rdropWhile_prefix _ _)
  · rintro ⟨r, hr⟩
    rw [← hr]
    exact prefix_rdropWhile p hp r

/-! ## The directory of a path -/

theorem join_cons_cons (sep c : Char) (l : Str) (ls : List Str) :
    join sep ((c :: l) :: ls) = c :: join sep (l :: ls) := by
  cases ls <;> rfl

theorem join_split (sep : Char) (s : Str) : join sep (split sep s) = s := by
  induction s with
  | nil => rfl
  | cons c cs ih =>
    rw [split]
    cases hs : split sep cs with
    | nil => exact absurd hs (split_ne_nil sep cs)
    | cons l ls =>
      rw [hs] at ih
      by_cases hc : c = sep
      · rw [if_pos hc, join, ih, hc]
        rfl
      · rw [if_neg hc]
        simp only
        rw [join_cons_cons, ih]

theorem split_append_last (sep : Char) (a b : Str) (hb : sep ∉ b) :
    split sep (a ++ sep :: b) = split sep a ++ [b] := by
  induction a with
  | nil =>
    simp [split, split_of_not_mem sep b hb]
  | cons c cs ih =>
    rw [List.cons_append, split, split, ih]
    by_cases hc : c = sep
    · rw [if_pos hc, if_pos hc]
      rfl
    · rw [if_neg hc, if_neg hc]
      cases hs : split sep cs with
      | nil => exact absurd hs (split_ne_nil sep cs)
      | cons l ls => rfl

theorem endsWith_append (s p : Str) : endsWith (s ++ p) p = true := by
  rw [endsWith, List.isSuffixOf_iff_suffix]
  exact List.suffix_append _ _

/-! ## Contexts that agree on the request, on `fetch` and on the processed tier -/

theorem kvLookup_congr (ctx ctx2 : Context) (h : SamePipelineContext ctx ctx2) (key : Str) :
    kvLookup ctx2 key = kvLookup ctx key := by
  obtain ⟨-, -, hkv⟩ := h
  unfold kvLookup
  cases h1 : ctx.env.LIBRETV_PROXY_KV with
  | none =>
    rw [h1] at hkv
    cases h2 : ctx2.env.LIBRETV_PROXY_KV with
    | none => rfl
    | some kv2 => rw [h2] at hkv; simp at hkv
  | some kv =>
    rw [h1] at hkv
    cases h2 : ctx2.env.LIBRETV_PROXY_KV with
    | none => rw [h2] at hkv; simp at hkv
    | some kv2 =>
      rw [h2] at hkv
      simp only [Option.map_some', Option.some.injEq] at hkv
      simp only [hkv]

theorem kvStore_congr (ctx ctx2 : Context) (h : SamePipelineContext ctx ctx2) (key : Str)
    (v : Value) : kvStore ctx2 key v = kvStore ctx key v := by
  obtain ⟨-, -, hkv⟩ := h
  unfold kvStore
  cases h1 : ctx.env.LIBRETV_PROXY_KV with
  | none =>
    rw [h1] at hkv
    cases h2 : ctx2.env.LIBRETV_PROXY_KV with
    | none => rfl
    | some kv2 => rw [h2] at hkv; simp at hkv
  | some kv =>
    rw [h1] at hkv
    cases h2 : ctx2.env.LIBRETV_PROXY_KV with
    | none => rw [h2] at hkv; simp at hkv
    | some kv2 => rfl

theorem fetchContentWithType_congr (U : URLApi) (ctx ctx2 : Context)
    (h : SamePipelineContext ctx ctx2) (url : Str) :
    fetchContentWithType U ctx2 url = fetchContentWithType U ctx url := by
  unfold fetchContentWithType
  rw [h.2.1]

theorem masterStep_congr (U : URLApi) (ctx ctx2 : Context) (h : SamePipelineContext ctx ctx2)
    (url content : Str) (d : Nat) :
    masterStep U ctx2 url content d = masterStep U ctx url content d := by
  unfold masterStep
  simp only [kvLookup_congr ctx ctx2 h, fetchContentWithType_congr U ctx ctx2 h, h.1]

theorem masterFinish_congr (ctx ctx2 : Context) (h : SamePipelineContext ctx ctx2)
    (v : Str) (ev : List Event) (r : Res Value × List Event) :
    masterFinish ctx2 v ev r = masterFinish ctx v ev r := by
  unfold masterFinish
  simp only [kvStore_congr ctx ctx2 h]

theorem pipeline_congr (U : URLApi) (ctx ctx2 : Context) (h : SamePipelineContext ctx ctx2) :
    ∀ fuel,
      (∀ url c d, processM3u8Content U ctx2 fuel url c d
        = processM3u8Content U ctx fuel url c d) ∧
      (∀ url c d, processMasterPlaylist U ctx2 fuel url c d
        = processMasterPlaylist U ctx fuel url c d) := by
  intro fuel
  induction fuel with
  | zero =>
    constructor
    · intro url c d; rw [processM3u8Content, processM3u8Content]
    · intro url c d; rw [processMasterPlaylist, processMasterPlaylist]
  | succ n ih =>
    obtain ⟨ih1, ih2⟩ := ih
    constructor
    · intro url c d
      rw [processM3u8Content_succ, processM3u8Content_succ, ih2]
    · intro url c d
      rw [processMasterPlaylist_succ, processMasterPlaylist_succ, masterStep_congr U ctx ctx2 h]
      cases masterStep U ctx url c d with
      | done r => rfl
      | recurse v vc ev =>
        simp only [ih1]
        congr 1
        funext r
        exact masterFinish_congr ctx ctx2 h v ev r

theorem processM3u8Content_congr (U : URLApi) (ctx ctx2 : Context)
    (h : SamePipelineContext ctx ctx2) (fuel : Nat) (url c : Str) (d : Nat) :
    processM3u8Content U ctx2 fuel url c d = processM3u8Content U ctx fuel url c d :=
  (pipeline_congr U ctx ctx2 h fuel).1 url c d

theorem createM3u8Response_text (request : Request) (s : Str)
    (hm : request.method ≠ "OPTIONS".toList) :
    (createM3u8Response request (Value.text s)).body = some s ∧
    (createM3u8Response request (Value.text s)).status = 200 ∧
    headersGet (createM3u8Response request (Value.text s)).headers "Content-Type".toList
      = some hlsMimeType := by
  unfold createM3u8Response createResponse
  rw [if_neg hm]
  refine ⟨rfl, rfl, ?_⟩
  dsimp only [responseInitHeaders]
  decide

theorem map_fst_respondWithPlaylist (U : URLApi) (ctx : Context) (fuel : Nat)
    (targetUrl content : Str) (events : List Event) :
    (respondWithPlaylist U ctx fuel targetUrl content events).map Prod.fst
      = (processM3u8Content U ctx fuel targetUrl content 0).map (fun r =>
          match r.1 with
          | Res.ok processedM3u8 => createM3u8Response ctx.request processedM3u8
          | Res.throw e => errorResponse U ctx.request e) := by
  unfold respondWithPlaylist
  cases processM3u8Content U ctx fuel targetUrl content 0 with
  | none => rfl
  | some r =>
    obtain ⟨r1, ev⟩ := r
    cases r1 <;> rfl

/-! ## Marker lines of the output that are no key or map declaration -/

/-- Replacing the leftmost quoted URI attribute keeps a prefix of the line that holds no
`U`. -/
theorem startsWith_replaceUriAttr (U : URLApi) (line baseUrl out p : Str)
    (hp : 'U' ∉ p) (hs : startsWith line p = true)
    (h : replaceUriAttr U line baseUrl = Res.ok out) : startsWith out p = true := by
  unfold replaceUriAttr at h
  split at h
  · simp only [Res.ok.injEq] at h
    rw [← h]
    exact hs
  · rename_i pre uri post hf
    obtain ⟨a, -, rfl⟩ := Res.map_eq_ok h
    obtain ⟨hline, -, -⟩ := findUriAttr_eq_some _ _ _ _ hf
    have h1 : p <+: line := List.isPrefixOf_iff_prefix.1 hs
    have h2 : pre <+: line := by
      rw [hline, List.append_assoc, List.append_assoc]
      exact List.prefix_append _ _
    rcases List.prefix_or_prefix_of_prefix h1 h2 with hpp | hpp
    · obtain ⟨t, rfl⟩ := hpp
      rw [startsWith_iff]
      exact ⟨t ++ (uriAttrOpen ++ rewriteUrlToProxy a ++ '"' :: post), by simp⟩
    · obtain ⟨t, rfl⟩ := hpp
      cases t with
      | nil =>
        rw [startsWith_iff]
        exact ⟨uriAttrOpen ++ rewriteUrlToProxy a ++ '"' :: post, by simp⟩
      | cons c t =>
        exfalso
        obtain ⟨s, hs2⟩ := h1
        rw [hline] at hs2
        simp only [List.append_assoc, List.append_cancel_left_eq, uriAttrOpen,
          String.toList, List.cons_append, List.cons.injEq] at hs2
        apply hp
        rw [hs2.1]
        simp

/-- A line of the output that starts with `#` and is no key or map declaration is a
trimmed input line. -/
theorem other_marker_lines_of_processMediaPlaylist (U : URLApi) (url body out : Str)
    (h : processMediaPlaylist U url body = Res.ok out) :
    ∀ o ∈ linesOf out, startsWith o "#".toList = true →
      startsWith o "#EXT-X-KEY".toList = false → startsWith o "#EXT-X-MAP".toList = false →
      ∃ l ∈ linesOf body, o = trim l := by
  intro o ho hh hk hm
  rcases linesOf_processMediaPlaylist U url body out h o ho with he | ⟨l, hl, -, ht⟩
  · rw [he] at hh
    exact absurd hh (by decide)
  · refine ⟨l, hl, ?_⟩
    unfold transformLine at ht
    by_cases hkl : startsWith (trim l) "#EXT-X-KEY".toList = true
    · rw [hkl, Bool.true_or, if_pos rfl] at ht
      have := startsWith_replaceUriAttr U _ _ _ _ (by decide) hkl ht
      rw [hk] at this
      exact absurd this (by decide)
    · by_cases hml : startsWith (trim l) "#EXT-X-MAP".toList = true
      · rw [hml, Bool.or_true, if_pos rfl] at ht
        have := startsWith_replaceUriAttr U _ _ _ _ (by decide) hml ht
        rw [hm] at this
        exact absurd this (by decide)
      · rw [Bool.not_eq_true] at hkl hml
        rw [hkl, hml] at ht
        by_cases hhl : startsWith (trim l) "#".toList = true
        · rw [if_pos hhl] at ht
          simp only [Bool.or_self, Bool.false_eq_true, if_false, Res.ok.injEq] at ht
          exact ht.symm
        · rw [Bool.not_eq_true] at hhl
          have ht2 : transformLine U (getBaseUrl U url) (trim l) = Res.ok o := by
            unfold transformLine
            rw [hkl, hml]
            exact ht
          rw [transformLine_of_not_hash U _ _ hhl] at ht2
          obtain ⟨r, -, rfl⟩ := Res.map_eq_ok ht2
          obtain ⟨t, ht3⟩ := (startsWith_hash_iff _).1 hh
          simp [rewriteUrlToProxy, proxyPrefix] at ht3

/-! ## The Number that `parseInt` gives -/

/-- Below `2 ^ 53` the Number is the integer the digits write. -/
theorem parseInt_of_lt (digits : Str) (h : decimalValue digits < 2 ^ 53) :
    parseInt digits = decimalValue digits := by
  unfold parseInt toNumber
  rw [if_pos h]

theorem excessBits_of_lt (fuel n : Nat) (h : n < 2 ^ 53) : excessBits fuel n = 0 := by
  cases fuel with
  | zero => rfl
  | succ k => rw [excessBits, if_pos h]

/-- With enough fuel, dividing by `2 ^ excessBits` leaves 53 significant binary digits. -/
theorem excessBits_spec : ∀ (fuel n : Nat), n < 2 ^ 53 * 2 ^ fuel →
    n / 2 ^ excessBits fuel n < 2 ^ 53 ∧
    (2 ^ 53 ≤ n → 2 ^ 52 ≤ n / 2 ^ excessBits fuel n ∧ 1 ≤ excessBits fuel n) := by
  intro fuel
  induction fuel with
  | zero =>
    intro n h
    have hn : n < 2 ^ 53 := by simpa using h
    rw [excessBits]
    constructor
    · simpa using hn
    · intro h2
      omega
  | succ k ih =>
    intro n h
    by_cases hn : n < 2 ^ 53
    · rw [excessBits, if_pos hn]
      constructor
      · simpa using hn
      · intro h2
        omega
    · rw [excessBits, if_neg hn]
      have hhalf : n / 2 < 2 ^ 53 * 2 ^ k := by
        rw [pow_succ] at h
        omega
      obtain ⟨h1, h2⟩ := ih (n / 2) hhalf
      have hdiv : n / 2 ^ (excessBits k (n / 2) + 1) = n / 2 / 2 ^ excessBits k (n / 2) := by
        rw [pow_succ, Nat.mul_comm, Nat.div_div_eq_div_mul]
      rw [hdiv]
      refine ⟨h1, fun _ => ⟨?_, by omega⟩⟩
      by_cases hh : 2 ^ 53 ≤ n / 2
      · exact (h2 hh).1
      · have hlt : n / 2 < 2 ^ 53 := by omega
        rw [excessBits_of_lt k _ hlt]
        simp only [pow_zero, Nat.div_one]
        omega

theorem digit_le_nine (c : Char) (h : isDigit c = true) : c.toNat - 48 ≤ 9 := by
  simp only [isDigit, Bool.and_eq_true, decide_eq_true_eq] at h
  omega

theorem foldl_digits_lt (d : Str) (hd : ∀ c ∈ d, isDigit c = true) :
    ∀ acc, d.foldl (fun acc c => 10 * acc + (c.toNat - 48)) acc < (acc + 1) * 10 ^ d.length := by
  induction d with
  | nil => intro acc; simp
  | cons c cs ih =>
    intro acc
    have hc := digit_le_nine c (hd c (by simp))
    have := ih (fun x hx => hd x (by simp [hx])) (10 * acc + (c.toNat - 48))
    rw [List.foldl_cons, List.length_cons, pow_succ]
    calc _ < (10 * acc + (c.toNat - 48) + 1) * 10 ^ cs.length := this
      _ ≤ (10 * acc + 10) * 10 ^ cs.length := Nat.mul_le_mul_right _ (by omega)
      _ = (acc + 1) * (10 ^ cs.length * 10) := by ring

/-- A run of `k` decimal digits writes a number below `2 ^ (4 * k)`. -/
theorem decimalValue_lt (d : Str) (hd : ∀ c ∈ d, isDigit c = true) :
    decimalValue d < 2 ^ (4 * d.length) := by
  have h := foldl_digits_lt d hd 0
  rw [Nat.zero_add, Nat.one_mul] at h
  have h2 : 10 ^ d.length ≤ 2 ^ (4 * d.length) := by
    rw [pow_mul]
    exact Nat.pow_le_pow_left (by norm_num) _
  exact lt_of_lt_of_le h h2

theorem overflow_iff_of_bound (m e k : Nat) (h1 : 2 ^ 52 ≤ m) (h2 : m ≤ 2 ^ 53) :
    (k < e ∨ (e = k ∧ m = 2 ^ 53)) ↔ 2 ^ 53 * 2 ^ k ≤ m * 2 ^ e := by
  have hk : (2 : Nat) ^ 53 * 2 ^ k = 2 ^ 52 * 2 ^ (k + 1) := by
    rw [pow_succ 2 k, pow_succ 2 52]
    ring
  constructor
  · rintro (h | ⟨rfl, rfl⟩)
    · rw [hk]
      exact Nat.mul_le_mul h1 (Nat.pow_le_pow_right Nat.zero_lt_two h)
    · exact le_refl _
  · intro h
    by_contra hc
    rw [not_or, not_and] at hc
    obtain ⟨hc1, hc2⟩ := hc
    by_cases he : e = k
    · subst he
      have hm : m < 2 ^ 53 := lt_of_le_of_ne h2 (hc2 rfl)
      have : m * 2 ^ e < 2 ^ 53 * 2 ^ e := Nat.mul_lt_mul_of_pos_right hm (Nat.two_pow_pos _)
      omega
    · have he2 : e < k := by omega
      have h3 : m * 2 ^ e ≤ 2 ^ 53 * 2 ^ e := Nat.mul_le_mul_right _ h2
      have h4 : (2 : Nat) ^ 53 * 2 ^ e < 2 ^ 53 * 2 ^ k :=
        Nat.mul_lt_mul_of_pos_left (Nat.pow_lt_pow_right Nat.one_lt_two he2)
          (Nat.two_pow_pos _)
      omega

theorem overflow_iff (m e : Nat) (h1 : 2 ^ 52 ≤ m) (h2 : m ≤ 2 ^ 53) :
    (971 < e ∨ (e = 971 ∧ m = 2 ^ 53)) ↔ 2 ^ 1024 ≤ m * 2 ^ e := by
  have e2 : (2 : Nat) ^ 1024 = 2 ^ 53 * 2 ^ 971 := by rw [← pow_add]
  rw [e2]
  exact overflow_iff_of_bound m e 971 h1 h2

/-- From `2 ^ 53` on, the Number `parseInt` gives for a run of digits that writes `n` is
the double nearest to `n`: with `n` between `2 ^ 52 * 2 ^ e` and `2 ^ 53 * 2 ^ e` it is
a multiple `m * 2 ^ e` at a distance of at most half of `2 ^ e`, with `m` even at
exactly half, and it is `Infinity` (`2 ^ 1024`) when that multiple reaches
`2 ^ 1024`. -/
theorem parseInt_nearest (d : Str) (hd : ∀ c ∈ d, isDigit c = true)
    (h : 2 ^ 53 ≤ decimalValue d) :
    ∃ m e, 1 ≤ e ∧ 2 ^ 52 * 2 ^ e ≤ decimalValue d ∧ decimalValue d < 2 ^ 53 * 2 ^ e ∧
      2 ^ 52 ≤ m ∧ m ≤ 2 ^ 53 ∧
      parseInt d = (if 2 ^ 1024 ≤ m * 2 ^ e then 2 ^ 1024 else m * 2 ^ e) ∧
      2 * (m * 2 ^ e - decimalValue d) ≤ 2 ^ e ∧
      2 * (decimalValue d - m * 2 ^ e) ≤ 2 ^ e ∧
      ((2 * (m * 2 ^ e - decimalValue d) = 2 ^ e ∨
        2 * (decimalValue d - m * 2 ^ e) = 2 ^ e) → m % 2 = 0) := by
  have hlt := decimalValue_lt d hd
  have hfuel : decimalValue d < 2 ^ 53 * 2 ^ (4 * d.length) :=
    lt_of_lt_of_le hlt (Nat.le_mul_of_pos_left _ ((Nat.two_pow_pos _)))
  obtain ⟨hq1, hq2⟩ := excessBits_spec (4 * d.length) (decimalValue d) hfuel
  obtain ⟨hq3, he⟩ := hq2 h
  generalize hn : decimalValue d = n at *
  generalize hee : excessBits (4 * d.length) n = e at *
  have hdm := Nat.div_add_mod n (2 ^ e)
  have hr : n % 2 ^ e < 2 ^ e := Nat.mod_lt _ ((Nat.two_pow_pos _))
  generalize hqq : n / 2 ^ e = q at *
  generalize hrr : n % 2 ^ e = r at *
  generalize hpp : 2 ^ e = p at *
  have hnq : n = q * p + r := by rw [← hdm, Nat.mul_comm]
  have hpar : parseInt d
      = (if 971 < e ∨ (e = 971 ∧
            (if p < 2 * r ∨ (2 * r = p ∧ q % 2 = 1) then q + 1 else q) = 2 ^ 53)
          then 2 ^ 1024
          else (if p < 2 * r ∨ (2 * r = p ∧ q % 2 = 1) then q + 1 else q) * p) := by
    unfold parseInt toNumber
    rw [hn, if_neg (by omega)]
    simp only [hee, hqq, hrr, hpp]
  have hlow : 2 ^ 52 * p ≤ n := by
    rw [hnq]
    exact le_trans (Nat.mul_le_mul_right _ hq3) (Nat.le_add_right _ _)
  have hhigh : n < 2 ^ 53 * p := by
    rw [hnq]
    have : (q + 1) * p ≤ 2 ^ 53 * p := Nat.mul_le_mul_right _ hq1
    rw [Nat.add_mul, Nat.one_mul] at this
    omega
  by_cases hup : p < 2 * r ∨ (2 * r = p ∧ q % 2 = 1)
  · rw [if_pos hup] at hpar
    have hm1 : 2 ^ 52 ≤ q + 1 := by omega
    have hm2 : q + 1 ≤ 2 ^ 53 := hq1
    refine ⟨q + 1, e, he, ?_, ?_, hm1, hm2, ?_, ?_, ?_, ?_⟩
    · rw [hpp]; exact hlow
    · rw [hpp]; exact hhigh
    · rw [hpar, hpp]
      by_cases ho : 971 < e ∨ (e = 971 ∧ q + 1 = 2 ^ 53)
      · rw [if_pos ho, if_pos (by rw [← hpp]; exact (overflow_iff _ _ hm1 hm2).1 ho)]
      · rw [if_neg ho, if_neg (by rw [← hpp]; exact fun hc => ho ((overflow_iff _ _ hm1 hm2).2 hc))]
    · rw [hpp, hnq, Nat.add_mul, Nat.one_mul]
      omega
    · rw [hpp, hnq, Nat.add_mul, Nat.one_mul]
      omega
    · rw [hpp, hnq, Nat.add_mul, Nat.one_mul]
      intro ht
      have h2r : 2 * r = p := by omega
      rcases hup with hup | hup
      · omega
      · omega
  · rw [if_neg hup] at hpar
    rw [not_or, not_and] at hup
    have hm2 : q ≤ 2 ^ 53 := le_of_lt hq1
    refine ⟨q, e, he, ?_, ?_, hq3, hm2, ?_, ?_, ?_, ?_⟩
    · rw [hpp]; exact hlow
    · rw [hpp]; exact hhigh
    · rw [hpar, hpp]
      by_cases ho : 971 < e ∨ (e = 971 ∧ q = 2 ^ 53)
      · rw [if_pos ho, if_pos (by rw [← hpp]; exact (overflow_iff _ _ hq3 hm2).1 ho)]
      · rw [if_neg ho, if_neg (by rw [← hpp]; exact fun hc => ho ((overflow_iff _ _ hq3 hm2).2 hc))]
    · rw [hpp, hnq]
      omega
    · rw [hpp, hnq]
      omega
    · rw [hpp, hnq]
      intro ht
      have h2r : 2 * r = p := by omega
      have := hup.2 h2r
      omega

/-! ## The blocks of an example, and resolution by the URL parser -/

theorem winnerFirstBlocks_wellFormed : ∀ b ∈ winnerFirstBlocks, b.WellFormed := by
  intro b hb
  simp only [winnerFirstBlocks, List.mem_cons, List.mem_singleton, List.not_mem_nil,
    or_false] at hb
  rcases hb with rfl | rfl <;> (unfold VariantBlock.WellFormed; decide)

/-- A reference that does not begin with `http://` or `https://` and that `new URL`
parses against the base resolves to the `href` of that URL. -/
theorem resolveUrl_of_parse (U : URLApi) (baseUrl relativeUrl : Str) (u : URLRecord)
    (hm : matchesHttpScheme relativeUrl = false)
    (hp : U.parse relativeUrl (some baseUrl) = some u) :
    resolveUrl U baseUrl relativeUrl = Res.ok u.href := by
  unfold resolveUrl
  rw [hm, hp]
  rfl

/-! # The claims of the specification -/

/-- C1: for every string `u` without unpaired surrogates that begins with `http://` or
`https://`, decoding the proxy path of `u` gives `u` back:
`getTargetUrlFromPath(rewriteUrlToProxy(u)) = u`. -/
theorem C1_decode_encode_roundtrip (u : Str)
    (h : startsWith u "http://".toList = true ∨ startsWith u "https://".toList = true) :
    getTargetUrlFromPath (rewriteUrlToProxy u) = some u :=
  getTargetUrlFromPath_rewriteUrlToProxy u (matchesHttpScheme_of_startsWith u h)

/-- The round trip on a URL with a space, a non-ASCII letter and a query. -/
theorem C1_decode_encode_roundtrip_witness :
    startsWith "https://example.com/a b/ü.m3u8?x=1".toList "https://".toList = true ∧
    getTargetUrlFromPath (rewriteUrlToProxy "https://example.com/a b/ü.m3u8?x=1".toList)
      = some "https://example.com/a b/ü.m3u8?x=1".toList :=
  ⟨by decide, C1_decode_encode_roundtrip _ (Or.inr (by decide))⟩

/-- C2 (amended): every line of the text `processMediaPlaylist(url, body)` returns that
is not empty and does not start with `#` is `/proxy/` followed by the percent-encoding
of `resolveUrl(getBaseUrl(url), l)` for a trimmed input line `l` that is not empty and
does not start with `#`; the encoded URL is `l` itself when `l` begins with `http://`
or `https://`.  It need not be an http(s) URL. -/
theorem C2_segment_lines_are_proxy_paths (U : URLApi) (url body out : Str)
    (h : processMediaPlaylist U url body = Res.ok out) :
    ∀ o ∈ linesOf out, o ≠ [] → startsWith o "#".toList = false →
      ∃ l ∈ linesOf body, ∃ r,
        (trim l ≠ [] ∧ startsWith (trim l) "#".toList = false) ∧
        resolveUrl U (getBaseUrl U url) (trim l) = Res.ok r ∧
        o = proxyPrefix ++ encodeURIComponent r ∧
        (matchesHttpScheme (trim l) = true → r = trim l) :=
  segment_lines_of_processMediaPlaylist U url body out h

/-- The segment line of the example playlist is the proxy path of its resolved URL. -/
theorem C2_segment_lines_are_proxy_paths_witness :
    processMediaPlaylist sampleURL exampleMediaUrl exampleMediaBody = Res.ok exampleMediaOutput ∧
    ∀ o ∈ linesOf exampleMediaOutput, o ≠ [] → startsWith o "#".toList = false →
      ∃ l ∈ linesOf exampleMediaBody, ∃ r,
        (trim l ≠ [] ∧ startsWith (trim l) "#".toList = false) ∧
        resolveUrl sampleURL (getBaseUrl sampleURL exampleMediaUrl) (trim l) = Res.ok r ∧
        o = proxyPrefix ++ encodeURIComponent r ∧
        (matchesHttpScheme (trim l) = true → r = trim l) :=
  ⟨by decide, C2_segment_lines_are_proxy_paths sampleURL exampleMediaUrl exampleMediaBody
    exampleMediaOutput (by decide)⟩

/-- C2 fails as stated: for the https playlist URL `exampleMediaUrl` and a body whose
segment line is `ftp://files.example/seg1.ts`, the output has the segment line
`/proxy/ftp%3A%2F%2Ffiles.example%2Fseg1.ts`, which is the proxy path of no URL that
begins with `http://` or `https://`. -/
theorem C2_counterexample :
    matchesHttpScheme exampleMediaUrl = true ∧
    processMediaPlaylist sampleURL exampleMediaUrl ftpSegmentBody
      = Res.ok "#EXTM3U\n#EXTINF:4,\n/proxy/ftp%3A%2F%2Ffiles.example%2Fseg1.ts".toList ∧
    "/proxy/ftp%3A%2F%2Ffiles.example%2Fseg1.ts".toList
      ∈ linesOf "#EXTM3U\n#EXTINF:4,\n/proxy/ftp%3A%2F%2Ffiles.example%2Fseg1.ts".toList ∧
    ¬ ∃ r, matchesHttpScheme r = true ∧
        "/proxy/ftp%3A%2F%2Ffiles.example%2Fseg1.ts".toList = proxyPrefix ++ encodeURIComponent r := by
  refine ⟨by decide, by decide, by decide, ?_⟩
  rintro ⟨r, hr, he⟩
  have h1 : "/proxy/ftp%3A%2F%2Ffiles.example%2Fseg1.ts".toList
      = proxyPrefix ++ encodeURIComponent "ftp://files.example/seg1.ts".toList := by decide
  rw [h1] at he
  have h2 := encodeURIComponent_injective _ _ (List.append_cancel_left he)
  rw [← h2] at hr
  revert hr
  decide

/-- C3 (amended): in the text `processMediaPlaylist(url, body)` returns, every line
that is not empty and does not start with `#` starts with `/proxy/`, and on every line
that starts with `#EXT-X-KEY` or `#EXT-X-MAP` the leftmost quoted non-empty `URI`
attribute has a value that starts with `/proxy/`.  Every other tag line is passed
through with the white space at its ends removed and with any URI attribute it carries:
an output line that starts with `#` and with neither `#EXT-X-KEY` nor `#EXT-X-MAP` is a
trimmed input line, and every input line that, trimmed, starts with `#`, is not
`#EXT-X-DISCONTINUITY` and starts with neither `#EXT-X-KEY` nor `#EXT-X-MAP` is in the
output in its trimmed form. -/
theorem C3_references_through_proxy (U : URLApi) (url body out : Str)
    (h : processMediaPlaylist U url body = Res.ok out) :
    (∀ o ∈ linesOf out,
      (o ≠ [] → startsWith o "#".toList = false → startsWith o proxyPrefix = true) ∧
      ((startsWith o "#EXT-X-KEY".toList = true ∨ startsWith o "#EXT-X-MAP".toList = true) →
        ∀ pre uri post, findUriAttr o = some (pre, uri, post) →
          startsWith uri proxyPrefix = true) ∧
      (startsWith o "#".toList = true → startsWith o "#EXT-X-KEY".toList = false →
        startsWith o "#EXT-X-MAP".toList = false → ∃ l ∈ linesOf body, o = trim l)) ∧
    (∀ l ∈ linesOf body,
      startsWith (trim l) "#".toList = true → trim l ≠ discontinuityMarker →
      startsWith (trim l) "#EXT-X-KEY".toList = false →
      startsWith (trim l) "#EXT-X-MAP".toList = false →
      trim l ∈ linesOf out) := by
  constructor
  · intro o ho
    refine ⟨?_, key_lines_of_processMediaPlaylist U url body out h o ho,
      other_marker_lines_of_processMediaPlaylist U url body out h o ho⟩
    intro hne hh
    obtain ⟨l, -, r, -, -, rfl, -⟩ :=
      segment_lines_of_processMediaPlaylist U url body out h o ho hne hh
    exact startsWith_append _ _
  · intro l hl hh hd hk hm
    have hne : trim l ≠ [] := by
      intro he
      rw [he] at hh
      revert hh
      decide
    have hr : retained (trim l) = true := by
      simp [retained, hne, hd]
    exact image_mem_linesOf_output U url body out l (trim l) h hl hr
      (transformLine_of_other_marker U (getBaseUrl U url) (trim l) hh hk hm)

/-- In the output of the example playlist the segment line and the key URI go through
the proxy, and the `#EXTINF` line is passed through. -/
theorem C3_references_through_proxy_witness :
    processMediaPlaylist sampleURL exampleMediaUrl exampleMediaBody = Res.ok exampleMediaOutput ∧
    "#EXTINF:4,".toList ∈ linesOf exampleMediaOutput ∧
    ((∀ o ∈ linesOf exampleMediaOutput,
      (o ≠ [] → startsWith o "#".toList = false → startsWith o proxyPrefix = true) ∧
      ((startsWith o "#EXT-X-KEY".toList = true ∨ startsWith o "#EXT-X-MAP".toList = true) →
        ∀ pre uri post, findUriAttr o = some (pre, uri, post) →
          startsWith uri proxyPrefix = true) ∧
      (startsWith o "#".toList = true → startsWith o "#EXT-X-KEY".toList = false →
        startsWith o "#EXT-X-MAP".toList = false →
        ∃ l ∈ linesOf exampleMediaBody, o = trim l)) ∧
    (∀ l ∈ linesOf exampleMediaBody,
      startsWith (trim l) "#".toList = true → trim l ≠ discontinuityMarker →
      startsWith (trim l) "#EXT-X-KEY".toList = false →
      startsWith (trim l) "#EXT-X-MAP".toList = false →
      trim l ∈ linesOf exampleMediaOutput)) :=
  ⟨by decide, by decide,
   C3_references_through_proxy sampleURL exampleMediaUrl exampleMediaBody
    exampleMediaOutput (by decide)⟩

/-- C3 fails as stated: the tag line `#EXT-X-PART:DURATION=1.0,URI="part1.mp4"` is
passed through unchanged, so the output has a tag line whose quoted URI attribute
value, `part1.mp4`, does not start with `/proxy/`. -/
theorem C3_counterexample :
    processMediaPlaylist sampleURL exampleMediaUrl partTagBody
      = Res.ok ("#EXTM3U\n".toList ++ partTagLine ++
          "\n#EXTINF:4,\n/proxy/https%3A%2F%2Fhost%2Fv%2Fseg1.ts".toList) ∧
    partTagLine ∈ linesOf ("#EXTM3U\n".toList ++ partTagLine ++
          "\n#EXTINF:4,\n/proxy/https%3A%2F%2Fhost%2Fv%2Fseg1.ts".toList) ∧
    partTagLine = "#EXT-X-PART:DURATION=1.0,".toList ++ uriAttrOpen ++ "part1.mp4".toList ++ ['"'] ∧
    startsWith "part1.mp4".toList proxyPrefix = false := by
  decide

/-- C4: for a master playlist whose lines are some lines without declaration followed by
declaration blocks, each an `#EXT-X-STREAM-INF` line followed by its URI line before
the next declaration, with a base URL that parses, `processMasterPlaylist` selects a
declaration whose extracted bandwidth is maximal over all declarations and whose later
declarations all have a strictly smaller one (the last of the maximal ones): the
bandwidth scan ends with that bandwidth and with the URI line of that declaration
resolved against the base URL of the master, and that URL is the selected variant.  The
extracted bandwidth of a declaration whose first `BANDWIDTH=` is followed by digits is
the Number that `parseInt` gives for these digits: the number they write when that is
below `2 ^ 53`, and from there on the double nearest to it, the one with the even
mantissa when two are equally near, or `Infinity` (`2 ^ 1024` in the model) when that
is no finite double. -/
theorem C4_selects_last_highest_bandwidth (U : URLApi) (url content : Str)
    (pre : List Str) (blocks : List VariantBlock)
    (hlines : linesOf content = pre ++ blocks.flatMap VariantBlock.lines)
    (hpre : ∀ l ∈ pre, startsWith l streamInfMarker = false)
    (hwf : ∀ b ∈ blocks, b.WellFormed)
    (hne : blocks ≠ [])
    (hbase : (U.parse (getBaseUrl U url) none).isSome = true)
    (hU : ∀ input base rec, U.parse input base = some rec → rec.href ≠ []) :
    (∃ before b after r, blocks = before ++ b :: after ∧
      (∀ x ∈ before, currentBandwidth x.decl ≤ currentBandwidth b.decl) ∧
      (∀ x ∈ after, currentBandwidth x.decl < currentBandwidth b.decl) ∧
      resolveUrl U (getBaseUrl U url) (trim b.uri) = Res.ok r ∧
      scanVariants U (getBaseUrl U url) (linesOf content) 0 (-1, [])
        = Res.ok (currentBandwidth b.decl, r) ∧
      selectVariantUrl U (getBaseUrl U url) (linesOf content) = Res.ok r) ∧
    (∀ b ∈ blocks, ∀ P d S, b.decl = P ++ bandwidthKey ++ d ++ S →
      ¬ bandwidthKey <:+: P → d ≠ [] → (∀ c ∈ d, isDigit c = true) →
      (∀ c, S.head? = some c → isDigit c = false) →
      currentBandwidth b.decl = (parseInt d : Int) ∧
      (decimalValue d < 2 ^ 53 → currentBandwidth b.decl = (decimalValue d : Int)) ∧
      (2 ^ 53 ≤ decimalValue d → ∃ m e,
        2 ^ 52 * 2 ^ e ≤ decimalValue d ∧ decimalValue d < 2 ^ 53 * 2 ^ e ∧
        2 ^ 52 ≤ m ∧ m ≤ 2 ^ 53 ∧
        parseInt d = (if 2 ^ 1024 ≤ m * 2 ^ e then 2 ^ 1024 else m * 2 ^ e) ∧
        2 * (m * 2 ^ e - decimalValue d) ≤ 2 ^ e ∧
        2 * (decimalValue d - m * 2 ^ e) ≤ 2 ^ e ∧
        ((2 * (m * 2 ^ e - decimalValue d) = 2 ^ e ∨
          2 * (decimalValue d - m * 2 ^ e) = 2 ^ e) → m % 2 = 0))) := by
  constructor
  · obtain ⟨st2, hst2, hcase⟩ :=
      scanVariants_blocks U (getBaseUrl U url) (resolveUrl_ok_of_base U _ hbase) blocks hwf
        (-1, [])
    have hscan : scanVariants U (getBaseUrl U url) (linesOf content) 0 (-1, [])
        = Res.ok st2 := by
      rw [hlines, scanVariants_no_decl U _ _ _ _ hpre, hst2]
    rcases hcase with ⟨-, hall⟩ | ⟨before, b, after, r, hsplit, -, hbef, haft, hr, he⟩
    · exfalso
      obtain ⟨b, hb⟩ := List.exists_mem_of_ne_nil blocks hne
      have h1 := hall b hb
      have h2 := parseInt_nonneg b.decl
      simp only at h1
      omega
    · subst he
      have hrne : r ≠ [] := by
        refine resolveUrl_ne_nil U _ _ r hU ?_ hr
        have := (hwf b (by simp [hsplit])).2.2.1.1
        intro hnil
        simp [hnil] at this
      refine ⟨before, b, after, r, hsplit, hbef, haft, hr, hscan, ?_⟩
      have hre : r.isEmpty = false := by simpa using hrne
      simp only [selectVariantUrl, hscan, Res.bind_ok, hre, Bool.false_eq_true, if_false]
  · intro b _ P d S he hP hd hdig hS
    have hcb : currentBandwidth b.decl = (parseInt d : Int) := by
      rw [he]
      exact currentBandwidth_of_no_earlier P d S hP hd hdig hS
    refine ⟨hcb, fun hlt => ?_, fun hge => ?_⟩
    · rw [hcb, parseInt_of_lt d hlt]
    · obtain ⟨m, e, -, hb1, hb2, h1, h2, h3, h4, h5, h6⟩ := parseInt_nearest d hdig hge
      exact ⟨m, e, hb1, hb2, h1, h2, h3, h4, h5, h6⟩

/-- With 1200000 declared before 800000 the first declaration is selected; with 800000
before 1200000 the second; of two declarations of 800000 the later one; and of
9007199254740993 before 9007199254740992, which are the same double, the later one. -/
theorem C4_selects_last_highest_bandwidth_witness :
    ((∃ before b after r, winnerFirstBlocks = before ++ b :: after ∧
      (∀ x ∈ before, currentBandwidth x.decl ≤ currentBandwidth b.decl) ∧
      (∀ x ∈ after, currentBandwidth x.decl < currentBandwidth b.decl) ∧
      resolveUrl sampleURL (getBaseUrl sampleURL exampleMasterUrl) (trim b.uri) = Res.ok r ∧
      scanVariants sampleURL (getBaseUrl sampleURL exampleMasterUrl)
          (linesOf winnerFirstMasterBody) 0 (-1, []) = Res.ok (currentBandwidth b.decl, r) ∧
      selectVariantUrl sampleURL (getBaseUrl sampleURL exampleMasterUrl)
          (linesOf winnerFirstMasterBody) = Res.ok r) ∧
    (∀ b ∈ winnerFirstBlocks, ∀ P d S, b.decl = P ++ bandwidthKey ++ d ++ S →
      ¬ bandwidthKey <:+: P → d ≠ [] → (∀ c ∈ d, isDigit c = true) →
      (∀ c, S.head? = some c → isDigit c = false) →
      currentBandwidth b.decl = (parseInt d : Int) ∧
      (decimalValue d < 2 ^ 53 → currentBandwidth b.decl = (decimalValue d : Int)) ∧
      (2 ^ 53 ≤ decimalValue d → ∃ m e,
        2 ^ 52 * 2 ^ e ≤ decimalValue d ∧ decimalValue d < 2 ^ 53 * 2 ^ e ∧
        2 ^ 52 ≤ m ∧ m ≤ 2 ^ 53 ∧
        parseInt d = (if 2 ^ 1024 ≤ m * 2 ^ e then 2 ^ 1024 else m * 2 ^ e) ∧
        2 * (m * 2 ^ e - decimalValue d) ≤ 2 ^ e ∧
        2 * (decimalValue d - m * 2 ^ e) ≤ 2 ^ e ∧
        ((2 * (m * 2 ^ e - decimalValue d) = 2 ^ e ∨
          2 * (decimalValue d - m * 2 ^ e) = 2 ^ e) → m % 2 = 0)))) ∧
    scanVariants sampleURL (getBaseUrl sampleURL exampleMasterUrl)
        (linesOf winnerFirstMasterBody) 0 (-1, [])
      = Res.ok (1200000, "https://host/high.m3u8".toList) ∧
    selectVariantUrl sampleURL (getBaseUrl sampleURL exampleMasterUrl)
        (linesOf winnerFirstMasterBody) = Res.ok "https://host/high.m3u8".toList ∧
    selectVariantUrl sampleURL (getBaseUrl sampleURL exampleMasterUrl)
        (linesOf exampleMasterBody) = Res.ok "https://host/high.m3u8".toList ∧
    selectVariantUrl sampleURL (getBaseUrl sampleURL exampleMasterUrl)
        (linesOf tieMasterBody) = Res.ok "https://host/high.m3u8".toList ∧
    scanVariants sampleURL (getBaseUrl sampleURL exampleMasterUrl)
        (linesOf roundedMasterBody) 0 (-1, [])
      = Res.ok (9007199254740992, "https://host/low.m3u8".toList) ∧
    currentBandwidth "#EXT-X-STREAM-INF:BANDWIDTH=1200000".toList
      = (decimalValue "1200000".toList : Int) :=
  ⟨C4_selects_last_highest_bandwidth sampleURL exampleMasterUrl winnerFirstMasterBody
      exampleMasterPre winnerFirstBlocks (by decide) (by decide)
      winnerFirstBlocks_wellFormed (by simp [winnerFirstBlocks]) (by decide)
      sampleURL_href_ne_nil,
   by decide, by decide, by decide, by decide, by decide,
   ((C4_selects_last_highest_bandwidth sampleURL exampleMasterUrl winnerFirstMasterBody
      exampleMasterPre winnerFirstBlocks (by decide) (by decide)
      winnerFirstBlocks_wellFormed (by simp [winnerFirstBlocks]) (by decide)
      sampleURL_href_ne_nil).2 _ (List.mem_cons_self _ _) "#EXT-X-STREAM-INF:".toList
      "1200000".toList [] rfl ((includes_eq_false_iff _ _).1 (by decide)) (by decide)
      (by decide) (fun _ hc => by simp at hc)).2.1 (by decide)⟩

/-- C5 (amended): for a master playlist at URL `m` (a body with a stream-variant or
media-group marker) whose selected variant is `v`, with no hit for `v` in the processed
tier and a fetch of `v` that succeeds with a media playlist `c`,
`processM3u8Content(m, master, 0)` settles with exactly the outcome of
`processMediaPlaylist(v, c)`; the references of that playlist are resolved against
`getBaseUrl(v)`, the base of the variant, and each of its segment lines is `/proxy/`
followed by the percent-encoding of `resolveUrl(getBaseUrl(v), l)` for a trimmed line
`l` of `c`: `l` itself when `l` begins with `http://` or `https://`, whether or not it
is a URL, and otherwise the `href` of `new URL(l, getBaseUrl(v))` when that parses. -/
theorem C5_master_resolves_to_variant_media (U : URLApi) (ctx : Context)
    (m master v c : Str) (status : Nat) (statusText : Str) (headers : List (Str × Str))
    (hmaster : (includes master "#EXT-X-STREAM-INF".toList ||
      includes master "#EXT-X-MEDIA:".toList) = true)
    (hsel : selectVariantUrl U (getBaseUrl U m) (linesOf master) = Res.ok v)
    (hv : v ≠ [])
    (hcache : (kvLookup ctx (processedCacheKey v)).1 = Res.ok none)
    (hparse : (U.parse v none).isSome = true)
    (hfetch : ctx.fetch v = FetchOutcome.response status statusText c headers)
    (hok : 200 ≤ status ∧ status ≤ 299)
    (hm3u8 : isM3u8Content c ((headersGet headers "Content-Type".toList).getD []) = true)
    (hmedia : (includes c "#EXT-X-STREAM-INF".toList ||
      includes c "#EXT-X-MEDIA:".toList) = false) :
    (∀ fuel, 3 ≤ fuel →
      (processM3u8Content U ctx fuel m master 0).map Prod.fst
        = some ((processMediaPlaylist U v c).map Value.text)) ∧
    (∀ out, processMediaPlaylist U v c = Res.ok out →
      ∀ o ∈ linesOf out, o ≠ [] → startsWith o "#".toList = false →
        ∃ l ∈ linesOf c, ∃ r,
          resolveUrl U (getBaseUrl U v) (trim l) = Res.ok r ∧
          o = proxyPrefix ++ encodeURIComponent r ∧
          (matchesHttpScheme (trim l) = true → r = trim l) ∧
          (matchesHttpScheme (trim l) = false →
            ∀ u, U.parse (trim l) (some (getBaseUrl U v)) = some u → r = u.href)) := by
  constructor
  · intro fuel hf
    obtain ⟨evCache, hc⟩ : ∃ evCache, kvLookup ctx (processedCacheKey v) = (Res.ok none, evCache) :=
      ⟨(kvLookup ctx (processedCacheKey v)).2, by rw [← hcache]⟩
    have h3 : processM3u8Content U ctx 3 m master 0
        = some (masterFinish ctx v (evCache ++ [Event.fetch v])
            ((processMediaPlaylist U v c).map Value.text, [])) := by
      rw [processM3u8Content_succ, if_pos hmaster, processMasterPlaylist_succ,
        masterStep_recurse U ctx m master v 0 status statusText c headers evCache
          (by decide) hsel hv hc hparse hfetch hok hm3u8]
      simp only [processM3u8Content_succ, hmedia, Bool.false_eq_true, if_false,
        Option.map_some']
    rw [processM3u8Content_fuel_le U ctx _ _ _ _ 3 fuel hf h3]
    cases processMediaPlaylist U v c <;> rfl
  · intro out hout o ho hne hh
    obtain ⟨l, hl, r, -, hr, he, hhttp⟩ :=
      segment_lines_of_processMediaPlaylist U v c out hout o ho hne hh
    refine ⟨l, hl, r, hr, he, hhttp, ?_⟩
    intro hm u hu
    rw [resolveUrl_of_parse U _ _ u hm hu] at hr
    simp only [Res.ok.injEq] at hr
    exact hr.symm

/-- The master with the variants `low.m3u8` (500000) and `v/list.m3u8` (1500000)
resolves to the rewritten media playlist of `https://host/v/list.m3u8`, whose segment
is resolved against `https://host/v/`, not against the base `https://host/` of the
master. -/
theorem C5_master_resolves_to_variant_media_witness :
    selectVariantUrl sampleURL (getBaseUrl sampleURL exampleMasterUrl) (linesOf nestedMasterBody)
      = Res.ok "https://host/v/list.m3u8".toList ∧
    (processM3u8Content sampleURL exampleContext 3 exampleMasterUrl nestedMasterBody 0).map
        Prod.fst
      = some ((processMediaPlaylist sampleURL "https://host/v/list.m3u8".toList
          exampleVariantBody).map Value.text) ∧
    processMediaPlaylist sampleURL "https://host/v/list.m3u8".toList exampleVariantBody
      = Res.ok "#EXTM3U\n#EXTINF:4,\n/proxy/https%3A%2F%2Fhost%2Fv%2Fseg1.ts\n".toList ∧
    (∀ o ∈ linesOf "#EXTM3U\n#EXTINF:4,\n/proxy/https%3A%2F%2Fhost%2Fv%2Fseg1.ts\n".toList,
      o ≠ [] → startsWith o "#".toList = false →
        ∃ l ∈ linesOf exampleVariantBody, ∃ r,
          resolveUrl sampleURL (getBaseUrl sampleURL "https://host/v/list.m3u8".toList) (trim l)
            = Res.ok r ∧
          o = proxyPrefix ++ encodeURIComponent r ∧
          (matchesHttpScheme (trim l) = true → r = trim l) ∧
          (matchesHttpScheme (trim l) = false →
            ∀ u, sampleURL.parse (trim l)
                (some (getBaseUrl sampleURL "https://host/v/list.m3u8".toList)) = some u →
              r = u.href)) :=
  ⟨by decide,
   (C5_master_resolves_to_variant_media sampleURL exampleContext exampleMasterUrl
      nestedMasterBody "https://host/v/list.m3u8".toList exampleVariantBody 200 "OK".toList
      [("content-type".toList, "application/vnd.apple.mpegurl".toList)]
      (by decide) (by decide) (by decide) (by decide) (by decide) rfl (by decide) (by decide)
      (by decide)).1 3 (by decide),
   by decide,
   (C5_master_resolves_to_variant_media sampleURL exampleContext exampleMasterUrl
      nestedMasterBody "https://host/v/list.m3u8".toList exampleVariantBody 200 "OK".toList
      [("content-type".toList, "application/vnd.apple.mpegurl".toList)]
      (by decide) (by decide) (by decide) (by decide) (by decide) rfl (by decide) (by decide)
      (by decide)).2 _ (by decide)⟩

/-- C5 fails as stated: the master of the scenario selects `https://host/high.m3u8`,
whose fetch answers a media playlist with the segment line `http://`.  The line begins
with `http://`, so `resolveUrl` returns it as it is, and the segment line of the result
is `/proxy/http%3A%2F%2F`: the encoding of `http://`, which is no absolute URL
(`new URL('http://')` throws). -/
theorem C5_counterexample :
    selectVariantUrl sampleURL (getBaseUrl sampleURL exampleMasterUrl) (linesOf scenarioMasterBody)
      = Res.ok "https://host/high.m3u8".toList ∧
    (processM3u8Content sampleURL brokenSegmentContext 3 exampleMasterUrl scenarioMasterBody 0).map
        Prod.fst
      = some (Res.ok (Value.text "#EXTM3U\n#EXTINF:4,\n/proxy/http%3A%2F%2F".toList)) ∧
    processMediaPlaylist sampleURL "https://host/high.m3u8".toList brokenSegmentBody
      = Res.ok "#EXTM3U\n#EXTINF:4,\n/proxy/http%3A%2F%2F".toList ∧
    "/proxy/http%3A%2F%2F".toList
      ∈ linesOf "#EXTM3U\n#EXTINF:4,\n/proxy/http%3A%2F%2F".toList ∧
    getTargetUrlFromPath "/proxy/http%3A%2F%2F".toList = some "http://".toList ∧
    resolveUrl sampleURL (getBaseUrl sampleURL "https://host/high.m3u8".toList) "http://".toList
      = Res.ok "http://".toList ∧
    sampleURL.parse "http://".toList none = none := by
  decide

/-- C6 (amended): with no KV binding, resolving from depth 0 a master playlist at URL
`m` whose selected variant `v` is fetched as that same playlist, which at `v` selects
`v` again (for `v = m`: a master playlist whose variant points to itself), throws the
recursion-limit error after exactly `MAX_RECURSION + 1 = 6` fetches of the variant: the
activations at depths 0 to 5 each fetch, the one at depth 6 throws. -/
theorem C6_cycle_hits_recursion_limit (U : URLApi) (ctx : Context) (m v master : Str)
    (status : Nat) (statusText : Str) (headers : List (Str × Str))
    (hkv : ctx.env.LIBRETV_PROXY_KV = none)
    (hmaster : (includes master "#EXT-X-STREAM-INF".toList ||
      includes master "#EXT-X-MEDIA:".toList) = true)
    (hsel : selectVariantUrl U (getBaseUrl U m) (linesOf master) = Res.ok v)
    (hcycle : selectVariantUrl U (getBaseUrl U v) (linesOf master) = Res.ok v)
    (hv : v ≠ [])
    (hparse : (U.parse v none).isSome = true)
    (hfetch : ctx.fetch v = FetchOutcome.response status statusText master headers)
    (hok : 200 ≤ status ∧ status ≤ 299)
    (hm3u8 : isM3u8Content master ((headersGet headers "Content-Type".toList).getD []) = true) :
    ∀ fuel, 14 ≤ fuel →
      processM3u8Content U ctx fuel m master 0
        = some (Res.throw (JSError.Error (recursionLimitMessage v)),
            List.replicate (FUNCTION_CONFIG.MAX_RECURSION + 1) (Event.fetch v)) := by
  intro fuel hf
  have h := cycle_from_depth U ctx v master status statusText headers hkv hmaster hcycle hv
    hparse hfetch hok hm3u8 FUNCTION_CONFIG.MAX_RECURSION (Nat.le_succ _)
  have e : FUNCTION_CONFIG.MAX_RECURSION + 1 - FUNCTION_CONFIG.MAX_RECURSION = 0 + 1 := by
    decide
  rw [e] at h
  have h14 : processM3u8Content U ctx ((2 * FUNCTION_CONFIG.MAX_RECURSION + 2 + 1) + 1) m master 0
      = some (Res.throw (JSError.Error (recursionLimitMessage v)),
          List.replicate (FUNCTION_CONFIG.MAX_RECURSION + 1) (Event.fetch v)) := by
    rw [processM3u8Content_succ, if_pos hmaster, processMasterPlaylist_succ,
      masterStep_recurse U ctx m master v 0 status statusText master headers []
        (Nat.zero_le _) hsel hv (kvLookup_of_no_binding ctx _ hkv) hparse hfetch hok hm3u8]
    simp only [h, Option.map_some', masterFinish, List.nil_append, List.singleton_append,
      List.replicate_succ]
  exact processM3u8Content_fuel_le U ctx _ _ _ _ 14 fuel hf h14

/-- The cyclic master playlist of the examples: six fetches, then the error. -/
theorem C6_cycle_hits_recursion_limit_witness :
    processM3u8Content sampleURL cyclicContext 20 exampleMasterUrl cyclicMasterBody 0
      = some (Res.throw (JSError.Error (recursionLimitMessage exampleMasterUrl)),
          List.replicate (FUNCTION_CONFIG.MAX_RECURSION + 1) (Event.fetch exampleMasterUrl)) :=
  C6_cycle_hits_recursion_limit sampleURL cyclicContext exampleMasterUrl exampleMasterUrl
    cyclicMasterBody 200 "OK".toList [] rfl (by decide) (by decide) (by decide) (by decide)
    (by decide) rfl (by decide) (by decide) 20 (by decide)

/-- C6 fails as stated: on the cyclic master playlist the resolution from depth 0
performs six fetches before the recursion-limit error, not `MAX_RECURSION = 5`. -/
theorem C6_counterexample :
    selectVariantUrl sampleURL (getBaseUrl sampleURL exampleMasterUrl)
        (linesOf cyclicMasterBody) = Res.ok exampleMasterUrl ∧
    cyclicContext.fetch exampleMasterUrl
      = FetchOutcome.response 200 "OK".toList cyclicMasterBody [] ∧
    processM3u8Content sampleURL cyclicContext 14 exampleMasterUrl cyclicMasterBody 0
      = some (Res.throw (JSError.Error (recursionLimitMessage exampleMasterUrl)),
          [Event.fetch exampleMasterUrl, Event.fetch exampleMasterUrl,
           Event.fetch exampleMasterUrl, Event.fetch exampleMasterUrl,
           Event.fetch exampleMasterUrl, Event.fetch exampleMasterUrl]) ∧
    FUNCTION_CONFIG.MAX_RECURSION = 5 := by
  decide

/-- C7: for every URL parser, every context (request, KV binding and total `fetch`
oracle), every target URL and every playlist body, `processM3u8Content` started at
depth 0 settles: there is one outcome, a value or a thrown error together with the
effects performed, that every run with fuel at least 14 produces. -/
theorem C7_resolution_terminates (U : URLApi) (ctx : Context) (targetUrl content : Str) :
    ∃ r : Res Value × List Event,
      ∀ fuel, 14 ≤ fuel → processM3u8Content U ctx fuel targetUrl content 0 = some r := by
  have h := processM3u8Content_isSome U ctx 6 0 targetUrl content (by decide)
  obtain ⟨r, hr⟩ := Option.isSome_iff_exists.1 h
  exact ⟨r, fun fuel hf => processM3u8Content_fuel_le U ctx _ _ _ r 14 fuel hf hr⟩

/-- C8 (amended): the text `processMediaPlaylist(url, body)` returns is the newline-join
of the images of the retained input lines (trimmed lines that are not blank and are not
the discontinuity marker), in order, followed by one empty line exactly when the last
input line is blank; it throws exactly when an image does.  When this list of lines is
not empty, the lines of the output are these lines, their number is the number of input
lines minus the number of dropped lines, and none of them but possibly the last is
blank.  The list is empty exactly when no input line is retained and the last input
line is not blank; the output is then the empty text, which is one blank line. -/
theorem C8_media_rewriter_line_structure (U : URLApi) (url body : Str) :
    processMediaPlaylist U url body
        = (expectedMediaLines U (getBaseUrl U url) (linesOf body)).map (join '\n') ∧
    ∀ out, expectedMediaLines U (getBaseUrl U url) (linesOf body) = Res.ok out →
      (out ≠ [] → linesOf (join '\n' out) = out) ∧
      out.length = (linesOf body).length - filteredCount (linesOf body) ∧
      (∀ l ∈ out.dropLast, l ≠ []) ∧
      (out = [] ↔ (∀ l ∈ linesOf body, retained (trim l) = false) ∧
        trailingBlank (linesOf body) = []) ∧
      (out = [] → join '\n' out = [] ∧ linesOf (join '\n' out) = [[]]) := by
  refine ⟨processMediaPlaylist_eq_expected U url body, ?_⟩
  intro out ho
  obtain ⟨ms, hms, rfl⟩ := expectedMediaLines_eq_ok _ _ _ _ ho
  have hlen := (Res.mapList_eq_ok _ _ _ hms).1
  have hpart := length_filter_add_length_filter_not retained
    (fun l => l.isEmpty || l == discontinuityMarker)
    (by intro x; cases hx : x.isEmpty <;> cases hm : x == discontinuityMarker <;>
      simp [retained, hx, hm, bne])
    ((linesOf body).map trim)
  have htb := trailingBlank_length_le (linesOf body)
  have hnonblank : ∀ x ∈ ms, x ≠ [] := by
    intro x hx
    obtain ⟨l, -, hr, ht⟩ := mem_images U _ _ ms hms x hx
    refine transformLine_ne_nil U _ _ _ ?_ ht
    intro he
    simp [retained, he] at hr
  refine ⟨?_, ?_, ?_, ?_, ?_⟩
  · intro hne
    exact split_join '\n' _ hne (images_no_newline U _ body ms hms)
  · simp only [filteredCount, List.length_append, List.length_map] at hpart htb ⊢
    omega
  · intro l hl
    have hsub : l ∈ ms := by
      by_cases htr : trailingBlank (linesOf body) = []
      · rw [htr, List.append_nil] at hl
        exact (List.dropLast_sublist ms).subset hl
      · have : trailingBlank (linesOf body) = [[]] := by
          unfold trailingBlank at htr ⊢
          split at htr
          · split_ifs at htr ⊢
            · rfl
            · exact absurd rfl htr
          · exact absurd rfl htr
        rw [this, List.dropLast_concat] at hl
        exact hl
    exact hnonblank l hsub
  · rw [List.append_eq_nil]
    have hms0 : ms = [] ↔ ∀ l ∈ linesOf body, retained (trim l) = false := by
      rw [← List.length_eq_zero, hlen, List.length_eq_zero, List.filter_eq_nil_iff]
      constructor
      · intro h l hl
        have := h (trim l) (List.mem_map_of_mem _ hl)
        simpa using this
      · intro h x hx
        obtain ⟨l, hl, rfl⟩ := List.mem_map.1 hx
        simp [h l hl]
    rw [hms0]
  · intro he
    rw [he]
    exact ⟨rfl, rfl⟩

/-- The example playlist: seven input lines, two of them dropped, five output lines. -/
theorem C8_media_rewriter_line_structure_witness :
    expectedMediaLines sampleURL (getBaseUrl sampleURL exampleMediaUrl)
        (linesOf exampleMediaBody) = Res.ok (linesOf exampleMediaOutput) ∧
    processMediaPlaylist sampleURL exampleMediaUrl exampleMediaBody
      = Res.ok (join '\n' (linesOf exampleMediaOutput)) ∧
    (linesOf exampleMediaOutput).length
      = (linesOf exampleMediaBody).length - filteredCount (linesOf exampleMediaBody) ∧
    (linesOf exampleMediaBody).length = 7 ∧ (linesOf exampleMediaOutput).length = 5 ∧
    linesOf (join '\n' (linesOf exampleMediaOutput)) = linesOf exampleMediaOutput :=
  ⟨by decide,
   (C8_media_rewriter_line_structure sampleURL exampleMediaUrl exampleMediaBody).1.trans
     (by decide),
   ((C8_media_rewriter_line_structure sampleURL exampleMediaUrl exampleMediaBody).2
     (linesOf exampleMediaOutput) (by decide)).2.1,
   by decide, by decide,
   ((C8_media_rewriter_line_structure sampleURL exampleMediaUrl exampleMediaBody).2
     (linesOf exampleMediaOutput) (by decide)).1 (by decide)⟩

/-- C8 fails as stated: the body `#EXT-X-DISCONTINUITY` is one line, which is filtered,
and its last line is not blank, so the claim gives the output no line at all and the
line count 1 - 1 = 0.  The rewriter returns the empty text, whose lines
(`''.split('\n')`) are one blank line. -/
theorem C8_counterexample :
    linesOf onlyDiscontinuityBody = [discontinuityMarker] ∧
    retained (trim discontinuityMarker) = false ∧
    trailingBlank (linesOf onlyDiscontinuityBody) = [] ∧
    expectedMediaLines sampleURL (getBaseUrl sampleURL exampleMediaUrl)
        (linesOf onlyDiscontinuityBody) = Res.ok [] ∧
    (linesOf onlyDiscontinuityBody).length - filteredCount (linesOf onlyDiscontinuityBody) = 0 ∧
    processMediaPlaylist sampleURL exampleMediaUrl onlyDiscontinuityBody = Res.ok [] ∧
    linesOf ([] : Str) = [[]] ∧
    (linesOf ([] : Str)).length = 1 := by
  decide

/-- C9: with the discontinuity filter of `FUNCTION_CONFIG` (enabled), for every url and
body no line of the text `processMediaPlaylist(url, body)` returns is
`#EXT-X-DISCONTINUITY`; and the function does return whenever the base URL of the
playlist parses. -/
theorem C9_no_discontinuity_line (U : URLApi) (url body : Str) :
    FUNCTION_CONFIG.FILTER_DISCONTINUITY = true ∧
    (∀ out, processMediaPlaylist U url body = Res.ok out →
      discontinuityMarker ∉ linesOf out) ∧
    ((U.parse (getBaseUrl U url) none).isSome = true →
      ∃ out, processMediaPlaylist U url body = Res.ok out) := by
  refine ⟨rfl, ?_, processMediaPlaylist_returns U url body⟩
  intro out h hm
  rcases linesOf_processMediaPlaylist U url body out h _ hm with he | ⟨l, -, hr, ht⟩
  · revert he; decide
  · exact transformLine_ne_marker U _ _ _ hr ht rfl

/-- The example playlist holds a discontinuity marker and its output does not. -/
theorem C9_no_discontinuity_line_witness :
    discontinuityMarker ∈ (linesOf exampleMediaBody) ∧
    processMediaPlaylist sampleURL exampleMediaUrl exampleMediaBody = Res.ok exampleMediaOutput ∧
    discontinuityMarker ∉ linesOf exampleMediaOutput :=
  ⟨by decide, by decide,
   (C9_no_discontinuity_line sampleURL exampleMediaUrl exampleMediaBody).2.1 exampleMediaOutput
     (by decide)⟩

/-- C10 (amended): on a trimmed line `P ++ URI="u" ++ S` that starts with `#EXT-X-KEY`
or `#EXT-X-MAP`, with `u` non-empty and without double quote and with no `URI="` in
`P`, the rewriter pushes `P ++ URI="p" ++ S` where `p` is
`rewriteUrlToProxy(resolveUrl(base, u))`, and throws what `resolveUrl` throws. -/
theorem C10_key_map_uri_rewritten (U : URLApi) (baseUrl P u S : Str)
    (hline : startsWith (P ++ uriAttrOpen ++ u ++ '"' :: S) "#EXT-X-KEY".toList = true ∨
      startsWith (P ++ uriAttrOpen ++ u ++ '"' :: S) "#EXT-X-MAP".toList = true)
    (hu : u ≠ []) (hq : '"' ∉ u) (hP : ¬ uriAttrOpen <:+: P) :
    processMediaLine U baseUrl (P ++ uriAttrOpen ++ u ++ '"' :: S)
      = (resolveUrl U baseUrl u).map
          (fun r => some (P ++ uriAttrOpen ++ rewriteUrlToProxy r ++ '"' :: S)) := by
  have hf := findUriAttr_of_no_earlier P u S hP hu hq
  have hne : decide (P ++ uriAttrOpen ++ u ++ '"' :: S = discontinuityMarker) = false := by
    rw [decide_eq_false_iff_not]
    intro he
    have hm : '"' ∈ discontinuityMarker := by rw [← he]; simp
    revert hm
    decide
  unfold processMediaLine processKeyLine processMapLine replaceUriAttr
  rw [hne, hf]
  simp only [Bool.and_false, Bool.false_eq_true, if_false]
  rcases hline with hk | hk
  · rw [if_pos hk]
    cases resolveUrl U baseUrl u <;> simp
  · rw [if_pos hk]
    split_ifs <;> cases resolveUrl U baseUrl u <;> simp

/-- The key declaration of the example playlist. -/
theorem C10_key_map_uri_rewritten_witness :
    processMediaLine sampleURL "https://host/v/".toList
        ("#EXT-X-KEY:METHOD=AES-128,".toList ++ uriAttrOpen ++ "key.bin".toList ++
          '"' :: ",IV=0x01".toList)
      = (resolveUrl sampleURL "https://host/v/".toList "key.bin".toList).map
          (fun r => some ("#EXT-X-KEY:METHOD=AES-128,".toList ++ uriAttrOpen ++
            rewriteUrlToProxy r ++ '"' :: ",IV=0x01".toList)) :=
  C10_key_map_uri_rewritten sampleURL "https://host/v/".toList
    "#EXT-X-KEY:METHOD=AES-128,".toList "key.bin".toList ",IV=0x01".toList
    (Or.inl (by decide)) (by decide) (by decide) (by decide)

/-- C10 fails as stated: on `#EXT-X-KEY:METHOD=AES-128,URI="a.key",URI="key.bin"`, read
as `P ++ URI="key.bin"` with `P` the text up to the second attribute, the rewriter
replaces the first attribute and leaves `URI="key.bin"` as it is. -/
theorem C10_counterexample :
    startsWith (twoUriPrefix ++ uriAttrOpen ++ "key.bin".toList ++ ['"']) "#EXT-X-KEY".toList
      = true ∧
    "key.bin".toList ≠ [] ∧ '"' ∉ "key.bin".toList ∧
    processMediaLine sampleURL "https://host/v/".toList
        (twoUriPrefix ++ uriAttrOpen ++ "key.bin".toList ++ ['"'])
      = Res.ok (some ("#EXT-X-KEY:METHOD=AES-128,".toList ++ uriAttrOpen ++
          "/proxy/https%3A%2F%2Fhost%2Fv%2Fa.key".toList ++ '"' :: ",".toList ++
          uriAttrOpen ++ "key.bin".toList ++ ['"'])) ∧
    processMediaLine sampleURL "https://host/v/".toList
        (twoUriPrefix ++ uriAttrOpen ++ "key.bin".toList ++ ['"'])
      ≠ (resolveUrl sampleURL "https://host/v/".toList "key.bin".toList).map
          (fun r => some (twoUriPrefix ++ uriAttrOpen ++ rewriteUrlToProxy r ++ ['"'])) := by
  decide

/-- C11 (amended): every input line of `processMediaPlaylist(url, body)` that, with the
white space at its two ends removed, starts with `#`, is not `#EXT-X-DISCONTINUITY` and
starts with neither `#EXT-X-KEY` nor `#EXT-X-MAP` (so `#EXTINF`, `#EXTM3U`,
`#EXT-X-VERSION` and the other marker lines) is pushed in that trimmed form, and the
trimmed form is a line of the output; a line without white space at its ends is in the
output character for character. -/
theorem C11_marker_lines_pass_trimmed (U : URLApi) (url body out : Str)
    (h : processMediaPlaylist U url body = Res.ok out) :
    ∀ l ∈ linesOf body,
      startsWith (trim l) "#".toList = true →
      trim l ≠ discontinuityMarker →
      startsWith (trim l) "#EXT-X-KEY".toList = false →
      startsWith (trim l) "#EXT-X-MAP".toList = false →
      processMediaLine U (getBaseUrl U url) (trim l) = Res.ok (some (trim l)) ∧
      trim l ∈ linesOf out ∧
      (trim l = l → l ∈ linesOf out) := by
  intro l hl hh hd hk hm
  have hne : trim l ≠ [] := by
    intro he
    rw [he] at hh
    revert hh
    decide
  have hr : retained (trim l) = true := by
    simp [retained, hne, hd]
  have ht := transformLine_of_other_marker U (getBaseUrl U url) (trim l) hh hk hm
  have hmem := image_mem_linesOf_output U url body out l (trim l) h hl hr ht
  refine ⟨?_, hmem, fun he => he ▸ hmem⟩
  rw [processMediaLine_of_retained U _ _ hr, ht]
  rfl

/-- The `#EXTINF` line of the example playlist is in its output. -/
theorem C11_marker_lines_pass_trimmed_witness :
    "#EXTINF:4,".toList ∈ linesOf exampleMediaBody ∧
    processMediaLine sampleURL (getBaseUrl sampleURL exampleMediaUrl)
        (trim "#EXTINF:4,".toList) = Res.ok (some (trim "#EXTINF:4,".toList)) ∧
    trim "#EXTINF:4,".toList ∈ linesOf exampleMediaOutput ∧
    (trim "#EXTINF:4,".toList = "#EXTINF:4,".toList →
      "#EXTINF:4,".toList ∈ linesOf exampleMediaOutput) :=
  ⟨by decide, C11_marker_lines_pass_trimmed sampleURL exampleMediaUrl exampleMediaBody
    exampleMediaOutput (by decide) "#EXTINF:4,".toList (by decide) (by decide) (by decide)
    (by decide) (by decide)⟩

/-- C11 fails as stated: the `#EXTINF` line `#EXTINF:4, ` of `paddedMediaBody`, which
ends in a space, is no line of the output, which has `#EXTINF:4,` in its place; and in
a playlist with CRLF line ends the line `#EXTINF:4,` followed by a carriage return is
no line of the output either. -/
theorem C11_counterexample :
    "#EXTINF:4, ".toList ∈ linesOf paddedMediaBody ∧
    processMediaPlaylist sampleURL exampleMediaUrl paddedMediaBody
      = Res.ok "#EXTM3U\n#EXTINF:4,\n/proxy/https%3A%2F%2Fhost%2Fv%2Fseg1.ts".toList ∧
    "#EXTINF:4, ".toList
      ∉ linesOf "#EXTM3U\n#EXTINF:4,\n/proxy/https%3A%2F%2Fhost%2Fv%2Fseg1.ts".toList ∧
    "#EXTINF:4,\r".toList ∈ linesOf crlfMediaBody ∧
    processMediaPlaylist sampleURL exampleMediaUrl crlfMediaBody
      = Res.ok "#EXTM3U\n#EXTINF:4,\n/proxy/https%3A%2F%2Fhost%2Fv%2Fseg1.ts".toList := by
  decide

/-- C12 (amended): the bandwidth scan of `processMasterPlaylist` is the update of
`(highestBandwidth, bestVariantUrl)` by the descriptors of the declaration lines the
outer loop reaches and finds a URI line for.  For a master playlist whose lines are some
lines without declaration followed by declaration blocks, each an `#EXT-X-STREAM-INF`
line followed by its URI line before the next declaration, these are exactly one
descriptor per declaration, in order, with the trimmed first following line that is
neither blank nor starts with `#` as URI; its bandwidth is `0` when the line does not
hold the text `BANDWIDTH=`, and when that text does not occur earlier in the line it is
the Number that `parseInt` gives for the digits after `BANDWIDTH=`: the number they
write when that is below `2 ^ 53`, and from there on the double nearest to it, the one
with the even mantissa when two are equally near, or `Infinity` (`2 ^ 1024` in the
model) when that is no finite double. -/
theorem C12_descriptors_of_declarations (U : URLApi) (url content : Str)
    (pre : List Str) (blocks : List VariantBlock)
    (hlines : linesOf content = pre ++ blocks.flatMap VariantBlock.lines)
    (hpre : ∀ l ∈ pre, startsWith l streamInfMarker = false)
    (hwf : ∀ b ∈ blocks, b.WellFormed) :
    (∀ lines st, scanVariants U (getBaseUrl U url) lines 0 st
      = foldDescriptors U (getBaseUrl U url) (variantDescriptors lines 0) st) ∧
    variantDescriptors (linesOf content) 0
      = blocks.map (fun b => (currentBandwidth b.decl, trim b.uri)) ∧
    (∀ b ∈ blocks,
      (∀ rest, findVariantUriLine (b.comments ++ b.uri :: rest)
        = some (trim b.uri, b.comments.length)) ∧
      (¬ bandwidthKey <:+: b.decl → currentBandwidth b.decl = 0) ∧
      (∀ P d S, b.decl = P ++ bandwidthKey ++ d ++ S → ¬ bandwidthKey <:+: P →
        d ≠ [] → (∀ c ∈ d, isDigit c = true) →
        (∀ c, S.head? = some c → isDigit c = false) →
        currentBandwidth b.decl = (parseInt d : Int) ∧
        (decimalValue d < 2 ^ 53 → currentBandwidth b.decl = (decimalValue d : Int)) ∧
        (2 ^ 53 ≤ decimalValue d → ∃ m e,
          2 ^ 52 * 2 ^ e ≤ decimalValue d ∧ decimalValue d < 2 ^ 53 * 2 ^ e ∧
          2 ^ 52 ≤ m ∧ m ≤ 2 ^ 53 ∧
          parseInt d = (if 2 ^ 1024 ≤ m * 2 ^ e then 2 ^ 1024 else m * 2 ^ e) ∧
          2 * (m * 2 ^ e - decimalValue d) ≤ 2 ^ e ∧
          2 * (decimalValue d - m * 2 ^ e) ≤ 2 ^ e ∧
          ((2 * (m * 2 ^ e - decimalValue d) = 2 ^ e ∨
            2 * (decimalValue d - m * 2 ^ e) = 2 ^ e) → m % 2 = 0)))) := by
  refine ⟨fun lines st => scanVariants_eq_foldDescriptors U _ lines 0 st, ?_, ?_⟩
  · rw [hlines, variantDescriptors_no_decl _ _ hpre, variantDescriptors_blocks blocks hwf]
  · intro b hb
    obtain ⟨-, hc, hu, -⟩ := hwf b hb
    refine ⟨fun rest => findVariantUriLine_comments _ _ rest (fun l hl => (hc l hl).1) hu,
      currentBandwidth_of_no_key b.decl, ?_⟩
    intro P d S he hP hd hdig hS
    have hcb : currentBandwidth b.decl = (parseInt d : Int) := by
      rw [he]
      exact currentBandwidth_of_no_earlier P d S hP hd hdig hS
    refine ⟨hcb, fun hlt => ?_, fun hge => ?_⟩
    · rw [hcb, parseInt_of_lt d hlt]
    · obtain ⟨m, e, -, hb1, hb2, h1, h2, h3, h4, h5, h6⟩ := parseInt_nearest d hdig hge
      exact ⟨m, e, hb1, hb2, h1, h2, h3, h4, h5, h6⟩

/-- The two declarations of the example master give the descriptors
`(800000, low.m3u8)` and `(1200000, high.m3u8)`. -/
theorem C12_descriptors_of_declarations_witness :
    linesOf exampleMasterBody = exampleMasterPre ++ exampleMasterBlocks.flatMap VariantBlock.lines ∧
    variantDescriptors (linesOf exampleMasterBody) 0
      = [(800000, "low.m3u8".toList), (1200000, "high.m3u8".toList)] ∧
    ((∀ lines st, scanVariants sampleURL (getBaseUrl sampleURL exampleMasterUrl) lines 0 st
      = foldDescriptors sampleURL (getBaseUrl sampleURL exampleMasterUrl)
          (variantDescriptors lines 0) st) ∧
    variantDescriptors (linesOf exampleMasterBody) 0
      = exampleMasterBlocks.map (fun b => (currentBandwidth b.decl, trim b.uri)) ∧
    (∀ b ∈ exampleMasterBlocks,
      (∀ rest, findVariantUriLine (b.comments ++ b.uri :: rest)
        = some (trim b.uri, b.comments.length)) ∧
      (¬ bandwidthKey <:+: b.decl → currentBandwidth b.decl = 0) ∧
      (∀ P d S, b.decl = P ++ bandwidthKey ++ d ++ S → ¬ bandwidthKey <:+: P →
        d ≠ [] → (∀ c ∈ d, isDigit c = true) →
        (∀ c, S.head? = some c → isDigit c = false) →
        currentBandwidth b.decl = (parseInt d : Int) ∧
        (decimalValue d < 2 ^ 53 → currentBandwidth b.decl = (decimalValue d : Int)) ∧
        (2 ^ 53 ≤ decimalValue d → ∃ m e,
          2 ^ 52 * 2 ^ e ≤ decimalValue d ∧ decimalValue d < 2 ^ 53 * 2 ^ e ∧
          2 ^ 52 ≤ m ∧ m ≤ 2 ^ 53 ∧
          parseInt d = (if 2 ^ 1024 ≤ m * 2 ^ e then 2 ^ 1024 else m * 2 ^ e) ∧
          2 * (m * 2 ^ e - decimalValue d) ≤ 2 ^ e ∧
          2 * (decimalValue d - m * 2 ^ e) ≤ 2 ^ e ∧
          ((2 * (m * 2 ^ e - decimalValue d) = 2 ^ e ∨
            2 * (decimalValue d - m * 2 ^ e) = 2 ^ e) → m % 2 = 0))))) ∧
    currentBandwidth "#EXT-X-STREAM-INF:BANDWIDTH=800000".toList
      = (decimalValue "800000".toList : Int) :=
  ⟨by decide, by decide,
   C12_descriptors_of_declarations sampleURL exampleMasterUrl exampleMasterBody
    exampleMasterPre exampleMasterBlocks (by decide) (by decide)
    exampleMasterBlocks_wellFormed,
   (((C12_descriptors_of_declarations sampleURL exampleMasterUrl exampleMasterBody
      exampleMasterPre exampleMasterBlocks (by decide) (by decide)
      exampleMasterBlocks_wellFormed).2.2 _ (List.mem_cons_self _ _)).2.2
      "#EXT-X-STREAM-INF:".toList "800000".toList [] rfl
      ((includes_eq_false_iff _ _).1 (by decide)) (by decide) (by decide)
      (fun _ hc => by simp at hc)).2.1 (by decide)⟩

/-- C12 fails as stated: in `skippedDeclarationBody` the declaration of 800000 is
directly followed by the declaration of 1200000 and then by `high.m3u8`.  The search
for the URI line of the first declaration passes over the second one, which starts with
`#`, and the outer loop continues after `high.m3u8`: the only descriptor is
`(800000, high.m3u8)`, and the declaration of 1200000 is never considered.  And the
declaration with `BANDWIDTH=9007199254740993` of `roundedMasterBody` is considered with
the bandwidth 9007199254740992. -/
theorem C12_counterexample :
    linesOf skippedDeclarationBody
      = ["#EXTM3U".toList, "#EXT-X-STREAM-INF:BANDWIDTH=800000".toList,
         "#EXT-X-STREAM-INF:BANDWIDTH=1200000".toList, "high.m3u8".toList] ∧
    startsWith "#EXT-X-STREAM-INF:BANDWIDTH=1200000".toList streamInfMarker = true ∧
    variantDescriptors (linesOf skippedDeclarationBody) 0 = [(800000, "high.m3u8".toList)] ∧
    scanVariants sampleURL (getBaseUrl sampleURL exampleMasterUrl)
        (linesOf skippedDeclarationBody) 0 (-1, [])
      = Res.ok (800000, "https://host/high.m3u8".toList) ∧
    variantDescriptors (linesOf roundedMasterBody) 0
      = [(9007199254740992, "high.m3u8".toList), (9007199254740992, "low.m3u8".toList)] := by
  decide

/-- C13: with the master `noDotMasterBody` at `https://host/master.m3u8`, which has no
stream-variant declaration, the fallback of `processMasterPlaylist` selects the line
`clip-m3u8?.mp4`, in which no `.m3u8` occurs, and the variant fetched is
`https://host/clip-m3u8?.mp4`. -/
theorem C13_fallback_selects_line_without_extension :
    scanVariants sampleURL (getBaseUrl sampleURL exampleMasterUrl)
        (linesOf noDotMasterBody) 0 (-1, []) = Res.ok (-1, []) ∧
    "clip-m3u8?.mp4".toList ∈ linesOf noDotMasterBody ∧
    includes "clip-m3u8?.mp4".toList ".m3u8".toList = false ∧
    findSubPlaylist sampleURL (getBaseUrl sampleURL exampleMasterUrl) (linesOf noDotMasterBody)
      = Res.ok "https://host/clip-m3u8?.mp4".toList ∧
    selectVariantUrl sampleURL (getBaseUrl sampleURL exampleMasterUrl) (linesOf noDotMasterBody)
      = Res.ok "https://host/clip-m3u8?.mp4".toList ∧
    (processMasterPlaylist sampleURL exampleContext 5 exampleMasterUrl noDotMasterBody 0).map
        (fun r => r.2.head?)
      = some (some (Event.fetch "https://host/clip-m3u8?.mp4".toList)) := by
  decide

/-- C14: when the bandwidth scan leaves `bestVariantUrl` empty and the fallback loop
finds no line either, `processMasterPlaylist(url, content, depth)` with `depth` at most
`MAX_RECURSION` settles, for every amount of fuel from one on, with the outcome of
`processMediaPlaylist(url, content)` and with no fetch and no access to the cache. -/
theorem C14_nothing_selected_rewrites_as_media (U : URLApi) (ctx : Context)
    (url content : Str) (depth : Nat) (st : Int × Str)
    (hd : depth ≤ FUNCTION_CONFIG.MAX_RECURSION)
    (hscan : scanVariants U (getBaseUrl U url) (linesOf content) 0 (-1, []) = Res.ok st)
    (hbest : st.2 = [])
    (hfall : findSubPlaylist U (getBaseUrl U url) (linesOf content) = Res.ok []) :
    ∀ fuel, 1 ≤ fuel →
      processMasterPlaylist U ctx fuel url content depth
        = some ((processMediaPlaylist U url content).map Value.text, []) := by
  intro fuel hf
  obtain ⟨k, rfl⟩ : ∃ k, fuel = k + 1 := ⟨fuel - 1, by omega⟩
  refine processMasterPlaylist_of_empty_selection U ctx url content depth k hd ?_
  rw [selectVariantUrl, hscan, Res.bind_ok, hbest]
  exact hfall

/-- A master with a media-group declaration only is rewritten as a media playlist, with
no event. -/
theorem C14_nothing_selected_rewrites_as_media_witness :
    processMasterPlaylist sampleURL exampleContext 1 exampleMasterUrl audioOnlyMasterBody 0
      = some ((processMediaPlaylist sampleURL exampleMasterUrl audioOnlyMasterBody).map
          Value.text, []) ∧
    processMediaPlaylist sampleURL exampleMasterUrl audioOnlyMasterBody
      = Res.ok "#EXTM3U\n#EXT-X-MEDIA:TYPE=AUDIO\n#EXTINF:4,\n/proxy/https%3A%2F%2Fhost%2Fseg1.ts".toList :=
  ⟨C14_nothing_selected_rewrites_as_media sampleURL exampleContext exampleMasterUrl
      audioOnlyMasterBody 0 (-1, []) (by decide) (by decide) rfl (by decide) 1 (by decide),
   by decide⟩

/-- C15: a `GET` of `/proxy/https%3A%2F%2Fhost%2Fmaster.m3u8` with no KV binding, where
the master has the variants `low.m3u8` and `high.m3u8` and the fetch of
`https://host/high.m3u8` answers `VIDEO-BYTES` with content type `video/mp4`.
`processM3u8Content` resolves to the `Response` object that holds `VIDEO-BYTES` with
content type `video/mp4`, and the handler passes that object to `createM3u8Response` as
a body: the final response has the body `[object Response]` and the content type
`application/vnd.apple.mpegurl`. -/
theorem C15_non_playlist_variant_is_wrapped :
    (processM3u8Content sampleURL mediaVariantContext 20 exampleMasterUrl scenarioMasterBody 0).map
        Prod.fst
      = some (Res.ok (Value.response (createResponse mediaVariantContext.request
          (some (Value.text "VIDEO-BYTES".toList)) 200
          [("Content-Type".toList, "video/mp4".toList)]))) ∧
    (onRequest sampleURL mediaVariantContext exampleMasterPath 20).map (fun r => r.1.body)
      = some (some "[object Response]".toList) ∧
    (onRequest sampleURL mediaVariantContext exampleMasterPath 20).map
        (fun r => headersGet r.1.headers "Content-Type".toList)
      = some (some "application/vnd.apple.mpegurl".toList) ∧
    (onRequest sampleURL mediaVariantContext exampleMasterPath 20).map Prod.snd
      = some [Event.fetch "https://host/master.m3u8".toList,
              Event.fetch "https://host/high.m3u8".toList] := by
  decide

/-- C16 (amended): with `e` the path after a leading `/proxy/` is dropped,
`getTargetUrlFromPath` returns `null` when `e` is empty or `decodeURIComponent(e)`
throws; otherwise it returns the decoded text when that begins with `http://` or
`https://` (letters in either case), else `e` itself when `e` begins so, else `null`.
A path whose raw remainder begins with `http://` or `https://` gives `null` exactly
when the remainder does not decode. -/
theorem C16_target_url_cases (pathname : Str) :
    (stripProxyPrefix pathname = [] → getTargetUrlFromPath pathname = none) ∧
    (decodeURIComponent (stripProxyPrefix pathname) = none →
      getTargetUrlFromPath pathname = none) ∧
    (∀ d, stripProxyPrefix pathname ≠ [] →
      decodeURIComponent (stripProxyPrefix pathname) = some d →
      (matchesHttpScheme d = true → getTargetUrlFromPath pathname = some d) ∧
      (matchesHttpScheme d = false → matchesHttpScheme (stripProxyPrefix pathname) = true →
        getTargetUrlFromPath pathname = some (stripProxyPrefix pathname)) ∧
      (matchesHttpScheme d = false → matchesHttpScheme (stripProxyPrefix pathname) = false →
        getTargetUrlFromPath pathname = none)) ∧
    (matchesHttpScheme (stripProxyPrefix pathname) = true →
      (getTargetUrlFromPath pathname = none ↔
        decodeURIComponent (stripProxyPrefix pathname) = none)) := by
  refine ⟨?_, ?_, ?_, ?_⟩
  · intro h
    simp only [getTargetUrlFromPath, h, if_true]
  · intro h
    simp only [getTargetUrlFromPath, h]
    split_ifs <;> rfl
  · intro d hne hd
    refine ⟨?_, ?_, ?_⟩
    · intro h
      simp only [getTargetUrlFromPath, if_neg hne, hd, h, Bool.not_true, Bool.false_eq_true,
        if_false]
    · intro h h2
      simp only [getTargetUrlFromPath, if_neg hne, hd, h, h2, Bool.not_false, if_true]
    · intro h h2
      simp only [getTargetUrlFromPath, if_neg hne, hd, h, h2, Bool.not_false, if_true,
        Bool.false_eq_true, if_false]
  · intro h
    have hne : stripProxyPrefix pathname ≠ [] := by
      intro he
      rw [he] at h
      revert h
      decide
    constructor
    · intro hn
      cases hd : decodeURIComponent (stripProxyPrefix pathname) with
      | none => rfl
      | some d =>
        have := matchesHttpScheme_decode _ d h hd
        simp only [getTargetUrlFromPath, if_neg hne, hd, this, Bool.not_true,
          Bool.false_eq_true, if_false] at hn
        exact absurd hn (by simp)
    · intro hn
      simp only [getTargetUrlFromPath, if_neg hne, hn]

/-- The encoded path of the example master decodes to its URL. -/
theorem C16_target_url_cases_witness :
    getTargetUrlFromPath exampleMasterPath = some exampleMasterUrl ∧
    (getTargetUrlFromPath "/proxy/https://host/master.m3u8".toList = none ↔
      decodeURIComponent (stripProxyPrefix "/proxy/https://host/master.m3u8".toList) = none) :=
  ⟨((C16_target_url_cases exampleMasterPath).2.2.1 exampleMasterUrl (by decide)
      (by decide)).1 (by decide),
   (C16_target_url_cases "/proxy/https://host/master.m3u8".toList).2.2.2 (by decide)⟩

/-- C16 fails as stated: the raw remainder of `/proxy/http://a/%zz` begins with
`http://`, its decoding throws, and `getTargetUrlFromPath` returns `null`, not the raw
remainder. -/
theorem C16_counterexample :
    stripProxyPrefix "/proxy/http://a/%zz".toList = "http://a/%zz".toList ∧
    matchesHttpScheme "http://a/%zz".toList = true ∧
    decodeURIComponent "http://a/%zz".toList = none ∧
    getTargetUrlFromPath "/proxy/http://a/%zz".toList = none := by
  decide

/-- C17: `isM3u8Content(body, contentType)` is truthy if and only if `contentType`
contains `application/vnd.apple.mpegurl`, `application/x-mpegurl` or `audio/mpegurl`, or
the body without its leading white space begins with `#EXTM3U`. -/
theorem C17_isM3u8Content_iff (body contentType : Str) :
    isM3u8Content body contentType = true ↔
      ("application/vnd.apple.mpegurl".toList <:+: contentType ∨
        "application/x-mpegurl".toList <:+: contentType ∨
        "audio/mpegurl".toList <:+: contentType) ∨
      "#EXTM3U".toList <+: body.dropWhile isWhiteSpace := by
  have hmark : ∀ hne : "#EXTM3U".toList ≠ [],
      isWhiteSpace ("#EXTM3U".toList.getLast hne) = false := by
    intro hne
    have e : "#EXTM3U".toList.getLast hne = 'U' := rfl
    rw [e]
    decide
  have hbody : (!body.isEmpty && startsWith (trim body) "#EXTM3U".toList) = true ↔
      "#EXTM3U".toList <+: body.dropWhile isWhiteSpace := by
    rw [← startsWith_trim body _ hmark]
    cases body with
    | nil => decide
    | cons c cs => simp
  have htype : (!contentType.isEmpty &&
      (includes contentType "application/vnd.apple.mpegurl".toList ||
       includes contentType "application/x-mpegurl".toList ||
       includes contentType "audio/mpegurl".toList)) = true ↔
      ("application/vnd.apple.mpegurl".toList <:+: contentType ∨
        "application/x-mpegurl".toList <:+: contentType ∨
        "audio/mpegurl".toList <:+: contentType) := by
    rw [← includes_iff, ← includes_iff, ← includes_iff]
    cases contentType with
    | nil => decide
    | cons c cs => simp [or_assoc]
  unfold isM3u8Content
  by_cases h : (!contentType.isEmpty &&
      (includes contentType "application/vnd.apple.mpegurl".toList ||
       includes contentType "application/x-mpegurl".toList ||
       includes contentType "audio/mpegurl".toList)) = true
  · rw [if_pos h]
    exact ⟨fun _ => Or.inl (htype.1 h), fun _ => rfl⟩
  · rw [if_neg h, hbody]
    constructor
    · exact Or.inr
    · rintro (h2 | h2)
      · exact absurd (htype.2 h2) h
      · exact h2

/-- C18: `processM3u8Content(url, body, depth)` hands a body to `processMasterPlaylist`
when it contains `#EXT-X-STREAM-INF` or `#EXT-X-MEDIA:`, and only then: a body that
contains neither (a media playlist with `#EXT-X-MEDIA-SEQUENCE` is one) settles, for
every depth and every amount of fuel from one on, with the outcome of
`processMediaPlaylist(url, body)` and with no fetch and no access to the cache. -/
theorem C18_master_iff_markers (U : URLApi) (ctx : Context) (url body : Str) (depth : Nat) :
    (("#EXT-X-STREAM-INF".toList <:+: body ∨ "#EXT-X-MEDIA:".toList <:+: body) →
      ∀ fuel, processM3u8Content U ctx (fuel + 1) url body depth
        = processMasterPlaylist U ctx fuel url body depth) ∧
    (¬ "#EXT-X-STREAM-INF".toList <:+: body → ¬ "#EXT-X-MEDIA:".toList <:+: body →
      ∀ fuel, 1 ≤ fuel →
        processM3u8Content U ctx fuel url body depth
          = some ((processMediaPlaylist U url body).map Value.text, [])) := by
  constructor
  · intro h fuel
    have hm : (includes body "#EXT-X-STREAM-INF".toList ||
        includes body "#EXT-X-MEDIA:".toList) = true := by
      rw [Bool.or_eq_true, includes_iff, includes_iff]
      exact h
    rw [processM3u8Content_succ, if_pos hm]
  · intro h1 h2 fuel hf
    obtain ⟨k, rfl⟩ : ∃ k, fuel = k + 1 := ⟨fuel - 1, by omega⟩
    have hm : ¬ (includes body "#EXT-X-STREAM-INF".toList ||
        includes body "#EXT-X-MEDIA:".toList) = true := by
      rw [Bool.or_eq_true, includes_iff, includes_iff]
      exact fun h => h.elim h1 h2
    rw [processM3u8Content_succ, if_neg hm]

/-- A media playlist with `#EXT-X-MEDIA-SEQUENCE` is rewritten as a media playlist at
depth 3, with no event; the example master is handed to `processMasterPlaylist`. -/
theorem C18_master_iff_markers_witness :
    processM3u8Content sampleURL exampleContext 1 exampleMediaUrl sequenceMediaBody 3
      = some ((processMediaPlaylist sampleURL exampleMediaUrl sequenceMediaBody).map
          Value.text, []) ∧
    processMediaPlaylist sampleURL exampleMediaUrl sequenceMediaBody
      = Res.ok "#EXTM3U\n#EXT-X-MEDIA-SEQUENCE:7\n#EXTINF:4,\n/proxy/https%3A%2F%2Fhost%2Fv%2Fseg1.ts".toList ∧
    processM3u8Content sampleURL exampleContext 3 exampleMasterUrl exampleMasterBody 0
      = processMasterPlaylist sampleURL exampleContext 2 exampleMasterUrl exampleMasterBody 0 :=
  ⟨(C18_master_iff_markers sampleURL exampleContext exampleMediaUrl sequenceMediaBody 3).2
      ((includes_eq_false_iff _ _).1 (by decide)) ((includes_eq_false_iff _ _).1 (by decide))
      1 (by decide),
   by decide,
   (C18_master_iff_markers sampleURL exampleContext exampleMasterUrl exampleMasterBody 0).1
      (Or.inl ((includes_iff _ _).1 (by decide))) 2⟩

/-- C19: for a URL that `new URL` parses, with origin `o` and pathname `p`,
`getBaseUrl` returns a string that ends in `/`; when `p` is `a` followed by its last
`/` and a final segment `b`, it returns `o` followed by `a` and that `/`, so the final
segment is cut off and the query and the fragment, which are no part of `p`, are gone;
when `p` is `/`, and when `p` holds no `/` at all, it returns `o` followed by `/`. -/
theorem C19_getBaseUrl_directory (U : URLApi) (url : Str) (parsedUrl : URLRecord)
    (h : U.parse url none = some parsedUrl) :
    endsWith (getBaseUrl U url) "/".toList = true ∧
    (∀ a b, parsedUrl.pathname = a ++ '/' :: b → '/' ∉ b →
      getBaseUrl U url = parsedUrl.origin ++ (a ++ "/".toList)) ∧
    (parsedUrl.pathname = "/".toList → getBaseUrl U url = parsedUrl.origin ++ "/".toList) ∧
    ('/' ∉ parsedUrl.pathname → getBaseUrl U url = parsedUrl.origin ++ "/".toList) := by
  have hg : getBaseUrl U url
      = parsedUrl.origin ++ join '/' (split '/' parsedUrl.pathname).dropLast ++ "/".toList := by
    simp only [getBaseUrl, h]
  have hdir : ∀ a b, parsedUrl.pathname = a ++ '/' :: b → '/' ∉ b →
      getBaseUrl U url = parsedUrl.origin ++ (a ++ "/".toList) := by
    intro a b hp hb
    rw [hg, hp, split_append_last '/' a b hb, List.dropLast_concat, join_split,
      List.append_assoc]
  refine ⟨?_, hdir, ?_, ?_⟩
  · rw [hg]
    exact endsWith_append _ _
  · intro hp
    exact hdir [] [] hp (by simp)
  · intro hp
    rw [hg, split_of_not_mem '/' _ hp]
    simp [join]

/-- The base of `https://host/v/list.m3u8` is `https://host/v/`, and the base of
`https://host/` is `https://host/`. -/
theorem C19_getBaseUrl_directory_witness :
    getBaseUrl sampleURL exampleMediaUrl = "https://host/v/".toList ∧
    endsWith (getBaseUrl sampleURL exampleMediaUrl) "/".toList = true ∧
    getBaseUrl sampleURL "https://host/".toList = "https://host/".toList :=
  ⟨(C19_getBaseUrl_directory sampleURL exampleMediaUrl
      { href := "https://host/v/list.m3u8".toList, origin := "https://host".toList,
        pathname := "/v/list.m3u8".toList } (by decide)).2.1
      "/v".toList "list.m3u8".toList (by decide) (by decide),
   (C19_getBaseUrl_directory sampleURL exampleMediaUrl
      { href := "https://host/v/list.m3u8".toList, origin := "https://host".toList,
        pathname := "/v/list.m3u8".toList } (by decide)).1,
   (C19_getBaseUrl_directory sampleURL "https://host/".toList
      { href := "https://host/".toList, origin := "https://host".toList,
        pathname := "/".toList } (by decide)).2.2.1 (by decide)⟩

/-- C20 (amended): when the read of the raw tier is a hit whose body and content type
classify as a playlist, the handler runs `processM3u8Content(target, cachedBody, 0)`
without fetching the target and answers with `createM3u8Response` of what it resolves
to, or with the status 500 response of its `catch` when it throws; with fuel at least
14 it does answer.  When the pipeline resolves to a string and the request method is not
`OPTIONS`, the response has that string as body, status 200 and the HLS content type.
A miss in a context with the same request, the same `fetch` and the same processed tier,
whose fetch of the target returns the same body with a content type that classifies as a
playlist, answers with the same response. -/
theorem C20_raw_hit_is_rewritten (U : URLApi) (ctx : Context) (pathname targetUrl : Str)
    (cachedData : RawEntry) (evCache : List Event)
    (ht : getTargetUrlFromPath pathname = some targetUrl)
    (hhit : rawLookup ctx (rawCacheKey targetUrl) = (Res.ok (some cachedData), evCache))
    (hcls : isM3u8Content cachedData.body (cachedContentType cachedData) = true) :
    (∀ fuel, 14 ≤ fuel →
      ∃ r ev, processM3u8Content U ctx fuel targetUrl cachedData.body 0 = some (r, ev) ∧
        onRequest U ctx pathname fuel
          = some (match r with
                  | Res.ok processedM3u8 => createM3u8Response ctx.request processedM3u8
                  | Res.throw e => errorResponse U ctx.request e,
                  evCache ++ ev)) ∧
    (∀ fuel s ev,
      processM3u8Content U ctx fuel targetUrl cachedData.body 0
        = some (Res.ok (Value.text s), ev) →
      ctx.request.method ≠ "OPTIONS".toList →
      ∃ r, onRequest U ctx pathname fuel = some (r, evCache ++ ev) ∧
        r.body = some s ∧ r.status = 200 ∧
        headersGet r.headers "Content-Type".toList = some hlsMimeType) ∧
    (∀ ctx2 fetched ev2 evFetch fuel, SamePipelineContext ctx ctx2 →
      rawLookup ctx2 (rawCacheKey targetUrl) = (Res.ok none, ev2) →
      fetchContentWithType U ctx2 targetUrl = (Res.ok fetched, evFetch) →
      fetched.content = cachedData.body →
      isM3u8Content fetched.content fetched.contentType = true →
      (onRequest U ctx2 pathname fuel).map Prod.fst
        = (onRequest U ctx pathname fuel).map Prod.fst) := by
  have hreq : ∀ fuel, onRequest U ctx pathname fuel
      = respondWithPlaylist U ctx fuel targetUrl cachedData.body evCache := by
    intro fuel
    simp only [onRequest, ht, hhit, hcls, if_true]
  refine ⟨?_, ?_, ?_⟩
  · intro fuel hf
    have h := processM3u8Content_isSome U ctx 6 0 targetUrl cachedData.body (by decide)
    obtain ⟨⟨r, ev⟩, hr⟩ := Option.isSome_iff_exists.1 h
    have hr2 := processM3u8Content_fuel_le U ctx _ _ _ _ 14 fuel hf hr
    refine ⟨r, ev, hr2, ?_⟩
    rw [hreq, respondWithPlaylist, hr2]
    cases r <;> rfl
  · intro fuel s ev hp hm
    refine ⟨createM3u8Response ctx.request (Value.text s), ?_,
      createM3u8Response_text ctx.request s hm⟩
    rw [hreq, respondWithPlaylist, hp]
  · intro ctx2 fetched ev2 evFetch fuel hsame hmiss hfetch hbody hcls2
    have hreq2 : onRequest U ctx2 pathname fuel
        = respondWithPlaylist U ctx2 fuel targetUrl fetched.content
            (ev2 ++ evFetch ++ rawStore ctx2 (rawCacheKey targetUrl) fetched) := by
      simp only [onRequest, ht, hmiss, hfetch, hcls2, if_true]
    rw [hreq, hreq2, map_fst_respondWithPlaylist, map_fst_respondWithPlaylist,
      processM3u8Content_congr U ctx ctx2 hsame, hbody, hsame.1]

/-- A raw-tier hit on the example media playlist is answered with the rewritten
playlist, and a miss that fetches the same playlist answers with the same response. -/
theorem C20_raw_hit_is_rewritten_witness :
    (∃ r, onRequest sampleURL rawHitContext exampleMasterPath 20
          = some (r, [Event.kvGet (rawCacheKey exampleMasterUrl)] ++ []) ∧
        r.body = some "#EXTM3U\n#EXTINF:4,\n/proxy/https%3A%2F%2Fhost%2Fseg1.ts\n".toList ∧
        r.status = 200 ∧
        headersGet r.headers "Content-Type".toList = some hlsMimeType) ∧
    (onRequest sampleURL rawMissContext exampleMasterPath 20).map Prod.fst
      = (onRequest sampleURL rawHitContext exampleMasterPath 20).map Prod.fst ∧
    (onRequest sampleURL rawMissContext exampleMasterPath 20).map Prod.snd
      = some [Event.kvGet (rawCacheKey exampleMasterUrl), Event.fetch exampleMasterUrl,
          Event.kvPutRaw (rawCacheKey exampleMasterUrl) exampleVariantBody
            [("content-type".toList, "application/vnd.apple.mpegurl".toList)] 86400] :=
  ⟨(C20_raw_hit_is_rewritten sampleURL rawHitContext exampleMasterPath exampleMasterUrl
      exampleRawEntry [Event.kvGet (rawCacheKey exampleMasterUrl)] (by decide) (by decide)
      (by decide)).2.1 20 "#EXTM3U\n#EXTINF:4,\n/proxy/https%3A%2F%2Fhost%2Fseg1.ts\n".toList []
      (by decide) (by decide),
   (C20_raw_hit_is_rewritten sampleURL rawHitContext exampleMasterPath exampleMasterUrl
      exampleRawEntry [Event.kvGet (rawCacheKey exampleMasterUrl)] (by decide) (by decide)
      (by decide)).2.2 rawMissContext
      { content := exampleVariantBody, contentType := "application/vnd.apple.mpegurl".toList,
        responseHeaders := [("content-type".toList, "application/vnd.apple.mpegurl".toList)] }
      [Event.kvGet (rawCacheKey exampleMasterUrl)] [Event.fetch exampleMasterUrl] 20
      ⟨rfl, rfl, rfl⟩ (by decide) (by decide) (by decide) (by decide),
   by decide⟩

/-- C20 fails as stated: for an `OPTIONS` request on a raw-tier hit that classifies as a
playlist, the pipeline run on the cached body resolves to the rewritten playlist, but
the response has status 204 and no body. -/
theorem C20_counterexample :
    getTargetUrlFromPath exampleMasterPath = some exampleMasterUrl ∧
    rawLookup preflightHitContext (rawCacheKey exampleMasterUrl)
      = (Res.ok (some exampleRawEntry), [Event.kvGet (rawCacheKey exampleMasterUrl)]) ∧
    isM3u8Content exampleRawEntry.body (cachedContentType exampleRawEntry) = true ∧
    processM3u8Content sampleURL preflightHitContext 20 exampleMasterUrl exampleRawEntry.body 0
      = some (Res.ok (Value.text
          "#EXTM3U\n#EXTINF:4,\n/proxy/https%3A%2F%2Fhost%2Fseg1.ts\n".toList), []) ∧
    (onRequest sampleURL preflightHitContext exampleMasterPath 20).map
        (fun r => (r.1.body, r.1.status))
      = some (none, 204) := by
  decide

/-- C21: whenever `getTargetUrlFromPath` returns a value that is not `null`, that value
is the percent-decoding of the path after a leading `/proxy/` is dropped, and it begins
with `http://` or `https://`.  The branch that returns the raw remainder is never taken:
a raw remainder that begins with `http://` or `https://` and decodes, decodes to a
string that begins with the very same characters, so there is no remainder whose
decoding fails the test while the remainder passes it. -/
theorem C21_result_is_decoded (pathname : Str) :
    (∀ target, getTargetUrlFromPath pathname = some target →
      decodeURIComponent (stripProxyPrefix pathname) = some target ∧
      matchesHttpScheme target = true) ∧
    (∀ d, matchesHttpScheme (stripProxyPrefix pathname) = true →
      decodeURIComponent (stripProxyPrefix pathname) = some d →
      matchesHttpScheme d = true ∧
      ∃ p t d2, stripProxyPrefix pathname = p ++ t ∧ d = p ++ d2 ∧
        decodeURIComponent t = some d2 ∧
        (p.map asciiLower = "http://".toList ∨ p.map asciiLower = "https://".toList)) ∧
    ¬ ∃ d, decodeURIComponent (stripProxyPrefix pathname) = some d ∧
      matchesHttpScheme d = false ∧ matchesHttpScheme (stripProxyPrefix pathname) = true := by
  refine ⟨?_, ?_, ?_⟩
  · intro target h
    by_cases hne : stripProxyPrefix pathname = []
    · simp [getTargetUrlFromPath, hne] at h
    · cases hd : decodeURIComponent (stripProxyPrefix pathname) with
      | none => simp [getTargetUrlFromPath, hne, hd] at h
      | some d =>
        cases hm : matchesHttpScheme d with
        | true =>
          simp only [getTargetUrlFromPath, if_neg hne, hd, hm, Bool.not_true,
            Bool.false_eq_true, if_false, Option.some.injEq] at h
          rw [← h]
          exact ⟨rfl, hm⟩
        | false =>
          by_cases he : matchesHttpScheme (stripProxyPrefix pathname) = true
          · have := matchesHttpScheme_decode _ d he hd
            rw [hm] at this
            exact absurd this (by decide)
          · simp [getTargetUrlFromPath, hne, hd, hm, he] at h
  · intro d he hd
    exact ⟨matchesHttpScheme_decode _ d he hd, decode_keeps_scheme _ d he hd⟩
  · rintro ⟨d, hd, hm, he⟩
    have := matchesHttpScheme_decode _ d he hd
    rw [hm] at this
    exact absurd this (by decide)

/-- The encoded path of the example master gives its decoding, and the path that holds
the URL of the example master without encoding gives its decoding too, which is the
same text. -/
theorem C21_result_is_decoded_witness :
    getTargetUrlFromPath exampleMasterPath = some exampleMasterUrl ∧
    (decodeURIComponent (stripProxyPrefix exampleMasterPath) = some exampleMasterUrl ∧
      matchesHttpScheme exampleMasterUrl = true) ∧
    (matchesHttpScheme exampleMasterUrl = true ∧
      ∃ p t d2, stripProxyPrefix "/proxy/https://host/master.m3u8".toList = p ++ t ∧
        exampleMasterUrl = p ++ d2 ∧ decodeURIComponent t = some d2 ∧
        (p.map asciiLower = "http://".toList ∨ p.map asciiLower = "https://".toList)) :=
  ⟨by decide,
   (C21_result_is_decoded exampleMasterPath).1 exampleMasterUrl (by decide),
   (C21_result_is_decoded "/proxy/https://host/master.m3u8".toList).2.1 exampleMasterUrl
      (by decide) (by decide)⟩

end LibreTV
